import Mathlib

/-! # Particl address codec and script classifier

A shallow embedding of `bchain/coins/part/particlparser.go`.

* Byte slices are `List UInt8`, Go strings are `String`.
* Go code that indexes or slices a byte slice is run in `Option`: `none` is a
  run-time panic (index or slice bounds out of range), `some r` is a normal return.
* A Go `(value, error)` result is an `Except bchain.Error value`; a Go
  `([]string, bool, error)` result is a triple whose last component is `none` for `nil`.
* The base parser `btc.BitcoinLikeParser`, which lives outside this package, is a record
  of the two capabilities this package calls.
* `crypto/sha256` and `btcutil/base58` are library code; they are modelled by executable
  definitions below.
-/

/-- A Go byte slice. -/
abbrev Bytes := List UInt8

/-! ## Go slice primitives -/

namespace Go

/-- The expression `s[i]`: panics (`none`) when `i` is not below `len(s)`. -/
def index (s : Bytes) (i : Nat) : Option UInt8 := s.get? i

/-- The expression `s[lo:hi]`: panics (`none`) unless `lo ≤ hi ≤ len(s)` (the capacity of
a slice is taken to be its length). -/
def slice (s : Bytes) (lo hi : Nat) : Option Bytes :=
  if lo ≤ hi ∧ hi ≤ s.length then some ((s.take hi).drop lo) else none

/-- The test `s[i] == v`, which panics when `s[i]` does. -/
def byteIs (s : Bytes) (i : Nat) (v : UInt8) : Option Bool :=
  (index s i).map (fun b => b == v)

/-- The contents of `dst` after `copy(dst, src)`: the first `min(len(dst), len(src))`
bytes of `src`, then the untouched rest of `dst`. -/
def copy (dst src : Bytes) : Bytes := src.take dst.length ++ dst.drop src.length

/-- Short-circuit conjunction `a && b`: `b` is evaluated only when `a` is true, so a
panic in `b` is not reached when `a` is false. -/
def and (a b : Option Bool) : Option Bool :=
  a.bind (fun x => if x then b else some false)

end Go

/-! ## `crypto/sha256` -/

namespace sha256

/-- Round constants of SHA-256 (FIPS 180-4, section 4.2.2). -/
def K : List Nat := [
  0x428a2f98, 0x71374491, 0xb5c0fbcf, 0xe9b5dba5, 0x3956c25b, 0x59f111f1, 0x923f82a4, 0xab1c5ed5,
  0xd807aa98, 0x12835b01, 0x243185be, 0x550c7dc3, 0x72be5d74, 0x80deb1fe, 0x9bdc06a7, 0xc19bf174,
  0xe49b69c1, 0xefbe4786, 0x0fc19dc6, 0x240ca1cc, 0x2de92c6f, 0x4a7484aa, 0x5cb0a9dc, 0x76f988da,
  0x983e5152, 0xa831c66d, 0xb00327c8, 0xbf597fc7, 0xc6e00bf3, 0xd5a79147, 0x06ca6351, 0x14292967,
  0x27b70a85, 0x2e1b2138, 0x4d2c6dfc, 0x53380d13, 0x650a7354, 0x766a0abb, 0x81c2c92e, 0x92722c85,
  0xa2bfe8a1, 0xa81a664b, 0xc24b8b70, 0xc76c51a3, 0xd192e819, 0xd6990624, 0xf40e3585, 0x106aa070,
  0x19a4c116, 0x1e376c08, 0x2748774c, 0x34b0bcb5, 0x391c0cb3, 0x4ed8aa4a, 0x5b9cca4f, 0x682e6ff3,
  0x748f82ee, 0x78a5636f, 0x84c87814, 0x8cc70208, 0x90befffa, 0xa4506ceb, 0xbef9a3f7, 0xc67178f2]

/-- Truncation of a natural number to a 32-bit word. -/
def w32 (n : Nat) : Nat := n % 4294967296

/-- Rotate a 32-bit word right by `n` bits. -/
def rotr (x n : Nat) : Nat := (x >>> n) ||| w32 (x <<< (32 - n))

/-- Bitwise complement of a 32-bit word. -/
def not32 (x : Nat) : Nat := 4294967295 - x

/-- Message padding: a `0x80` byte, zero bytes up to 56 mod 64, then the bit length as a
64-bit big-endian integer. -/
def pad (msg : List Nat) : List Nat :=
  let l := msg.length
  msg ++ [0x80] ++ List.replicate ((119 - l % 64) % 64) 0 ++
    (List.range 8).map (fun i => ((8 * l) >>> (8 * (7 - i))) % 256)

/-- Big-endian 32-bit words of a byte string whose length is a multiple of four. -/
def beWords : List Nat → List Nat
  | a :: b :: c :: d :: rest => (((a * 256 + b) * 256 + c) * 256 + d) :: beWords rest
  | _ => []

/-- Message schedule: extends the 16 block words by `n` further words. -/
def schedule (w : List Nat) : Nat → List Nat
  | 0 => w
  | n + 1 =>
    let i := w.length
    let w15 := w.getD (i - 15) 0
    let w2 := w.getD (i - 2) 0
    let s0 := rotr w15 7 ^^^ rotr w15 18 ^^^ (w15 >>> 3)
    let s1 := rotr w2 17 ^^^ rotr w2 19 ^^^ (w2 >>> 10)
    schedule (w ++ [w32 (w.getD (i - 16) 0 + s0 + w.getD (i - 7) 0 + s1)]) n

/-- The eight working variables of the compression function. -/
structure State where
  a : Nat
  b : Nat
  c : Nat
  d : Nat
  e : Nat
  f : Nat
  g : Nat
  h : Nat

/-- One round of the compression function with round constant `k` and schedule word `w`. -/
def step (s : State) (k w : Nat) : State :=
  let S1 := rotr s.e 6 ^^^ rotr s.e 11 ^^^ rotr s.e 25
  let ch := (s.e &&& s.f) ^^^ (not32 s.e &&& s.g)
  let t1 := w32 (s.h + S1 + ch + k + w)
  let S0 := rotr s.a 2 ^^^ rotr s.a 13 ^^^ rotr s.a 22
  let maj := (s.a &&& s.b) ^^^ (s.a &&& s.c) ^^^ (s.b &&& s.c)
  let t2 := w32 (S0 + maj)
  ⟨w32 (t1 + t2), s.a, s.b, s.c, w32 (s.d + t1), s.e, s.f, s.g⟩

/-- All rounds, one per pair of round constant and schedule word. -/
def steps (s : State) : List Nat → List Nat → State
  | k :: ks, w :: ws => steps (step s k w) ks ws
  | _, _ => s

/-- Compression of one 64-byte block into the chaining value. -/
def compress (h : State) (block : List Nat) : State :=
  let r := steps h K (schedule (beWords block) 48)
  ⟨w32 (h.a + r.a), w32 (h.b + r.b), w32 (h.c + r.c), w32 (h.d + r.d),
   w32 (h.e + r.e), w32 (h.f + r.f), w32 (h.g + r.g), w32 (h.h + r.h)⟩

/-- Compression of the first `n` 64-byte blocks of `m`. -/
def blocks (h : State) (m : List Nat) : Nat → State
  | 0 => h
  | n + 1 => blocks (compress h (m.take 64)) (m.drop 64) n

/-- The four bytes of a 32-bit word, most significant first. -/
def wordBytes (x : Nat) : Bytes :=
  [UInt8.ofNat (x >>> 24 % 256), UInt8.ofNat (x >>> 16 % 256), UInt8.ofNat (x >>> 8 % 256),
   UInt8.ofNat (x % 256)]

/-- Modelled from the spec: the SHA-256 digest that the spec's "double-SHA256" checksum is
built from (Go's `sha256.Sum256`, library code), as specified in FIPS 180-4. -/
def Sum256 (data : Bytes) : Bytes :=
  let p := pad (data.map UInt8.toNat)
  let r := blocks ⟨0x6a09e667, 0xbb67ae85, 0x3c6ef372, 0xa54ff53a,
                   0x510e527f, 0x9b05688c, 0x1f83d9ab, 0x5be0cd19⟩ p (p.length / 64)
  wordBytes r.a ++ wordBytes r.b ++ wordBytes r.c ++ wordBytes r.d ++
    wordBytes r.e ++ wordBytes r.f ++ wordBytes r.g ++ wordBytes r.h

end sha256

/-! ## `btcutil/base58` -/

namespace base58

/-- Digits of `n` in the given base, least significant first; `fuel` bounds the number of
divisions and `fuel = n` always suffices. -/
def digitsLE (base : Nat) : Nat → Nat → List Nat
  | 0, _ => []
  | fuel + 1, n => if n = 0 then [] else n % base :: digitsLE base fuel (n / base)

/-- The method `big.Int.Bytes`: the minimal big-endian byte string of a natural number
(empty for zero). -/
def bigBytes (n : Nat) : Bytes := ((digitsLE 256 n n).reverse).map UInt8.ofNat

/-- The method `big.Int.SetBytes`: the natural number with the given big-endian bytes. -/
def setBytes (b : Bytes) : Nat := b.foldl (fun acc x => acc * 256 + x.toNat) 0

/-- The base58 alphabet of Bitcoin. -/
def alphabet : List Char :=
  "123456789ABCDEFGHJKLMNPQRSTUVWXYZabcdefghijkmnopqrstuvwxyz".toList

/-- The decoding table `b58`: the index of a character in the alphabet, 255 for a
character outside it. -/
def b58 (c : Char) : Nat := if alphabet.indexOf c < 58 then alphabet.indexOf c else 255

/-- Modelled from the spec: "base58-decode without checksum enforcement" (library function
`base58.Decode`). A string with a character outside the alphabet decodes to the empty
slice; otherwise each leading `1` gives a zero byte and the rest is the big-endian value. -/
def Decode (b : String) : Bytes :=
  if b.toList.any (fun c => b58 c == 255) then []
  else
    let answer := b.toList.foldl (fun acc c => acc * 58 + b58 c) 0
    let tmpval := bigBytes answer
    let numZeros := (b.toList.takeWhile (fun c => c == '1')).length
    List.replicate numZeros 0 ++ tmpval

/-- Modelled from the spec: the base58 encoding of a byte string (library function
`base58.Encode`), the inverse of `Decode`: the base-58 digits of the big-endian value,
preceded by one `1` for each leading zero byte. -/
def Encode (b : Bytes) : String :=
  let x := setBytes b
  let answer := (digitsLE 58 x x).map (fun d => alphabet.getD d '1')
  let answer := answer ++ List.replicate (b.takeWhile (fun i => i == 0)).length '1'
  String.mk answer.reverse

/-- Modelled from the spec: the checksum function "double-SHA256" (library constant
`base58.Sha256D`): the first 4 bytes of SHA256(SHA256(input)). -/
def Sha256D (input : Bytes) : Bytes := (sha256.Sum256 (sha256.Sum256 input)).take 4

/-- Modelled from the spec: "base58check-encode version byte ‖ 32-byte hash" (library
function `base58.CheckEncode`): the base58 encoding of version, input and the checksum of
version followed by input. -/
def CheckEncode (input : Bytes) (version : Bytes) (h : Bytes → Bytes) : String :=
  Encode (version ++ input ++ h (version ++ input))

end base58

/-! ## The types this package takes from `chaincfg`, `bchain` and `btc` -/

namespace chaincfg

/-- The fields of `chaincfg.Params` that this package sets. -/
structure Params where
  Name : String
  Net : Nat
  PubKeyHashAddrID : Bytes
  ScriptHashAddrID : Bytes
  PrivateKeyID : Bytes
  Bech32HRPSegwit : String
deriving DecidableEq, Repr

end chaincfg

namespace bchain

/-- Go error values: the sentinel `bchain.ErrAddressMissing`, or any other error (those
come from the base parser). -/
inductive Error where
  | ErrAddressMissing
  | other (msg : String)
deriving DecidableEq, Repr

deriving instance DecidableEq for Except

/-- The type `bchain.AddressDescriptor`. -/
abbrev AddressDescriptor := Bytes

end bchain

namespace common

/-- Modelled from the spec: "the backend's decimal-amount representation", the type
`common.JSONNumber` (declared outside this package): the text of a JSON number. -/
abbrev JSONNumber := String

end common

namespace btc

/-- The type `btc.OutputScriptToAddressesFunc`: addresses, validity flag, error. The
addresses are a `[]string`, which can be `nil` (`none`). -/
abbrev OutputScriptToAddressesFunc := Bytes → Option (List String) × Bool × Option bchain.Error

/-- The capabilities of the base parser `btc.BitcoinLikeParser` used by this package: its
network parameters, its address decoder, the script classifier it is built with and its
amount conversion (a `big.Int` is an `Int`). -/
structure BitcoinLikeParser where
  Params : chaincfg.Params
  GetAddrDescFromAddress : String → Except bchain.Error bchain.AddressDescriptor
  OutputScriptToAddressesFunc : OutputScriptToAddressesFunc
  AmountToBigInt : common.JSONNumber → Except bchain.Error Int

/-- Modelled from the spec: the "generic address-string ↔ descriptor codec for standard
script types" of the base parser (its method `GetAddrDescFromAddress`, not in this
package), for the two base58check types. The string is base58-decoded and its last 4
bytes must be the double-SHA256 checksum of the bytes before them; these are the
pubkey-hash version of the network and a 20-byte hash, which gives the P2PKH script
`76 a9 14 <hash> 88 ac`, or the script-hash version and a 20-byte hash, which gives the
P2SH script `a9 14 <hash> 87`. Every other string is rejected. Segwit addresses are not
modelled. -/
def GetAddrDescFromAddress (params : chaincfg.Params) (address : String) :
    Except bchain.Error bchain.AddressDescriptor :=
  let decoded := base58.Decode address
  let payload := decoded.take (decoded.length - 4)
  let cksum := decoded.drop (decoded.length - 4)
  if decoded.length < 5 then .error (bchain.Error.other "invalid format: version and/or checksum bytes missing")
  else if cksum ≠ base58.Sha256D payload then .error (bchain.Error.other "checksum error")
  else if payload = params.PubKeyHashAddrID ++ payload.drop params.PubKeyHashAddrID.length ∧
      (payload.drop params.PubKeyHashAddrID.length).length = 20 then
    .ok ([0x76, 0xa9, 0x14] ++ payload.drop params.PubKeyHashAddrID.length ++ [0x88, 0xac])
  else if payload = params.ScriptHashAddrID ++ payload.drop params.ScriptHashAddrID.length ∧
      (payload.drop params.ScriptHashAddrID.length).length = 20 then
    .ok ([0xa9, 0x14] ++ payload.drop params.ScriptHashAddrID.length ++ [0x87])
  else .error (bchain.Error.other "decoded address is of unknown format")

/-- Modelled from the spec: the "generic script-to-address resolution for standard types"
of the base parser (its function `outputScriptToAddresses`, not in this package), for the
same two types: a 25-byte script `76 a9 14 <hash> 88 ac` has the base58check address of
the pubkey-hash version and its hash, a 23-byte script `a9 14 <hash> 87` that of the
script-hash version and its hash, both searchable; every other script has no address. -/
def outputScriptToAddresses (params : chaincfg.Params) (script : Bytes) :
    Option (List String) × Bool × Option bchain.Error :=
  if script.length = 25 ∧ script.take 3 = [0x76, 0xa9, 0x14] ∧ script.drop 23 = [0x88, 0xac] then
    (some [base58.CheckEncode ((script.take 23).drop 3) params.PubKeyHashAddrID base58.Sha256D],
      true, none)
  else if script.length = 23 ∧ script.take 2 = [0xa9, 0x14] ∧ script.drop 22 = [0x87] then
    (some [base58.CheckEncode ((script.take 22).drop 2) params.ScriptHashAddrID base58.Sha256D],
      true, none)
  else (some [], false, none)

/-- Modelled from the spec: the constructor `btc.NewBitcoinLikeParser(params, c)` of the
base parser, with the standard codec above for the network parameters; the amount
conversion is the one given. -/
def NewBitcoinLikeParser (params : chaincfg.Params)
    (AmountToBigInt : common.JSONNumber → Except bchain.Error Int) : BitcoinLikeParser :=
  { Params := params
    GetAddrDescFromAddress := GetAddrDescFromAddress params
    OutputScriptToAddressesFunc := outputScriptToAddresses params
    AmountToBigInt := AmountToBigInt }

end btc

/-! ## Package `part` -/

namespace part

/-- The struct `ParticlParser` (lines 62-66): the embedded base parser and the saved
standard classifier. -/
structure ParticlParser where
  BitcoinLikeParser : btc.BitcoinLikeParser
  BitcoinOutputScriptToAddressesFunc : btc.OutputScriptToAddressesFunc

/-- The struct `ParticlP2CSAddress` (lines 557-561). -/
structure ParticlP2CSAddress where
  pubKeyHash : Bytes
  versionByte : UInt8
  params : chaincfg.Params

/-- The method `ParticlP2CSAddress.String` (lines 564-569). -/
def ParticlP2CSAddress.String (a : ParticlP2CSAddress) : String :=
  base58.CheckEncode a.pubKeyHash [a.versionByte] base58.Sha256D

/-- The method `ParticlParser.GetAddrDescFromAddress` (lines 82-135). The script of each
success branch is `make([]byte, n)` with its opcode bytes set and the payload copied into
the 32-byte window in between. -/
def ParticlParser.GetAddrDescFromAddress (p : ParticlParser) (address : String) :
    Option (Except bchain.Error bchain.AddressDescriptor) :=
  match p.BitcoinLikeParser.GetAddrDescFromAddress address with
  | .ok desc => some (.ok desc)
  | .error _ =>
    let decoded := base58.Decode address
    if decoded.length < 5 then some (.error bchain.Error.ErrAddressMissing)
    else do
      let version ← Go.index decoded 0
      let payload ← Go.slice decoded 1 (decoded.length - 4)
      let checksum ← Go.slice decoded (decoded.length - 4) decoded.length
      let hash1 := sha256.Sum256 (← Go.slice decoded 0 (decoded.length - 4))
      let hash2 := sha256.Sum256 hash1
      if (hash2.take 4 != checksum) then pure (.error bchain.Error.ErrAddressMissing)
      else if version == 0x39 && payload.length == 32 then
        pure (.ok ([0x76, 0xa8, 0x20] ++ Go.copy (List.replicate 32 0) payload ++ [0x88, 0xac]))
      else if version == 0x3d && payload.length == 32 then
        pure (.ok ([0xa8, 0x20] ++ Go.copy (List.replicate 32 0) payload ++ [0x87]))
      else pure (.error bchain.Error.ErrAddressMissing)

/-- The method `ParticlParser.outputScriptToAddresses` (lines 449-554). Each `if` without
`else` falls through to the statement after it, as in the source. -/
def ParticlParser.outputScriptToAddresses (p : ParticlParser) (script : Bytes) :
    Option (Option (List String) × Bool × Option bchain.Error) := do
  if ← Go.and (some (script.length == 66 || script.length == 64))
      (Go.and (Go.byteIs script 0 0xb8) (Go.byteIs script 1 0x63)) then
    if ← Go.and (Go.byteIs script 2 0x76)
        (Go.and (Go.byteIs script 3 0xa9) (Go.byteIs script 4 0x14)) then
      if ← Go.and (Go.byteIs script 27 0x67) (Go.byteIs script (script.length - 1) 0x68) then
        let stakingScript ← Go.slice script 28 (script.length - 1)
        if ← Go.and (some (stakingScript.length == 37))
            (Go.and (Go.byteIs stakingScript 0 0x76)
            (Go.and (Go.byteIs stakingScript 1 0xa8)
            (Go.and (Go.byteIs stakingScript 2 0x20)
            (Go.and (Go.byteIs stakingScript 35 0x88) (Go.byteIs stakingScript 36 0xac))))) then
          let pubKeyHash ← Go.slice stakingScript 3 35
          let addr : ParticlP2CSAddress :=
            { pubKeyHash := pubKeyHash, versionByte := 0x39, params := p.BitcoinLikeParser.Params }
          return (some [addr.String], true, none)
        if ← Go.and (some (stakingScript.length == 35))
            (Go.and (Go.byteIs stakingScript 0 0xa8)
            (Go.and (Go.byteIs stakingScript 1 0x20) (Go.byteIs stakingScript 34 0x87))) then
          let scriptHash ← Go.slice stakingScript 2 34
          let addr : ParticlP2CSAddress :=
            { pubKeyHash := scriptHash, versionByte := 0x3d, params := p.BitcoinLikeParser.Params }
          return (some [addr.String], true, none)
  if ← Go.and (some (script.length == 37))
      (Go.and (Go.byteIs script 0 0x76)
      (Go.and (Go.byteIs script 1 0xa8)
      (Go.and (Go.byteIs script 2 0x20)
      (Go.and (Go.byteIs script 35 0x88) (Go.byteIs script 36 0xac))))) then
    let pubKeyHash ← Go.slice script 3 35
    let addr : ParticlP2CSAddress :=
      { pubKeyHash := pubKeyHash, versionByte := 0x39, params := p.BitcoinLikeParser.Params }
    return (some [addr.String], true, none)
  if ← Go.and (some (script.length == 35))
      (Go.and (Go.byteIs script 0 0xa8)
      (Go.and (Go.byteIs script 1 0x20) (Go.byteIs script 34 0x87))) then
    let scriptHash ← Go.slice script 2 34
    let addr : ParticlP2CSAddress :=
      { pubKeyHash := scriptHash, versionByte := 0x3d, params := p.BitcoinLikeParser.Params }
    return (some [addr.String], true, none)
  let (rv, s, _) := p.BitcoinOutputScriptToAddressesFunc script
  return (rv, s, none)

/-- Modelled from the spec: `descriptorToAddresses(bytes) → ([]string, isValid)`, the
method `GetAddressesFromAddrDesc` of the base parser (not in this package): it passes the
descriptor to the parser's `OutputScriptToAddressesFunc`, which `NewParticlParser` sets to
`outputScriptToAddresses`. -/
def ParticlParser.GetAddressesFromAddrDesc (p : ParticlParser) (addrDesc : bchain.AddressDescriptor) :
    Option (Option (List String) × Bool × Option bchain.Error) :=
  p.outputScriptToAddresses addrDesc

/-- The constructor `NewParticlParser` (lines 69-78); its argument is the base parser returned by
`btc.NewBitcoinLikeParser(params, c)`, whose classifier is saved as the standard one. -/
def NewParticlParser (b : btc.BitcoinLikeParser) : ParticlParser :=
  { BitcoinLikeParser := b, BitcoinOutputScriptToAddressesFunc := b.OutputScriptToAddressesFunc }

/-- The variable `MainNetParams` as set by `init` (lines 34-40). -/
def MainNetParams : chaincfg.Params :=
  { Name := "Particl", Net := 0xfbf2efb4, PubKeyHashAddrID := [56], ScriptHashAddrID := [60],
    PrivateKeyID := [108], Bech32HRPSegwit := "pw" }

/-- The P2PKH script of the test fixtures, `76a914a5cea39a684776fa5d6782faf02baf04251b53bc88ac`. -/
def fixtureP2PKH : Bytes :=
  [0x76, 0xa9, 0x14, 0xa5, 0xce, 0xa3, 0x9a, 0x68, 0x47, 0x76, 0xfa, 0x5d, 0x67, 0x82, 0xfa,
   0xf0, 0x2b, 0xaf, 0x04, 0x25, 0x1b, 0x53, 0xbc, 0x88, 0xac]

/-- A base parser that knows one standard address, the P2PKH pair of the test fixtures,
and rejects every other string and script, a script with the `nil` list and an error, as
the base classifier returns on an error; it converts the amounts `1352.23715049` (of the
test fixtures) and `0.5` and fails on every other text. -/
def fixtureBase : btc.BitcoinLikeParser :=
  { Params := MainNetParams
    GetAddrDescFromAddress := fun a =>
      if a = "Po3VBGWztKbFnU9rFGKNx2Rtg1zWoS4zTR" then .ok fixtureP2PKH
      else .error (bchain.Error.other "decoded address is of unknown format")
    OutputScriptToAddressesFunc := fun s =>
      if s = fixtureP2PKH then (some ["Po3VBGWztKbFnU9rFGKNx2Rtg1zWoS4zTR"], true, none)
      else (none, false, some (bchain.Error.other "unknown script"))
    AmountToBigInt := fun n =>
      if n = "1352.23715049" then .ok 135223715049
      else if n = "0.5" then .ok 50000000
      else .error (bchain.Error.other "AmountToBigInt: failed to convert") }

/-- The parser of the tests, built over `fixtureBase`. -/
def fixtureParser : ParticlParser := NewParticlParser fixtureBase

/-- A base parser for which no string is a standard address and no script is standard. -/
def rejectingBase : btc.BitcoinLikeParser :=
  { Params := MainNetParams
    GetAddrDescFromAddress := fun _ =>
      .error (bchain.Error.other "decoded address is of unknown format")
    OutputScriptToAddressesFunc := fun _ =>
      (none, false, some (bchain.Error.other "unknown script"))
    AmountToBigInt := fun _ =>
      .error (bchain.Error.other "AmountToBigInt: failed to convert") }

/-- The 20-byte key hash in the IF branch of the coinstake test fixtures. -/
def fixtureKeyHash : Bytes :=
  [0x91, 0x2e, 0x2b, 0x23, 0x4f, 0x94, 0x1f, 0x30, 0xb1, 0x8a, 0xfb, 0xb4, 0xfa, 0x46, 0x17,
   0x12, 0x14, 0xbf, 0x66, 0xc8]

/-- The 32-byte hash in the ELSE branch of the 66-byte coinstake test fixture. -/
def fixtureHashCoinstake : Bytes :=
  [0x7b, 0xe3, 0xf0, 0x9c, 0x8d, 0x80, 0x9b, 0xc6, 0xfa, 0x2c, 0xed, 0x97, 0xe3, 0x5c, 0x65, 0xd8,
   0x13, 0xf2, 0x91, 0x29, 0x64, 0x5b, 0xfb, 0x45, 0xfa, 0x33, 0x62, 0xd2, 0x8d, 0x46, 0x12, 0x31]

/-- The 32-byte hash of the P2CS test fixtures. -/
def fixtureHashP2CS : Bytes :=
  [0x06, 0x37, 0xbc, 0xc7, 0x4f, 0xfe, 0x83, 0x4b, 0xc6, 0x6f, 0x1e, 0x8c, 0x5b, 0xd6, 0xa1, 0x3b,
   0xc7, 0xa1, 0x72, 0x76, 0x33, 0x8b, 0xe0, 0x01, 0x6b, 0xa8, 0x15, 0x1a, 0x2c, 0x54, 0x73, 0xfa]

/-- The 32-byte hash of the P2SH256 test fixtures. -/
def fixtureHashP2SH256 : Bytes :=
  [0x16, 0xb5, 0x03, 0x8b, 0xa9, 0x14, 0xc4, 0x8c, 0xc6, 0x7b, 0x15, 0xc9, 0x80, 0x73, 0x1c, 0x7d,
   0x46, 0x28, 0xfb, 0x2e, 0x18, 0x59, 0x1d, 0xb9, 0x05, 0x8b, 0xea, 0xd5, 0x91, 0xae, 0xfd, 0x76]

/-! ### Closed form of the classifier -/

/-- The test of the standalone P2CS rule: 37 bytes `76 a8 20 … 88 ac`. -/
def isP2CS (s : Bytes) : Bool :=
  s.length == 37 && s.getD 0 0 == 0x76 && s.getD 1 0 == 0xa8 && s.getD 2 0 == 0x20 &&
    s.getD 35 0 == 0x88 && s.getD 36 0 == 0xac

/-- The test of the standalone P2SH256 rule: 35 bytes `a8 20 … 87`. -/
def isP2SH256 (s : Bytes) : Bool :=
  s.length == 35 && s.getD 0 0 == 0xa8 && s.getD 1 0 == 0x20 && s.getD 34 0 == 0x87

/-- The tests that guard the coinstake rules: 66 or 64 bytes, `b8 63 76 a9 14` at offsets
0..4, `67` at offset 27 and `68` as last byte. -/
def isCoinstakeEnvelope (s : Bytes) : Bool :=
  (s.length == 66 || s.length == 64) && s.getD 0 0 == 0xb8 && s.getD 1 0 == 0x63 &&
    s.getD 2 0 == 0x76 && s.getD 3 0 == 0xa9 && s.getD 4 0 == 0x14 &&
    s.getD 27 0 == 0x67 && s.getD (s.length - 1) 0 == 0x68

/-- The ELSE branch of a coinstake script: bytes 28 up to, not including, the last. -/
def stakingScript (s : Bytes) : Bytes := (s.take (s.length - 1)).drop 28

/-- The scripts that `outputScriptToAddresses` resolves by one of its Particl-specific rules. -/
def isParticlScript (s : Bytes) : Bool :=
  (isCoinstakeEnvelope s && (isP2CS (stakingScript s) || isP2SH256 (stakingScript s))) ||
    isP2CS s || isP2SH256 s

/-- The two standalone rules and the delegation to the standard classifier. -/
def standaloneResult (p : ParticlParser) (s : Bytes) : Option (List String) × Bool × Option bchain.Error :=
  if isP2CS s then
    (some [ParticlP2CSAddress.String ⟨(s.take 35).drop 3, 0x39, p.BitcoinLikeParser.Params⟩], true, none)
  else if isP2SH256 s then
    (some [ParticlP2CSAddress.String ⟨(s.take 34).drop 2, 0x3d, p.BitcoinLikeParser.Params⟩], true, none)
  else ((p.BitcoinOutputScriptToAddressesFunc s).1, (p.BitcoinOutputScriptToAddressesFunc s).2.1, none)

/-- The closed form of `outputScriptToAddresses`: the two coinstake rules, then
`standaloneResult`. -/
def classifyResult (p : ParticlParser) (s : Bytes) : Option (List String) × Bool × Option bchain.Error :=
  if isCoinstakeEnvelope s && isP2CS (stakingScript s) then
    (some [ParticlP2CSAddress.String
      ⟨((stakingScript s).take 35).drop 3, 0x39, p.BitcoinLikeParser.Params⟩], true, none)
  else if isCoinstakeEnvelope s && isP2SH256 (stakingScript s) then
    (some [ParticlP2CSAddress.String
      ⟨((stakingScript s).take 34).drop 2, 0x3d, p.BitcoinLikeParser.Params⟩], true, none)
  else standaloneResult p s

/-! ### The documented shapes and the order of the rules -/

/-- The 25-byte standard P2PKH layout: `76 a9 14`, 20 bytes, `88 ac`. -/
def isP2PKH (s : Bytes) : Bool :=
  s.length == 25 && s.getD 0 0 == 0x76 && s.getD 1 0 == 0xa9 && s.getD 2 0 == 0x14 &&
    s.getD 23 0 == 0x88 && s.getD 24 0 == 0xac

/-- Shape 1 as the specification words it: 66 bytes,
`ISCOINSTAKE IF <25-byte P2PKH> ELSE <37-byte P2CS> ENDIF`. -/
def documentedCoinstake66 (s : Bytes) : Bool :=
  s.length == 66 && s.getD 0 0 == 0xb8 && s.getD 1 0 == 0x63 && isP2PKH ((s.take 27).drop 2) &&
    s.getD 27 0 == 0x67 && isP2CS ((s.take 65).drop 28) && s.getD 65 0 == 0x68

/-- Shape 2 as the specification words it: 64 bytes,
`ISCOINSTAKE IF <25-byte P2PKH> ELSE <35-byte P2SH256> ENDIF`. -/
def documentedCoinstake64 (s : Bytes) : Bool :=
  s.length == 64 && s.getD 0 0 == 0xb8 && s.getD 1 0 == 0x63 && isP2PKH ((s.take 27).drop 2) &&
    s.getD 27 0 == 0x67 && isP2SH256 ((s.take 63).drop 28) && s.getD 63 0 == 0x68

/-- A script that has one of the four documented Particl-specific shapes. -/
def matchesDocumentedShape (s : Bytes) : Bool :=
  documentedCoinstake66 s || documentedCoinstake64 s || isP2CS s || isP2SH256 s

/-- The 66-byte coinstake script of the test fixtures with the last two bytes of its IF
branch (`88 ac`, offsets 25 and 26) replaced by `00 00`. -/
def brokenCoinstake66 : Bytes :=
  [0xb8, 0x63] ++ ([0x76, 0xa9, 0x14] ++ fixtureKeyHash ++ [0x00, 0x00]) ++ [0x67] ++
    ([0x76, 0xa8, 0x20] ++ fixtureHashCoinstake ++ [0x88, 0xac]) ++ [0x68]

/-- The 64-byte coinstake script of the test fixtures with the last two bytes of its IF
branch (`88 ac`, offsets 25 and 26) replaced by `00 00`. -/
def brokenCoinstake64 : Bytes :=
  [0xb8, 0x63] ++ ([0x76, 0xa9, 0x14] ++ fixtureKeyHash ++ [0x00, 0x00]) ++ [0x67] ++
    ([0xa8, 0x20] ++ fixtureHashP2SH256 ++ [0x87]) ++ [0x68]

/-- The result type of the classifier. -/
abbrev ClassifyResult := Option (List String) × Bool × Option bchain.Error

/-- The four Particl-specific patterns as the classifier tests them, in source order:
66-byte composite, 64-byte composite, 37-byte standalone, 35-byte standalone. -/
def particlPatterns : List (Bytes → Bool) :=
  [fun s => isCoinstakeEnvelope s && isP2CS (stakingScript s),
   fun s => isCoinstakeEnvelope s && isP2SH256 (stakingScript s),
   isP2CS, isP2SH256]

/-- The four Particl-specific rules, in source order: each pattern with the result the
classifier returns when it matches. -/
def particlRules (p : ParticlParser) : List (Bytes → Option ClassifyResult) :=
  [fun s => if isCoinstakeEnvelope s && isP2CS (stakingScript s) then
      some (some [ParticlP2CSAddress.String
        ⟨((stakingScript s).take 35).drop 3, 0x39, p.BitcoinLikeParser.Params⟩], true, none)
    else none,
   fun s => if isCoinstakeEnvelope s && isP2SH256 (stakingScript s) then
      some (some [ParticlP2CSAddress.String
        ⟨((stakingScript s).take 34).drop 2, 0x3d, p.BitcoinLikeParser.Params⟩], true, none)
    else none,
   fun s => if isP2CS s then
      some (some [ParticlP2CSAddress.String
        ⟨(s.take 35).drop 3, 0x39, p.BitcoinLikeParser.Params⟩], true, none)
    else none,
   fun s => if isP2SH256 s then
      some (some [ParticlP2CSAddress.String
        ⟨(s.take 34).drop 2, 0x3d, p.BitcoinLikeParser.Params⟩], true, none)
    else none]

/-- The classifier with its rules tested in the given order: the first rule that matches
gives the result, and the standard classifier is consulted when none does. -/
def classifyInOrder (p : ParticlParser) (rules : List (Bytes → Option ClassifyResult))
    (s : Bytes) : ClassifyResult :=
  match rules.findSome? (fun r => r s) with
  | some r => r
  | none => ((p.BitcoinOutputScriptToAddressesFunc s).1,
      (p.BitcoinOutputScriptToAddressesFunc s).2.1, none)

end part

/-! ## The JSON normalizer -/

namespace Go

/-- A finite `float64`, as the rational number it denotes. This package only compares such
a value with zero and copies it; JSON decoding yields no NaN and no infinity. -/
abbrev float64 := Rat

/-- The length `len(s)` of a slice of strings that may be `nil` (`none`). -/
def len (s : Option (List String)) : Nat :=
  match s with
  | none => 0
  | some l => l.length

end Go

namespace json

/-- The type `json.RawMessage`: the text of a JSON value. -/
abbrev RawMessage := String

end json

namespace part

/-- The struct `ParticlTxData` (lines 342-344). -/
structure ParticlTxData where
  CTFee : Go.float64
deriving DecidableEq, Repr

end part

namespace bchain

/-- Modelled from the spec: the unlocking script of a standard input; the struct
`bchain.ScriptSig` (declared outside this package). -/
structure ScriptSig where
  Hex : String
deriving DecidableEq, Repr

/-- Modelled from the spec: the canonical Input (coinbase marker, previous txid and output
index with unlocking script, or anonymous-ring marker with count of real inputs and ring
size); the struct `bchain.Vin` (declared outside this package) with the fields this package
sets. A `uint32` is a `Nat`. -/
structure Vin where
  Coinbase : String
  Txid : String
  Vout : Nat
  ScriptSig : ScriptSig
  Sequence : Nat
  InputType : String
  AnonInputs : Nat
  RingSize : Nat
deriving DecidableEq, Repr

/-- Modelled from the spec: the locking script of an output and its address set; the struct
`bchain.ScriptPubKey` (declared outside this package). The address slice may be `nil`
(`none`). -/
structure ScriptPubKey where
  Hex : String
  Addresses : Option (List String)
deriving DecidableEq, Repr

/-- Modelled from the spec: the canonical Output (value in minor units, address set,
output-type tag, value commitment, range proof, carried data); the struct `bchain.Vout`
(declared outside this package) with the fields this package sets. -/
structure Vout where
  ValueSat : Int
  JsonValue : common.JSONNumber
  N : Nat
  ScriptPubKey : ScriptPubKey
  OutputType : String
  ValueCommitment : String
  Data : String
  RangeProof : String
deriving DecidableEq, Repr

/-- Modelled from the spec: the canonical Transaction (version, lock time, id, ordered
inputs, ordered outputs, optional coin-specific side-channel data); the struct `bchain.Tx`
(declared outside this package) with the fields this package sets. `CoinSpecificData` is an
`interface{}` that is `nil` (`none`) or points to a `ParticlTxData`. -/
structure Tx where
  Hex : String
  Txid : String
  Version : Int
  LockTime : Nat
  Vin : List Vin
  Vout : List Vout
  Confirmations : Nat
  Blocktime : Int
  Time : Int
  CoinSpecificData : Option part.ParticlTxData
deriving DecidableEq, Repr

end bchain

namespace part

/-- The struct `ParticlScriptPubKey` (lines 294-299); `ScriptType` is its field `Type`. The
address slice is `nil` (`none`) when the JSON has no `addresses` member. -/
structure ParticlScriptPubKey where
  Hex : String
  Addresses : Option (List String)
  Address : String
  ScriptType : String
deriving DecidableEq, Repr

/-- The struct `ParticlVin` (lines 302-313). -/
structure ParticlVin where
  Coinbase : String
  Txid : String
  Vout : Nat
  ScriptSig : bchain.ScriptSig
  Sequence : Nat
  InputType : String
  AnonInputs : Nat
  RingSize : Nat
deriving DecidableEq, Repr

/-- The struct `ParticlVout` (lines 316-326). -/
structure ParticlVout where
  ValueSat : Int
  JsonValue : common.JSONNumber
  N : Nat
  ScriptPubKey : ParticlScriptPubKey
  OutputType : String
  ValueCommitment : String
  Data : String
  RangeProof : String
  CTFee : Go.float64
deriving DecidableEq, Repr

/-- The struct `ParticlTx` (lines 329-339). -/
structure ParticlTx where
  Hex : String
  Txid : String
  Version : Int
  LockTime : Nat
  Vin : List ParticlVin
  Vout : List ParticlVout
  Confirmations : Nat
  Blocktime : Int
  Time : Int
deriving DecidableEq, Repr

/-- One round of the loop over inputs in `ParseTxFromJson` (lines 357-370). -/
def ParseTxFromJson.vin (pvin : ParticlVin) : bchain.Vin :=
  { Coinbase := pvin.Coinbase
    Txid := pvin.Txid
    Vout := pvin.Vout
    ScriptSig := pvin.ScriptSig
    Sequence := pvin.Sequence
    InputType := pvin.InputType
    AnonInputs := pvin.AnonInputs
    RingSize := pvin.RingSize }

/-- The value of an output in `ParseTxFromJson` (lines 381-396): zero for the types
`blind`, `anon` and `data`, the amount conversion of the JSON value for every other type. -/
def ParseTxFromJson.valueSat (p : ParticlParser) (pvout : ParticlVout) :
    Except bchain.Error Int :=
  if pvout.OutputType == "blind" || pvout.OutputType == "anon" then .ok 0
  else if pvout.OutputType == "data" then .ok 0
  else p.BitcoinLikeParser.AmountToBigInt pvout.JsonValue

/-- The addresses of an output in `ParseTxFromJson` (lines 399-406). -/
def ParseTxFromJson.addresses (pvout : ParticlVout) : Option (List String) :=
  let addresses := pvout.ScriptPubKey.Addresses
  let addresses :=
    if Go.len addresses == 0 && pvout.ScriptPubKey.Address != "" then
      some [pvout.ScriptPubKey.Address]
    else addresses
  if addresses == none then some [] else addresses

/-- One round of the loop over outputs in `ParseTxFromJson` (lines 376-416): the value (an
error ends the whole function), the addresses and the copied fields (lines 408-416). -/
def ParseTxFromJson.vout (p : ParticlParser) (pvout : ParticlVout) :
    Except bchain.Error bchain.Vout :=
  match ParseTxFromJson.valueSat p pvout with
  | .error err => .error err
  | .ok valueSat =>
    .ok { ValueSat := valueSat
          JsonValue := ""
          N := pvout.N
          ScriptPubKey :=
            { Hex := pvout.ScriptPubKey.Hex, Addresses := ParseTxFromJson.addresses pvout }
          OutputType := pvout.OutputType
          ValueCommitment := pvout.ValueCommitment
          Data := pvout.Data
          RangeProof := pvout.RangeProof }

/-- The loop over outputs in `ParseTxFromJson` (lines 375-417), in order; the first
conversion error ends it. -/
def ParseTxFromJson.vouts (p : ParticlParser) :
    List ParticlVout → Except bchain.Error (List bchain.Vout)
  | [] => .ok []
  | pvout :: rest =>
    match ParseTxFromJson.vout p pvout with
    | .error err => .error err
    | .ok v =>
      match ParseTxFromJson.vouts p rest with
      | .error err => .error err
      | .ok vs => .ok (v :: vs)

/-- The loop that extracts the CT fee in `ParseTxFromJson` (lines 420-426): it starts from
zero and stops at the first output of type `data` with a positive `ct_fee`. -/
def ParseTxFromJson.ctFee : List ParticlVout → Go.float64
  | [] => 0
  | pvout :: rest =>
    if pvout.OutputType == "data" && decide (pvout.CTFee > 0) then pvout.CTFee
    else ParseTxFromJson.ctFee rest

/-- The method `ParticlParser.ParseTxFromJson` (lines 347-442). `Unmarshal` is
`json.Unmarshal` into a `ParticlTx`, library code taken as a parameter. -/
def ParticlParser.ParseTxFromJson (p : ParticlParser)
    (Unmarshal : json.RawMessage → Except bchain.Error ParticlTx) (msg : json.RawMessage) :
    Except bchain.Error bchain.Tx :=
  match Unmarshal msg with
  | .error err => .error err
  | .ok ptx =>
    let vin := ptx.Vin.map ParseTxFromJson.vin
    match ParseTxFromJson.vouts p ptx.Vout with
    | .error err => .error err
    | .ok vout =>
      let ctFee := ParseTxFromJson.ctFee ptx.Vout
      .ok { Hex := ptx.Hex
            Txid := ptx.Txid
            Version := ptx.Version
            LockTime := ptx.LockTime
            Vin := vin
            Vout := vout
            Confirmations := ptx.Confirmations
            Blocktime := ptx.Blocktime
            Time := ptx.Time
            CoinSpecificData := some { CTFee := ctFee } }

/-- The decoded transaction of `TestParseBlindTransaction` (range proof cut to its first 16
bytes), with a `value` of `12.5` added to the blind output. The `data_hex` members of the
JSON match no field of `ParticlVout`. -/
def fixtureBlindTx : ParticlTx :=
  { Hex := ""
    Txid := "4be9ec51111a27794b5c3ea1fe58a2658f58a354595a73d55cffb8394f07ad48"
    Version := 160
    LockTime := 2028364
    Vin := [{ Coinbase := ""
              Txid := "184f0ee8668c99918e8357c04304c0d08567020c4bc403993b1aa4b2ae8db7c5"
              Vout := 3
              ScriptSig := { Hex := "" }
              Sequence := 4294967293
              InputType := ""
              AnonInputs := 0
              RingSize := 0 }]
    Vout := [{ ValueSat := 0
               JsonValue := ""
               N := 0
               ScriptPubKey := { Hex := "", Addresses := none, Address := "", ScriptType := "" }
               OutputType := "data"
               ValueCommitment := ""
               Data := ""
               RangeProof := ""
               CTFee := 4962174155827869 / 2305843009213693952 },
             { ValueSat := 0
               JsonValue := "12.5"
               N := 1
               ScriptPubKey :=
                 { Hex := "76a9149f903c425f944b5a1e44da73246b87bc1e03389a88ac"
                   Addresses := none
                   Address := "PnUUNEUgXs99PvQ2cC2KNyYRYwTbnADk2W"
                   ScriptType := "pubkeyhash" }
               OutputType := "blind"
               ValueCommitment :=
                 "08d120c189c1754c03a20816beb3e9764bf1c28814c86e0e0fef5e96edd9429d39"
               Data := ""
               RangeProof := "7dc3ca80691319d1a0181006058b72cb"
               CTFee := 0 }]
    Confirmations := 0
    Blocktime := 0
    Time := 0 }

/-- The decoded transaction of `TestParseTxFromJson`: a `data` output and a `standard`
output of `1352.23715049` with the single address field set. -/
def fixtureDataTx : ParticlTx :=
  { Hex := ""
    Txid := "b480399e2dd29d6edd836a57567289d641a42ea2d7608708e734afec06999c1c"
    Version := 672
    LockTime := 0
    Vin := [{ Coinbase := ""
              Txid := "547f07ded4809a061d68b867efbeebb7e208c58837a405e92529c655707c6376"
              Vout := 1
              ScriptSig := { Hex := "" }
              Sequence := 4294967295
              InputType := ""
              AnonInputs := 0
              RingSize := 0 }]
    Vout := [{ ValueSat := 0
               JsonValue := ""
               N := 0
               ScriptPubKey := { Hex := "", Addresses := none, Address := "", ScriptType := "" }
               OutputType := "data"
               ValueCommitment := ""
               Data := ""
               RangeProof := ""
               CTFee := 0 },
             { ValueSat := 0
               JsonValue := "1352.23715049"
               N := 1
               ScriptPubKey :=
                 { Hex := "76a914a5cea39a684776fa5d6782faf02baf04251b53bc88ac"
                   Addresses := none
                   Address := "Po3VBGWztKbFnU9rFGKNx2Rtg1zWoS4zTR"
                   ScriptType := "pubkeyhash" }
               OutputType := "standard"
               ValueCommitment := ""
               Data := ""
               RangeProof := ""
               CTFee := 0 }]
    Confirmations := 0
    Blocktime := 0
    Time := 0 }

/-- The transaction `fixtureDataTx` with a third output, of type `standard`, whose value
`1,5` the amount conversion rejects. -/
def fixtureBadAmountTx : ParticlTx :=
  { fixtureDataTx with
    Vout := fixtureDataTx.Vout ++
      [{ ValueSat := 0
         JsonValue := "1,5"
         N := 2
         ScriptPubKey := { Hex := "", Addresses := some [], Address := "", ScriptType := "" }
         OutputType := "standard"
         ValueCommitment := ""
         Data := ""
         RangeProof := ""
         CTFee := 0 }] }

/-- A JSON decoder that knows the three fixture transactions by name and rejects every
other message. -/
def fixtureUnmarshal : json.RawMessage → Except bchain.Error ParticlTx := fun msg =>
  if msg = "blind" then .ok fixtureBlindTx
  else if msg = "data" then .ok fixtureDataTx
  else if msg = "bad amount" then .ok fixtureBadAmountTx
  else .error (bchain.Error.other "unexpected end of JSON input")

/-- The transaction that `ParseTxFromJson` returns for `fixtureBlindTx`. -/
def fixtureBlindResult : bchain.Tx :=
  { Hex := ""
    Txid := "4be9ec51111a27794b5c3ea1fe58a2658f58a354595a73d55cffb8394f07ad48"
    Version := 160
    LockTime := 2028364
    Vin := [{ Coinbase := ""
              Txid := "184f0ee8668c99918e8357c04304c0d08567020c4bc403993b1aa4b2ae8db7c5"
              Vout := 3
              ScriptSig := { Hex := "" }
              Sequence := 4294967293
              InputType := ""
              AnonInputs := 0
              RingSize := 0 }]
    Vout := [{ ValueSat := 0
               JsonValue := ""
               N := 0
               ScriptPubKey := { Hex := "", Addresses := some [] }
               OutputType := "data"
               ValueCommitment := ""
               Data := ""
               RangeProof := "" },
             { ValueSat := 0
               JsonValue := ""
               N := 1
               ScriptPubKey :=
                 { Hex := "76a9149f903c425f944b5a1e44da73246b87bc1e03389a88ac"
                   Addresses := some ["PnUUNEUgXs99PvQ2cC2KNyYRYwTbnADk2W"] }
               OutputType := "blind"
               ValueCommitment :=
                 "08d120c189c1754c03a20816beb3e9764bf1c28814c86e0e0fef5e96edd9429d39"
               Data := ""
               RangeProof := "7dc3ca80691319d1a0181006058b72cb" }]
    Confirmations := 0
    Blocktime := 0
    Time := 0
    CoinSpecificData := some { CTFee := 4962174155827869 / 2305843009213693952 } }

/-- The transaction that `ParseTxFromJson` returns for `fixtureDataTx`. -/
def fixtureDataResult : bchain.Tx :=
  { Hex := ""
    Txid := "b480399e2dd29d6edd836a57567289d641a42ea2d7608708e734afec06999c1c"
    Version := 672
    LockTime := 0
    Vin := [{ Coinbase := ""
              Txid := "547f07ded4809a061d68b867efbeebb7e208c58837a405e92529c655707c6376"
              Vout := 1
              ScriptSig := { Hex := "" }
              Sequence := 4294967295
              InputType := ""
              AnonInputs := 0
              RingSize := 0 }]
    Vout := [{ ValueSat := 0
               JsonValue := ""
               N := 0
               ScriptPubKey := { Hex := "", Addresses := some [] }
               OutputType := "data"
               ValueCommitment := ""
               Data := ""
               RangeProof := "" },
             { ValueSat := 135223715049
               JsonValue := ""
               N := 1
               ScriptPubKey :=
                 { Hex := "76a914a5cea39a684776fa5d6782faf02baf04251b53bc88ac"
                   Addresses := some ["Po3VBGWztKbFnU9rFGKNx2Rtg1zWoS4zTR"] }
               OutputType := "standard"
               ValueCommitment := ""
               Data := ""
               RangeProof := "" }]
    Confirmations := 0
    Blocktime := 0
    Time := 0
    CoinSpecificData := some { CTFee := 0 } }

end part

/-! ## Package `encoding/hex` -/

namespace hex

/-- The digit table `hextable` of package `encoding/hex`. -/
def hextable : List Char := "0123456789abcdef".toList

/-- The loop of `hex.Encode`: two lower-case digits per byte, `hextable[v>>4]` then
`hextable[v&0x0f]`. -/
def Encode : Bytes → List Char
  | [] => []
  | v :: rest =>
    hextable.getD (v.toNat / 16) '0' :: hextable.getD (v.toNat % 16) '0' :: Encode rest

/-- Modelled from the spec: the hexadecimal text of a byte string (library function
`hex.EncodeToString`). -/
def EncodeToString (src : Bytes) : String := String.mk (Encode src)

/-- The value of a hexadecimal digit in either case, `none` for any other character (the
table `reverseHexTable`). -/
def fromHexChar (c : Char) : Option Nat :=
  if '0' ≤ c ∧ c ≤ '9' then some (c.toNat - '0'.toNat)
  else if 'a' ≤ c ∧ c ≤ 'f' then some (c.toNat - 'a'.toNat + 10)
  else if 'A' ≤ c ∧ c ≤ 'F' then some (c.toNat - 'A'.toNat + 10)
  else none

/-- The error `hex.InvalidByteError`. -/
def InvalidByteError (c : Char) : bchain.Error :=
  bchain.Error.other ("encoding/hex: invalid byte: " ++ c.toString)

/-- The error `hex.ErrLength`. -/
def ErrLength : bchain.Error := bchain.Error.other "encoding/hex: odd length hex string"

/-- The loop of `hex.Decode`: the digits are taken in pairs; the result is the bytes
decoded before the first invalid digit or the unpaired last digit, with the error met. A
character outside ASCII is one invalid digit here and several invalid bytes in Go; in both
readings decoding stops at it. -/
def Decode : List Char → Bytes × Option bchain.Error
  | p :: q :: rest =>
    match fromHexChar p, fromHexChar q with
    | none, _ => ([], some (InvalidByteError p))
    | some _, none => ([], some (InvalidByteError q))
    | some a, some b =>
      let (dst, err) := Decode rest
      (UInt8.ofNat (a * 16 + b) :: dst, err)
  | [p] =>
    match fromHexChar p with
    | none => ([], some (InvalidByteError p))
    | some _ => ([], some ErrLength)
  | [] => ([], none)

/-- Modelled from the spec: the bytes that a hexadecimal text denotes (library function
`hex.DecodeString`); with an error it still returns the bytes decoded before the error. -/
def DecodeString (s : String) : Bytes × Option bchain.Error := Decode s.toList

end hex


/-! ## Further Go primitives -/

namespace Go

/-- The expression `s[i]` for a signed index: panics (`none`) when `i` is negative or not
below `len(s)`. -/
def elem {α : Type} (s : List α) (i : Int) : Option α :=
  if i < 0 then none else s[i.toNat]?

/-- The conversion `uint32(i)` of a non-negative `int`: the low 32 bits. -/
def uint32 (i : Nat) : Nat := i % 2 ^ 32

/-- The constant `maxAlloc` of the Go runtime on 64-bit Linux: allocations are limited to
2^48 bytes. -/
def maxAlloc : Nat := 2 ^ 48

/-- Whether `make([]T, 0, cap)` with `cap` of type `uint64` and elements of `elemSize` bytes
returns: the runtime panics with "makeslice: cap out of range" when `elemSize * cap`
exceeds `maxAlloc` (a `cap` of 2^63 or more, negative as an `int`, is such a case). Running
out of memory below that bound is not modelled. -/
def makeslice (elemSize cap : Nat) : Bool := decide (elemSize * cap ≤ maxAlloc)

end Go

/-! ## Package `chainhash` -/

namespace chainhash

/-- The type `chainhash.Hash`, an array of 32 bytes. -/
abbrev Hash := { b : Bytes // b.length = 32 }

/-- The 32-byte array holding the given bytes, as after `copy(hash[:], b)` into a zero
array. -/
def Hash.ofBytes (b : Bytes) : Hash :=
  ⟨Go.copy (List.replicate 32 0) b, by
    simp only [Go.copy, List.length_append, List.length_take, List.length_drop,
      List.length_replicate]
    omega⟩

/-- Modelled from the spec: the text of a hash, the hexadecimal digits of its bytes in
reverse order (library method `chainhash.Hash.String`). -/
def Hash.String (hash : Hash) : String := hex.EncodeToString hash.val.reverse

end chainhash

/-! ## Package `wire` -/

namespace wire

/-- The struct `wire.OutPoint`: the hash of the previous transaction and the index of its
output. -/
structure OutPoint where
  Hash : chainhash.Hash
  Index : Nat
deriving DecidableEq, Repr

/-- The struct `wire.TxIn` with the fields this package reads. -/
structure TxIn where
  PreviousOutPoint : OutPoint
  SignatureScript : Bytes
  Sequence : Nat
deriving DecidableEq, Repr

/-- The struct `wire.TxOut`: a signed 64-bit value and the locking script. -/
structure TxOut where
  Value : Int
  PkScript : Bytes
deriving DecidableEq, Repr

/-- The struct `wire.MsgTx` with the fields this package reads; the inputs and outputs are
the values its non-nil pointers refer to. -/
structure MsgTx where
  Version : Int
  TxIn : List TxIn
  TxOut : List TxOut
  LockTime : Nat
deriving DecidableEq, Repr

end wire

/-! ## The binary path of package `part` -/

namespace part

/-- The text that `TxFromMsgTx` compares the hash of the first input with (line 242): 64
zero digits. -/
def zeroHashString : String :=
  "0000000000000000000000000000000000000000000000000000000000000000"

/-- One round of the loop over inputs in `TxFromMsgTx` (lines 240-262), for index `i` and
input `txin` (the source names it `in`). -/
def TxFromMsgTx.vin (t : wire.MsgTx) (i : Nat) (txin : wire.TxIn) : Option bchain.Vin := do
  if ← Go.and (some (decide (t.TxIn.length > 0)))
      (Go.and (some (i == 0))
        ((Go.elem t.TxIn 0).map fun in0 => in0.PreviousOutPoint.Hash.String == zeroHashString)) then
    return { Coinbase := hex.EncodeToString txin.SignatureScript
             Txid := ""
             Vout := 0
             ScriptSig := { Hex := "" }
             Sequence := txin.Sequence
             InputType := ""
             AnonInputs := 0
             RingSize := 0 }
  let s : bchain.ScriptSig := { Hex := hex.EncodeToString txin.SignatureScript }
  let txid := txin.PreviousOutPoint.Hash.String
  return { Coinbase := ""
           Txid := txid
           Vout := txin.PreviousOutPoint.Index
           ScriptSig := s
           Sequence := txin.Sequence
           InputType := ""
           AnonInputs := 0
           RingSize := 0 }

/-- The loop over inputs in `TxFromMsgTx` (lines 239-262) from index `i` on: round `i`
fills `vin[i]`. -/
def TxFromMsgTx.vins (t : wire.MsgTx) : Nat → List wire.TxIn → Option (List bchain.Vin)
  | _, [] => some []
  | i, txin :: rest => do
    let v ← TxFromMsgTx.vin t i txin
    let vs ← TxFromMsgTx.vins t (i + 1) rest
    pure (v :: vs)

/-- One round of the loop over outputs in `TxFromMsgTx` (lines 265-281), for index `i`.
The classifier is `p.OutputScriptToAddressesFunc`, which `NewParticlParser` sets to
`outputScriptToAddresses`; its flag and error are dropped, and its slice of addresses is
stored as it is, `nil` (`none`) included. Without address resolution the slice is
`[]string{}`, empty and not `nil`. -/
def TxFromMsgTx.vout (p : ParticlParser) (parseAddresses : Bool) (i : Nat)
    (out : wire.TxOut) : Option bchain.Vout := do
  let addrs : Option (List String) := some []
  let addrs ←
    if parseAddresses then (p.outputScriptToAddresses out.PkScript).map fun r => r.1
    else pure addrs
  let s : bchain.ScriptPubKey :=
    { Hex := hex.EncodeToString out.PkScript, Addresses := addrs }
  let vs : Int := out.Value
  return { ValueSat := vs
           JsonValue := ""
           N := Go.uint32 i
           ScriptPubKey := s
           OutputType := ""
           ValueCommitment := ""
           Data := ""
           RangeProof := "" }

/-- The loop over outputs in `TxFromMsgTx` (lines 264-281) from index `i` on. -/
def TxFromMsgTx.vouts (p : ParticlParser) (parseAddresses : Bool) :
    Nat → List wire.TxOut → Option (List bchain.Vout)
  | _, [] => some []
  | i, out :: rest => do
    let v ← TxFromMsgTx.vout p parseAddresses i out
    let vs ← TxFromMsgTx.vouts p parseAddresses (i + 1) rest
    pure (v :: vs)

/-- The method `ParticlParser.TxFromMsgTx` (lines 238-291). `TxHash` is the method
`wire.MsgTx.TxHash`, library code taken as a parameter. The result is `none` when a round
panics. -/
def ParticlParser.TxFromMsgTx (p : ParticlParser) (TxHash : wire.MsgTx → chainhash.Hash)
    (t : wire.MsgTx) (parseAddresses : Bool) : Option bchain.Tx := do
  let vin ← TxFromMsgTx.vins t 0 t.TxIn
  let vout ← TxFromMsgTx.vouts p parseAddresses 0 t.TxOut
  let tx : bchain.Tx :=
    { Hex := ""
      Txid := (TxHash t).String
      Version := t.Version
      LockTime := t.LockTime
      Vin := vin
      Vout := vout
      Confirmations := 0
      Blocktime := 0
      Time := 0
      CoinSpecificData := none }
  return tx

/-- The method `ParticlParser.GetAddrDescForUnknownInput` (lines 572-584); `input` is a Go
`int`. The error of `hex.DecodeString` is dropped. The result is `none` when the index
expression `tx.Vin[input]` panics. -/
def ParticlParser.GetAddrDescForUnknownInput (_p : ParticlParser) (tx : bchain.Tx)
    (input : Int) : Option bchain.AddressDescriptor := do
  if (tx.Vin.length : Int) > input then
    let scriptHex := (← Go.elem tx.Vin input).ScriptSig.Hex
    if scriptHex != "" then
      let (script, _) := hex.DecodeString scriptHex
      return script
  let s : Bytes := List.replicate 10 0
  return s

end part

/-! ## The registry of networks (package `chaincfg`) and `GetChainParams` -/

namespace chaincfg

/-- Modelled from the spec: the "register-once table" of networks, the map
`registeredNets` of package `chaincfg` (library code): the magics registered so far, in
the order of their registration. -/
abbrev Registry := List Nat

/-- The error `chaincfg.ErrDuplicateNet`. -/
def ErrDuplicateNet : bchain.Error := bchain.Error.other "duplicate Bitcoin network"

/-- Modelled from the spec: whether a network is in the table (library function
`chaincfg.IsRegistered`): whether its magic is a key of `registeredNets`. -/
def IsRegistered (params : Params) (reg : Registry) : Bool := reg.contains params.Net

/-- Modelled from the spec: the insertion into the table, the library function
`chaincfg.Register`, whose error `GetChainParams` turns into a panic: it returns
`ErrDuplicateNet` and changes nothing when the magic is registered already, and adds the
magic otherwise. The result is the error (`none` for `nil`) and the table after the call. -/
def Register (params : Params) (reg : Registry) : Option bchain.Error × Registry :=
  if reg.contains params.Net then (some ErrDuplicateNet, reg)
  else (none, reg ++ [params.Net])

end chaincfg

namespace part

/-- The variable `TestNetParams` as set by `init` (lines 43-49). -/
def TestNetParams : chaincfg.Params :=
  { Name := "Particl Testnet", Net := 0x0b110907, PubKeyHashAddrID := [118],
    ScriptHashAddrID := [122], PrivateKeyID := [46], Bech32HRPSegwit := "tp" }

/-- The variable `RegtestParams` as set by `init` (lines 52-58). -/
def RegtestParams : chaincfg.Params :=
  { Name := "Particl Regtest", Net := 0xfabfb5da, PubKeyHashAddrID := [118],
    ScriptHashAddrID := [122], PrivateKeyID := [46], Bech32HRPSegwit := "tpw" }

/-- Lines 139-150 of `GetChainParams`: the three networks are registered, main first, when
the main network is not registered; the result is the registry after it, or `none` when a
registration fails and the function panics (line 148). -/
def GetChainParams.register (reg : chaincfg.Registry) : Option chaincfg.Registry :=
  if !chaincfg.IsRegistered MainNetParams reg then
    let (err, reg) := chaincfg.Register MainNetParams reg
    let (err, reg) := if err == none then chaincfg.Register TestNetParams reg else (err, reg)
    let (err, reg) := if err == none then chaincfg.Register RegtestParams reg else (err, reg)
    if err != none then none else some reg
  else some reg

/-- The function `GetChainParams` (lines 138-165) as a step on the registry: the result is
the parameters returned and the registry after the call, or `none` when the call panics.
Lines 152-154 assign to the three names the values `init` gave them. -/
def GetChainParams (chain : String) (reg : chaincfg.Registry) :
    Option (chaincfg.Params × chaincfg.Registry) := do
  let reg ← GetChainParams.register reg
  let MainNetParams := { MainNetParams with Name := "Particl" }
  let TestNetParams := { TestNetParams with Name := "Particl Testnet" }
  let RegtestParams := { RegtestParams with Name := "Particl Regtest" }
  if chain == "test" then return (TestNetParams, reg)
  else if chain == "regtest" then return (RegtestParams, reg)
  else return (MainNetParams, reg)

/-- The operation `paramsFor(chainIdentifier)` as the specification words it: "returns the
matching NetworkParams, defaulting to main if the identifier is unrecognized". -/
def paramsFor (chain : String) : chaincfg.Params :=
  if chain = "test" then TestNetParams
  else if chain = "regtest" then RegtestParams
  else MainNetParams

/-- A sequence of calls of `GetChainParams`, one per identifier, in order, each on the
registry the call before it left: the parameters returned and the final registry, or `none`
when a call panics. -/
def GetChainParams.calls : List String → chaincfg.Registry →
    Option (List chaincfg.Params × chaincfg.Registry)
  | [], reg => some ([], reg)
  | chain :: rest, reg => do
    let (params, reg) ← GetChainParams chain reg
    let (ps, reg) ← GetChainParams.calls rest reg
    pure (params :: ps, reg)

/-- A registry that holds none of the networks of this package: the magics of the four
Bitcoin networks (main, regression test, test and simulation). -/
def fixtureRegistry : chaincfg.Registry := [0xd9b4bef9, 0xdab5bffa, 0x0709110b, 0x12141c16]

end part

/-! ## Readers (packages `io` and `bytes`) -/

namespace io

/-- The error `io.EOF`. -/
def EOF : bchain.Error := bchain.Error.other "EOF"

/-- The error `io.ErrUnexpectedEOF`. -/
def ErrUnexpectedEOF : bchain.Error := bchain.Error.other "unexpected EOF"

end io

namespace bytes

/-- The struct `bytes.Reader`: the slice that is read and the current reading index. -/
structure Reader where
  s : Bytes
  i : Nat
deriving DecidableEq, Repr

/-- The function `bytes.NewReader`. -/
def NewReader (b : Bytes) : Reader := { s := b, i := 0 }

/-- The bytes of a reader that are not read yet (none when the index is past the end). -/
def Reader.unread (r : Reader) : Bytes := r.s.drop r.i

/-- The call `io.ReadFull(r, buf)` with a buffer of `n` bytes: the next `n` bytes and the
reader moved past them; `io.EOF` when no byte is left, `io.ErrUnexpectedEOF` when some but
fewer than `n` are. -/
def Reader.ReadFull (r : Reader) (n : Nat) : Except bchain.Error (Bytes × Reader) :=
  if n ≤ r.unread.length then .ok (r.unread.take n, { r with i := r.i + n })
  else if r.unread.length = 0 then .error io.EOF
  else .error io.ErrUnexpectedEOF

/-- The method `bytes.Reader.Seek`: the new index is `offset` from the start (`whence` 0),
from the current index (1) or from the end (2); a negative index is an error, an index past
the end is not. The result is the new index and the reader. -/
def Reader.Seek (r : Reader) (offset : Int) (whence : Nat) :
    Except bchain.Error (Int × Reader) :=
  let abs : Option Int :=
    match whence with
    | 0 => some offset
    | 1 => some (r.i + offset)
    | 2 => some (r.s.length + offset)
    | _ => none
  match abs with
  | none => .error (bchain.Error.other "bytes.Reader.Seek: invalid whence")
  | some abs =>
    if abs < 0 then .error (bchain.Error.other "bytes.Reader.Seek: negative position")
    else .ok (abs, { r with i := abs.toNat })

end bytes

namespace wire

/-- The unsigned number with the given little-endian bytes (`binary.LittleEndian`). -/
def littleEndian (b : Bytes) : Nat := b.foldr (fun x acc => x.toNat + 256 * acc) 0

/-- The conversion `int32(v)` of a 32-bit word. -/
def int32 (v : Nat) : Int := if v < 2 ^ 31 then (v : Int) else (v : Int) - 2 ^ 32

/-- The struct `wire.BlockHeader`; the timestamp is its Unix time in seconds. -/
structure BlockHeader where
  Version : Int
  PrevBlock : chainhash.Hash
  MerkleRoot : chainhash.Hash
  Timestamp : Nat
  Bits : Nat
  Nonce : Nat
deriving DecidableEq, Repr

/-- Modelled from the spec: "deserialize a standard block header", the 80 bytes of
version, previous block hash, merkle root, timestamp, bits and nonce, each read in full in
this order (library method `wire.BlockHeader.Deserialize`). -/
def BlockHeader.Deserialize (r : bytes.Reader) :
    Except bchain.Error (BlockHeader × bytes.Reader) := do
  let (version, r) ← r.ReadFull 4
  let (prevBlock, r) ← r.ReadFull 32
  let (merkleRoot, r) ← r.ReadFull 32
  let (timestamp, r) ← r.ReadFull 4
  let (bits, r) ← r.ReadFull 4
  let (nonce, r) ← r.ReadFull 4
  return ({ Version := int32 (littleEndian version)
            PrevBlock := chainhash.Hash.ofBytes prevBlock
            MerkleRoot := chainhash.Hash.ofBytes merkleRoot
            Timestamp := littleEndian timestamp
            Bits := littleEndian bits
            Nonce := littleEndian nonce }, r)

/-- The error that `wire.ReadVarInt` returns for a count that a shorter encoding holds. -/
def errNonCanonicalVarInt : bchain.Error :=
  bchain.Error.other "ReadVarInt: non-canonical varint"

/-- Modelled from the spec: "decode a variable-length transaction count" (library function
`wire.ReadVarInt`): one discriminant byte, which is the count when below `0xfd`, and
otherwise announces a little-endian count of 2 (`0xfd`), 4 (`0xfe`) or 8 (`0xff`) bytes,
which must not fit the next shorter encoding. -/
def ReadVarInt (r : bytes.Reader) (_pver : Nat) : Except bchain.Error (Nat × bytes.Reader) := do
  let (b, r) ← r.ReadFull 1
  let discriminant := littleEndian b
  if discriminant == 0xff then
    let (sv, r) ← r.ReadFull 8
    let rv := littleEndian sv
    let min := 0x100000000
    if rv < min then throw errNonCanonicalVarInt
    return (rv, r)
  else if discriminant == 0xfe then
    let (sv, r) ← r.ReadFull 4
    let rv := littleEndian sv
    let min := 0x10000
    if rv < min then throw errNonCanonicalVarInt
    return (rv, r)
  else if discriminant == 0xfd then
    let (sv, r) ← r.ReadFull 2
    let rv := littleEndian sv
    let min := 0xfd
    if rv < min then throw errNonCanonicalVarInt
    return (rv, r)
  else return (discriminant, r)

/-- The type of the method `wire.MsgTx.BtcDecode` (library code, taken as a parameter
where it is called): it sees the unread bytes of the reader only, and returns the decoded
transaction with the number of bytes it has read, or an error. -/
abbrev BtcDecode := Bytes → Except bchain.Error (MsgTx × Nat)

end wire

namespace bchain

/-- Modelled from the spec: the header fields of a block; the struct `bchain.BlockHeader`
(declared outside this package). -/
structure BlockHeader where
  Hash : String
  Prev : String
  Next : String
  Height : Nat
  Confirmations : Int
  Size : Int
  Time : Int
deriving DecidableEq, Repr

/-- Modelled from the spec: a block, its header fields and its transactions in order; the
struct `bchain.Block` (declared outside this package). -/
structure Block where
  BlockHeader : BlockHeader
  Txs : List Tx
deriving DecidableEq, Repr

end bchain

namespace part

/-- The first loop of `ParseBlock` (lines 192-199) with `n` rounds left: each round
decodes one transaction from the unread bytes; the first error ends the function. -/
def ParseBlock.transactions (BtcDecode : wire.BtcDecode) :
    Nat → bytes.Reader → Except bchain.Error (List wire.MsgTx)
  | 0, _ => .ok []
  | n + 1, r =>
    match BtcDecode r.unread with
    | .error err => .error err
    | .ok (tx, k) =>
      match ParseBlock.transactions BtcDecode n { r with i := r.i + k } with
      | .error err => .error err
      | .ok txs => .ok (tx :: txs)

/-- The second loop of `ParseBlock` (lines 201-204): `TxFromMsgTx(t, false)` for each
decoded transaction, in order. -/
def ParseBlock.txs (p : ParticlParser) (TxHash : wire.MsgTx → chainhash.Hash) :
    List wire.MsgTx → Option (List bchain.Tx)
  | [] => some []
  | t :: rest => do
    let tx ← p.TxFromMsgTx TxHash t false
    let txs ← ParseBlock.txs p TxHash rest
    pure (tx :: txs)

/-- The method `ParticlParser.ParseBlock` (lines 167-213). `BtcDecode` and `TxHash` are
the methods of `wire.MsgTx`, library code taken as parameters. The result is `none` when
the call panics: `make([]*wire.MsgTx, 0, txCount)` (line 191) does for a count whose
pointers, 8 bytes each, exceed the limit of the runtime. -/
def ParticlParser.ParseBlock (p : ParticlParser) (BtcDecode : wire.BtcDecode)
    (TxHash : wire.MsgTx → chainhash.Hash) (b : Bytes) :
    Option (Except bchain.Error bchain.Block) :=
  let r := bytes.NewReader b
  match wire.BlockHeader.Deserialize r with
  | .error err => some (.error err)
  | .ok (h, r) =>
    match r.Seek 32 1 with
    | .error err => some (.error err)
    | .ok (_, r) =>
      match wire.ReadVarInt r 0 with
      | .error err => some (.error err)
      | .ok (txCount, r) =>
        if !Go.makeslice 8 txCount then none
        else
          match ParseBlock.transactions BtcDecode txCount r with
          | .error err => some (.error err)
          | .ok transactions =>
            (ParseBlock.txs p TxHash transactions).map fun txs =>
              .ok { BlockHeader :=
                      { Hash := "", Prev := "", Next := "", Height := 0, Confirmations := 0
                        Size := b.length
                        Time := h.Timestamp }
                    Txs := txs }

end part

/-! ## Fixtures of the binary path -/

namespace part

/-- The all-zero hash. -/
def fixtureZeroHash : chainhash.Hash := ⟨List.replicate 32 0, rfl⟩

/-- The hash of the previous transaction of the test fixtures,
`547f07ded4809a061d68b867efbeebb7e208c58837a405e92529c655707c6376` as text. -/
def fixturePrevHash : chainhash.Hash :=
  ⟨[0x76, 0x63, 0x7c, 0x70, 0x55, 0xc6, 0x29, 0x25, 0xe9, 0x05, 0xa4, 0x37, 0x88, 0xc5, 0x08,
    0xe2, 0xb7, 0xeb, 0xbe, 0xef, 0x67, 0xb8, 0x68, 0x1d, 0x06, 0x9a, 0x80, 0xd4, 0xde, 0x07,
    0x7f, 0x54], rfl⟩

/-- The `k` little-endian bytes of a number. -/
def fixturePutLE : Nat → Nat → Bytes
  | 0, _ => []
  | k + 1, n => UInt8.ofNat (n % 256) :: fixturePutLE k (n / 256)

/-- The shortest variable-length encoding of a count, as `wire.WriteVarInt` writes it. -/
def fixtureVarInt (n : Nat) : Bytes :=
  if n < 0xfd then [UInt8.ofNat n]
  else if n ≤ 0xffff then 0xfd :: fixturePutLE 2 n
  else if n ≤ 0xffffffff then 0xfe :: fixturePutLE 4 n
  else 0xff :: fixturePutLE 8 n

/-- The base encoding of a transaction: version, inputs, outputs and lock time. -/
def fixtureSerialize (t : wire.MsgTx) : Bytes :=
  fixturePutLE 4 (t.Version % 2 ^ 32).toNat ++ fixtureVarInt t.TxIn.length ++
  (t.TxIn.flatMap fun txin =>
    txin.PreviousOutPoint.Hash.val ++ fixturePutLE 4 txin.PreviousOutPoint.Index ++
    fixtureVarInt txin.SignatureScript.length ++ txin.SignatureScript ++
    fixturePutLE 4 txin.Sequence) ++
  fixtureVarInt t.TxOut.length ++
  (t.TxOut.flatMap fun out =>
    fixturePutLE 8 (out.Value % 2 ^ 64).toNat ++ fixtureVarInt out.PkScript.length ++
    out.PkScript) ++
  fixturePutLE 4 t.LockTime

/-- A transaction hash for the examples: the double SHA-256 of the base encoding. -/
def fixtureTxHash (t : wire.MsgTx) : chainhash.Hash :=
  chainhash.Hash.ofBytes (sha256.Sum256 (sha256.Sum256 (fixtureSerialize t)))

/-- Reads `n` items, each with `read`, in order. -/
def fixtureReadMany {α : Type} (read : bytes.Reader → Except bchain.Error (α × bytes.Reader)) :
    Nat → bytes.Reader → Except bchain.Error (List α × bytes.Reader)
  | 0, r => .ok ([], r)
  | n + 1, r => do
    let (x, r) ← read r
    let (xs, r) ← fixtureReadMany read n r
    return (x :: xs, r)

/-- Reads one input of the base encoding. -/
def fixtureReadTxIn (r : bytes.Reader) : Except bchain.Error (wire.TxIn × bytes.Reader) := do
  let (hash, r) ← r.ReadFull 32
  let (index, r) ← r.ReadFull 4
  let (n, r) ← wire.ReadVarInt r 0
  let (script, r) ← r.ReadFull n
  let (sequence, r) ← r.ReadFull 4
  return ({ PreviousOutPoint :=
              { Hash := chainhash.Hash.ofBytes hash, Index := wire.littleEndian index }
            SignatureScript := script
            Sequence := wire.littleEndian sequence }, r)

/-- Reads one output of the base encoding. -/
def fixtureReadTxOut (r : bytes.Reader) : Except bchain.Error (wire.TxOut × bytes.Reader) := do
  let (value, r) ← r.ReadFull 8
  let (n, r) ← wire.ReadVarInt r 0
  let (script, r) ← r.ReadFull n
  let v := wire.littleEndian value
  return ({ Value := if v < 2 ^ 63 then (v : Int) else (v : Int) - 2 ^ 64
            PkScript := script }, r)

/-- A decoder for the examples, standing for `wire.MsgTx.BtcDecode`: it reads the base
encoding of one transaction (version, inputs, outputs, lock time). -/
def fixtureBtcDecode : wire.BtcDecode := fun unread => do
  let r := bytes.NewReader unread
  let (version, r) ← r.ReadFull 4
  let (count, r) ← wire.ReadVarInt r 0
  let (txin, r) ← fixtureReadMany fixtureReadTxIn count r
  let (count, r) ← wire.ReadVarInt r 0
  let (txout, r) ← fixtureReadMany fixtureReadTxOut count r
  let (lockTime, r) ← r.ReadFull 4
  return ({ Version := wire.int32 (wire.littleEndian version)
            TxIn := txin
            TxOut := txout
            LockTime := wire.littleEndian lockTime }, r.i)

/-- A coinstake transaction for the examples: two inputs whose previous-output hash is
all zero and one that spends output 1 of the fixture transaction; a P2PKH output, the
standalone P2CS output of the test fixtures and a data carrier. -/
def fixtureStakeTx : wire.MsgTx :=
  { Version := 160
    TxIn := [{ PreviousOutPoint := { Hash := fixtureZeroHash, Index := 0xffffffff }
               SignatureScript := [0x03, 0x12, 0xe8, 0x1e]
               Sequence := 0xffffffff },
             { PreviousOutPoint := { Hash := fixtureZeroHash, Index := 3 }
               SignatureScript := [0x51]
               Sequence := 0xfffffffe },
             { PreviousOutPoint := { Hash := fixturePrevHash, Index := 1 }
               SignatureScript := []
               Sequence := 0xffffffff }]
    TxOut := [{ Value := 135223715049, PkScript := fixtureP2PKH },
              { Value := 50000000
                PkScript := [0x76, 0xa8, 0x20] ++ fixtureHashP2CS ++ [0x88, 0xac] },
              { Value := 0, PkScript := [0x6a, 0x04, 0x06, 0xd0, 0x9f, 0x1c] }]
    LockTime := 2028364 }

/-- A transaction for the examples whose first input is not a coinbase marker. -/
def fixtureSpendTx : wire.MsgTx :=
  { Version := 2
    TxIn := [{ PreviousOutPoint := { Hash := fixturePrevHash, Index := 0 }
               SignatureScript := [0x00]
               Sequence := 0xffffffff }]
    TxOut := [{ Value := 1, PkScript := [0xa8, 0x20] ++ fixtureHashP2SH256 ++ [0x87] }]
    LockTime := 0 }

/-- An 80-byte block header for the examples: version 0x20000000, zero hashes, timestamp
1761309840, bits 0x1b01c2d0, nonce 0. -/
def fixtureHeader : Bytes :=
  fixturePutLE 4 0x20000000 ++ List.replicate 64 0 ++ fixturePutLE 4 1761309840 ++
  fixturePutLE 4 0x1b01c2d0 ++ fixturePutLE 4 0

/-- A block of the two example transactions whose 32-byte field after the header holds
the byte `fill`, followed by three bytes that belong to no transaction. -/
def fixtureBlock (fill : UInt8) : Bytes :=
  fixtureHeader ++ List.replicate 32 fill ++ fixtureVarInt 2 ++
  fixtureSerialize fixtureStakeTx ++ fixtureSerialize fixtureSpendTx ++ [0xde, 0xad, 0x00]

/-- A block whose header and 32-byte field are followed by the count 2^64 - 1, encoded
in nine bytes, and by nothing else: 121 bytes. -/
def fixtureHugeCountBlock : Bytes :=
  fixtureHeader ++ List.replicate 32 0 ++
    [0xff, 0xff, 0xff, 0xff, 0xff, 0xff, 0xff, 0xff, 0xff]

/-- The decoded transaction of `TestParseAnonTransaction` (range proof cut to its first 16
bytes): one `anon` input, which has no `txid` member, a `data` output and an `anon` output.
The `valueSat`, `ring_row_0`, `pubkey` and `data_hex` members of the JSON match no field. -/
def fixtureAnonTx : ParticlTx :=
  { Hex := ""
    Txid := "f48d5bce842ac718b2995642ebf2fe35cbe70f10e92069e21d9959dcd6df7384"
    Version := 160
    LockTime := 0
    Vin := [{ Coinbase := ""
              Txid := ""
              Vout := 0
              ScriptSig := { Hex := "" }
              Sequence := 4294967295
              InputType := "anon"
              AnonInputs := 1
              RingSize := 5 }]
    Vout := [{ ValueSat := 0
               JsonValue := ""
               N := 0
               ScriptPubKey := { Hex := "", Addresses := none, Address := "", ScriptType := "" }
               OutputType := "data"
               ValueCommitment := ""
               Data := ""
               RangeProof := ""
               CTFee := 666965090415061 / 144115188075855872 },
             { ValueSat := 0
               JsonValue := ""
               N := 1
               ScriptPubKey := { Hex := "", Addresses := none, Address := "", ScriptType := "" }
               OutputType := "anon"
               ValueCommitment :=
                 "097f3a6f1c56406703393e1d7a52c2ec672cf62a267d72a51b2fed2290f46002f3"
               Data := ""
               RangeProof := "d6e91ad3d0cb2a7c0f01a065166ba134"
               CTFee := 0 }]
    Confirmations := 0
    Blocktime := 0
    Time := 0 }

/-- A JSON decoder that knows the transaction of `TestParseAnonTransaction` by the name
`anon` and is `fixtureUnmarshal` on every other message. -/
def fixtureAnonUnmarshal : json.RawMessage → Except bchain.Error ParticlTx := fun msg =>
  if msg = "anon" then .ok fixtureAnonTx else fixtureUnmarshal msg

end part

/-! ## Stream readers and the end of the last transaction -/

/-! ## The end of the last transaction of a block -/

namespace wire

/-- A decoder that takes its input as a stream: when it returns a transaction after
reading `k` bytes, these are bytes of its input, and it returns the same on every input
that starts with the same `k` bytes. -/
def BtcDecode.Streaming (BtcDecode : BtcDecode) : Prop :=
  ∀ (u : Bytes) (tx : MsgTx) (k : Nat), BtcDecode u = .ok (tx, k) →
    k ≤ u.length ∧ ∀ u' : Bytes, u'.take k = u.take k → BtcDecode u' = .ok (tx, k)

end wire

namespace bytes

/-- A read operation that takes its input as a stream: on a reader inside its slice, a
successful read leaves the slice as it is, moves the index forward and not past the end,
and gives the same result on every slice with the same bytes before the new index. -/
def Reader.Streams {α : Type} (f : Reader → Except bchain.Error (α × Reader)) : Prop :=
  ∀ (r r' : Reader) (x : α), r.i ≤ r.s.length → f r = .ok (x, r') →
    r'.s = r.s ∧ r.i ≤ r'.i ∧ r'.i ≤ r.s.length ∧
    ∀ s' : Bytes, s'.take r'.i = r.s.take r'.i →
      f { s := s', i := r.i } = .ok (x, { s := s', i := r'.i })

end bytes

namespace part

/-- The index of the reader of `ParseBlock` after the first loop (lines 192-199) has
decoded `n` transactions from reader `r`: the end of the last declared transaction; the
index of `r` when a decoding fails. -/
def ParseBlock.offset (BtcDecode : wire.BtcDecode) : Nat → bytes.Reader → Nat
  | 0, r => r.i
  | n + 1, r =>
    match BtcDecode r.unread with
    | .error _ => r.i
    | .ok (_, k) => ParseBlock.offset BtcDecode n { r with i := r.i + k }

end part

/-! ## Package `common`: the configuration file -/

namespace common

/-- The struct `Config` (lines 11-23); a `uint8` is a `Nat`. -/
structure Config where
  CoinName : String
  CoinShortcut : String
  CoinLabel : String
  Network : String
  FourByteSignatures : String
  FiatRates : String
  FiatRatesParams : String
  FiatRatesVsCurrencies : String
  BlockGolombFilterP : Nat
  BlockFilterScripts : String
  BlockFilterUseZeroedKey : Bool
deriving DecidableEq, Repr

/-- The section `coin` of `configFile` (lines 27-31). -/
structure configFileCoin where
  Name : String
  Shortcut : String
  Label : String
deriving DecidableEq, Repr

/-- The section `ipc` of `configFile` (lines 32-38). -/
structure configFileIPC where
  RPCURLTemplate : String
  RPCUser : String
  RPCPass : String
  RPCTimeout : Int
  MessageQueueBindingTemplate : String
deriving DecidableEq, Repr

/-- The section `ports` of `configFile` (lines 39-44). -/
structure configFilePorts where
  BackendRPC : Int
  BackendMessageQueue : Int
  BlockbookInternal : Int
  BlockbookPublic : Int
deriving DecidableEq, Repr

/-- The section `blockbook.block_chain.additional_params` of `configFile` (lines 55-63). -/
structure configFileAdditionalParams where
  FourByteSignatures : String
  FiatRates : String
  FiatRatesParams : String
  FiatRatesVsCurrencies : String
  BlockGolombFilterP : Nat
  BlockFilterScripts : String
  BlockFilterUseZeroedKey : Bool
deriving DecidableEq, Repr

/-- The section `blockbook.block_chain` of `configFile` (lines 46-64). -/
structure configFileBlockChain where
  Parse : Bool
  MempoolWorkers : Int
  MempoolSubWorkers : Int
  BlockAddressesToKeep : Int
  XPubMagic : Nat
  XPubMagicSegwitP2sh : Nat
  XPubMagicSegwitNative : Nat
  Slip44 : Nat
  AdditionalParams : configFileAdditionalParams
deriving DecidableEq, Repr

/-- The section `blockbook` of `configFile` (lines 45-65). -/
structure configFileBlockbook where
  BlockChain : configFileBlockChain
deriving DecidableEq, Repr

/-- The struct `configFile` (lines 26-66), the nested format. -/
structure configFile where
  Coin : configFileCoin
  IPC : configFileIPC
  Ports : configFilePorts
  Blockbook : configFileBlockbook
deriving DecidableEq, Repr

/-- The method `Config.UnmarshalJSON` (lines 69-101). `Unmarshal` is `json.Unmarshal` of
the data into the fields of the receiver, through the alias of lines 71-76: it gives its
error (`none` for `nil`) and the receiver as it has left it. `UnmarshalFile` is
`json.Unmarshal` of the data into a new `configFile`. Both are library code taken as
parameters. The result is the error returned and the receiver after the call. -/
def Config.UnmarshalJSON (Unmarshal : json.RawMessage → Config → Option bchain.Error × Config)
    (UnmarshalFile : json.RawMessage → Except bchain.Error configFile)
    (c : Config) (data : json.RawMessage) : Option bchain.Error × Config :=
  let (err, c) := Unmarshal data c
  if err == none && c.CoinName != "" then (none, c)
  else
    match UnmarshalFile data with
    | .error err => (some err, c)
    | .ok cf =>
      let c := { c with CoinName := cf.Coin.Name }
      let c := { c with CoinShortcut := cf.Coin.Shortcut }
      let c := { c with CoinLabel := cf.Coin.Label }
      let c := { c with
        FourByteSignatures := cf.Blockbook.BlockChain.AdditionalParams.FourByteSignatures }
      let c := { c with FiatRates := cf.Blockbook.BlockChain.AdditionalParams.FiatRates }
      let c := { c with
        FiatRatesParams := cf.Blockbook.BlockChain.AdditionalParams.FiatRatesParams }
      let c := { c with
        FiatRatesVsCurrencies := cf.Blockbook.BlockChain.AdditionalParams.FiatRatesVsCurrencies }
      let c := { c with
        BlockGolombFilterP := cf.Blockbook.BlockChain.AdditionalParams.BlockGolombFilterP }
      let c := { c with
        BlockFilterScripts := cf.Blockbook.BlockChain.AdditionalParams.BlockFilterScripts }
      let c := { c with
        BlockFilterUseZeroedKey :=
          cf.Blockbook.BlockChain.AdditionalParams.BlockFilterUseZeroedKey }
      (none, c)

/-- The zero value of `Config`, as `var cn Config` declares it in `GetConfig` (line 114). -/
def fixtureZeroConfig : Config :=
  { CoinName := "", CoinShortcut := "", CoinLabel := "", Network := "", FourByteSignatures := ""
    FiatRates := "", FiatRatesParams := "", FiatRatesVsCurrencies := "", BlockGolombFilterP := 0
    BlockFilterScripts := "", BlockFilterUseZeroedKey := false }

/-- A decoder into `Config` for the examples. It knows two messages by name: `flat`, an
object with the members `coin_name`, `coin_shortcut`, `coin_label` and `network`, which it
sets; and `nested`, an object with the members `coin` and `blockbook` only, which sets no
field of `Config`. Every other message is a syntax error and leaves the receiver as it is.
-/
def fixtureUnmarshalConfig : json.RawMessage → Config → Option bchain.Error × Config :=
  fun data c =>
    if data = "flat" then
      (none, { c with CoinName := "Particl", CoinShortcut := "PART", CoinLabel := "Particl"
                      Network := "PART" })
    else if data = "nested" then (none, c)
    else (some (bchain.Error.other "invalid character"), c)

/-- The zero value of `configFile`, what a message without any member of the nested format
decodes to. -/
def fixtureZeroFile : configFile :=
  { Coin := { Name := "", Shortcut := "", Label := "" }
    IPC := { RPCURLTemplate := "", RPCUser := "", RPCPass := "", RPCTimeout := 0
             MessageQueueBindingTemplate := "" }
    Ports := { BackendRPC := 0, BackendMessageQueue := 0, BlockbookInternal := 0
               BlockbookPublic := 0 }
    Blockbook :=
      { BlockChain :=
          { Parse := false, MempoolWorkers := 0, MempoolSubWorkers := 0
            BlockAddressesToKeep := 0, XPubMagic := 0, XPubMagicSegwitP2sh := 0
            XPubMagicSegwitNative := 0, Slip44 := 0
            AdditionalParams :=
              { FourByteSignatures := "", FiatRates := "", FiatRatesParams := ""
                FiatRatesVsCurrencies := "", BlockGolombFilterP := 0
                BlockFilterScripts := "", BlockFilterUseZeroedKey := false } } } }

/-- A configuration in the nested format: the section `coin` names Particl, and the
additional parameters hold a fiat rates provider and a filter parameter. -/
def fixtureNestedFile : configFile :=
  { fixtureZeroFile with
    Coin := { Name := "Particl", Shortcut := "PART", Label := "Particl" }
    Ports := { BackendRPC := 8068, BackendMessageQueue := 38368
               BlockbookInternal := 9068, BlockbookPublic := 9168 }
    Blockbook :=
      { BlockChain :=
          { fixtureZeroFile.Blockbook.BlockChain with
            Parse := true, MempoolWorkers := 8, MempoolSubWorkers := 2
            BlockAddressesToKeep := 300, Slip44 := 44
            AdditionalParams :=
              { fixtureZeroFile.Blockbook.BlockChain.AdditionalParams with
                FiatRates := "coingecko", BlockGolombFilterP := 20 } } } }

/-- A decoder into `configFile` for the examples: the message `nested` holds
`fixtureNestedFile`, the message `flat` has no member of the nested format, and every
other message is a syntax error. -/
def fixtureUnmarshalFile : json.RawMessage → Except bchain.Error configFile :=
  fun data =>
    if data = "nested" then .ok fixtureNestedFile
    else if data = "flat" then .ok fixtureZeroFile
    else .error (bchain.Error.other "invalid character")

end common

/-! ## The RPC client: `GetBlockFull` -/

namespace bchain

/-- The zero value of `bchain.Tx`, which every slot of `make([]bchain.Tx, n)` holds. -/
def zeroTx : Tx :=
  { Hex := "", Txid := "", Version := 0, LockTime := 0, Vin := [], Vout := []
    Confirmations := 0, Blocktime := 0, Time := 0, CoinSpecificData := none }

end bchain

namespace part

/-- The struct `ParticlBlockResult` (lines 187-190): the header fields and the raw JSON
of each transaction. -/
structure ParticlBlockResult where
  BlockHeader : bchain.BlockHeader
  Txs : List json.RawMessage
deriving DecidableEq, Repr

/-- The struct `ResGetBlockFullParticl` (lines 193-196). Both fields are pointers, `nil`
(`none`) when the response has no such member; the `*bchain.RPCError` is held as the error
value that `GetBlockFull` returns it as. -/
structure ResGetBlockFullParticl where
  Error : Option bchain.Error
  Result : Option ParticlBlockResult
deriving DecidableEq, Repr

/-- The struct `ParticlRPC` (lines 13-15) with what `GetBlockFull` uses of the embedded
`btc.BitcoinRPC`: `Call` for the request `getblock` with the given hash and verbosity 2
(its error, and the response it has decoded), and the parser, which `Initialize` sets to a
`ParticlParser` (line 46), with the `json.Unmarshal` of its `ParseTxFromJson`. -/
structure ParticlRPC where
  Call : String → Option bchain.Error × ResGetBlockFullParticl
  Parser : ParticlParser
  Unmarshal : json.RawMessage → Except bchain.Error ParticlTx

/-- The slice `txs` after the loop of `GetBlockFull` (lines 216-231): a slot whose
JSON `ParseTxFromJson` rejects is skipped and keeps the zero value, every other slot gets
the parsed transaction. The log calls have no effect on the result. -/
def GetBlockFull.slots (b : ParticlRPC) (raw : List json.RawMessage) : List bchain.Tx :=
  raw.map fun msg =>
    match b.Parser.ParseTxFromJson b.Unmarshal msg with
    | .error _ => bchain.zeroTx
    | .ok tx => tx

/-- The method `ParticlRPC.GetBlockFull` (lines 200-240). The result is `none` when the
call panics: `res.Result.Txs` (line 216) does for a response without result. -/
def ParticlRPC.GetBlockFull (b : ParticlRPC) (hash : String) :
    Option (Except bchain.Error bchain.Block) :=
  match b.Call hash with
  | (some err, _) => some (.error err)
  | (none, res) =>
    match res.Error with
    | some err => some (.error err)
    | none => do
      let result ← res.Result
      let txs := GetBlockFull.slots b result.Txs
      let block : bchain.Block := { BlockHeader := result.BlockHeader, Txs := txs }
      return .ok block

/-- An RPC client for the examples: the parser of the tests, and a backend that knows one
block, of the three transactions `blind`, `bad amount` and `data`, and answers every other
hash with the error "Block not found". -/
def fixtureRPC : ParticlRPC :=
  { Call := fun hash =>
      if hash = "4ba8b2b5a28b1d4b5a1a3a4e46a8a64c88d1aa0f5d5a9d7ead8a3e1a8d9b3d61" then
        (none,
          { Error := none
            Result := some
              { BlockHeader :=
                  { Hash := "4ba8b2b5a28b1d4b5a1a3a4e46a8a64c88d1aa0f5d5a9d7ead8a3e1a8d9b3d61"
                    Prev := "", Next := "", Height := 2025554, Confirmations := 1
                    Size := 1024, Time := 1761309840 }
                Txs := ["blind", "bad amount", "data"] } })
      else (none, { Error := some (bchain.Error.other "-5: Block not found"), Result := none })
    Parser := fixtureParser
    Unmarshal := fixtureUnmarshal }

end part

/-! ## Facts about the Go slice primitives -/

namespace Go

theorem index_cons_zero (b : UInt8) (s : Bytes) : index (b :: s) 0 = some b := rfl

theorem slice_full_left (s : Bytes) (hi : Nat) (h : hi ≤ s.length) :
    slice s 0 hi = some (s.take hi) := by
  simp [slice, h]

theorem slice_to_end (s : Bytes) (lo : Nat) (h : lo ≤ s.length) :
    slice s lo s.length = some (s.drop lo) := by
  simp [slice, h]

theorem slice_eq_some (s : Bytes) (lo hi : Nat) (h1 : lo ≤ hi) (h2 : hi ≤ s.length) :
    slice s lo hi = some ((s.take hi).drop lo) := by
  simp [slice, h1, h2]

theorem copy_full (src : Bytes) (n : Nat) (h : src.length = n) :
    copy (List.replicate n 0) src = src := by
  subst h
  unfold copy
  rw [List.length_replicate, List.take_length, List.drop_eq_nil_of_le (by simp), List.append_nil]

theorem and_some_false (b : Option Bool) : Go.and (some false) b = some false := rfl

theorem and_some_true (b : Option Bool) : Go.and (some true) b = b := rfl

theorem byteIs_eq (s : Bytes) (i : Nat) (v : UInt8) (h : i < s.length) :
    byteIs s i v = some (s.getD i 0 == v) := by
  unfold byteIs index
  rw [List.get?_eq_get h, List.getD_eq_getElem _ _ h]
  rfl

theorem and_some_some (a b : Bool) : Go.and (some a) (some b) = some (a && b) := by
  cases a <;> rfl

end Go

/-! ## Facts about the library models -/

namespace sha256

theorem Sum256_length (data : Bytes) : (Sum256 data).length = 32 := by
  simp [Sum256, wordBytes]

end sha256

namespace base58

theorem digitsLE_eq_digits (b : Nat) (hb : 2 ≤ b) :
    ∀ fuel n, n ≤ fuel → digitsLE b fuel n = Nat.digits b n := by
  intro fuel
  induction fuel with
  | zero =>
    intro n hn
    have : n = 0 := by omega
    subst this
    simp [digitsLE]
  | succ f ih =>
    intro n hn
    unfold digitsLE
    by_cases h0 : n = 0
    · subst h0; simp
    · rw [if_neg h0, Nat.digits_def' (by omega) (by omega)]
      congr 1
      apply ih
      have : n / b < n := Nat.div_lt_self (by omega) (by omega)
      omega

theorem foldl_horner {α : Type} (b : Nat) (f : α → Nat) (l : List α) (a : Nat) :
    l.foldl (fun acc x => acc * b + f x) a =
      a * b ^ l.length + Nat.ofDigits b (l.map f).reverse := by
  induction l generalizing a with
  | nil => simp
  | cons x xs ih =>
    simp only [List.foldl_cons, List.map_cons, List.reverse_cons, List.length_cons]
    rw [ih, Nat.ofDigits_append, Nat.ofDigits_singleton]
    simp only [List.length_reverse, List.length_map]
    ring

theorem toNat_ofNat_lt (d : Nat) (h : d < 256) : (UInt8.ofNat d).toNat = d :=
  UInt8.toNat_ofNat_of_lt h

theorem ofNat_ne_zero (d : Nat) (h : d < 256) (h0 : d ≠ 0) : UInt8.ofNat d ≠ 0 := by
  intro hc
  have := congrArg UInt8.toNat hc
  rw [toNat_ofNat_lt d h] at this
  exact h0 this

theorem setBytes_eq (bs : Bytes) :
    setBytes bs = Nat.ofDigits 256 (bs.map UInt8.toNat).reverse := by
  unfold setBytes
  rw [foldl_horner 256 UInt8.toNat bs 0]
  simp

theorem setBytes_bigBytes (n : Nat) : setBytes (bigBytes n) = n := by
  rw [setBytes_eq, bigBytes, digitsLE_eq_digits 256 (by omega) n n (le_refl n)]
  have : List.map UInt8.toNat (List.map UInt8.ofNat (Nat.digits 256 n).reverse) =
      (Nat.digits 256 n).reverse := by
    rw [List.map_map]
    conv_rhs => rw [← List.map_id (Nat.digits 256 n).reverse]
    apply List.map_congr_left
    intro d hd
    exact toNat_ofNat_lt d (Nat.digits_lt_base (by omega) (List.mem_reverse.mp hd))
  rw [this, List.reverse_reverse, Nat.ofDigits_digits]

theorem setBytes_zeros_append (k : Nat) (bs : Bytes) :
    setBytes (List.replicate k 0 ++ bs) = setBytes bs := by
  unfold setBytes
  rw [List.foldl_append]
  congr 1
  induction k with
  | zero => rfl
  | succ k ih => rw [List.replicate_succ, List.foldl_cons]; simpa using ih

theorem takeWhile_zero_of_getLast (L : List Nat) (hne : L ≠ []) (hlast : L.getLast hne ≠ 0)
    (hlt : ∀ d ∈ L, d < 256) :
    (L.reverse.map UInt8.ofNat).takeWhile (fun i => i == 0) = [] := by
  rcases List.eq_nil_or_concat L with rfl | ⟨l, x, rfl⟩
  · exact absurd rfl hne
  · have hx : x ≠ 0 := by
      intro hx
      apply hlast
      simp [List.concat_eq_append, hx]
    simp only [List.concat_eq_append, List.reverse_append, List.reverse_singleton,
      List.singleton_append, List.map_cons]
    rw [List.takeWhile_cons]
    have := ofNat_ne_zero x (hlt x (by simp)) hx
    simp [this]

theorem takeWhile_zero_bigBytes (n : Nat) :
    (bigBytes n).takeWhile (fun i => i == 0) = [] := by
  unfold bigBytes
  rw [digitsLE_eq_digits 256 (by omega) n n (le_refl n)]
  by_cases h0 : n = 0
  · subst h0; simp
  · exact takeWhile_zero_of_getLast _ (Nat.digits_ne_nil_iff_ne_zero.mpr h0)
      (Nat.getLast_digit_ne_zero 256 h0) (fun d hd => Nat.digits_lt_base (by omega) hd)

theorem takeWhile_zero_decode (k n : Nat) :
    ((List.replicate k (0 : UInt8) ++ bigBytes n).takeWhile (fun i => i == 0)).length = k := by
  induction k with
  | zero => simp [takeWhile_zero_bigBytes]
  | succ k ih =>
    rw [List.replicate_succ, List.cons_append, List.takeWhile_cons]
    simp only [beq_self_eq_true, if_true, List.length_cons, ih]

theorem alphabet_length : alphabet.length = 58 := by decide

theorem b58_lt (c : Char) (h : b58 c ≠ 255) : b58 c < 58 := by
  unfold b58 at h ⊢
  split_ifs at h ⊢ with hc
  · exact hc
  · exact absurd rfl h

theorem getD_b58 (c : Char) (h : b58 c ≠ 255) : alphabet.getD (b58 c) '1' = c := by
  unfold b58 at h ⊢
  split_ifs at h ⊢ with hc
  · have hl : List.indexOf c alphabet < alphabet.length := by rw [alphabet_length]; exact hc
    rw [List.getD_eq_getElem _ _ hl]
    exact List.getElem_indexOf hl
  · exact absurd rfl h

theorem b58_one : b58 '1' = 0 := by decide

theorem eq_one_of_b58_eq_zero (c : Char) (h0 : b58 c = 0) : c = '1' := by
  have h := getD_b58 c (by rw [h0]; decide)
  rw [h0] at h
  exact h.symm

theorem foldl_ones (l : List Char) (h : ∀ c ∈ l, c = '1') :
    l.foldl (fun acc c => acc * 58 + b58 c) 0 = 0 := by
  induction l with
  | nil => rfl
  | cons c cs ih =>
    have hc : c = '1' := h c (by simp)
    subst hc
    rw [List.foldl_cons]
    simp only [b58_one, Nat.zero_mul, Nat.add_zero]
    exact ih (fun c hc => h c (List.mem_cons_of_mem _ hc))

theorem takeWhile_ones (l : List Char) :
    l.takeWhile (fun c => c == '1') =
      List.replicate (l.takeWhile (fun c => c == '1')).length '1' := by
  apply List.eq_replicate_of_mem
  intro c hc
  have := List.mem_takeWhile_imp hc
  simpa using this

/-- Encoding what `Decode` returns gives the string back, for every string of alphabet
characters. -/
theorem Encode_Decode (s : String) (hv : s.toList.any (fun c => b58 c == 255) = false) :
    Encode (Decode s) = s := by
  have hvalid : ∀ c ∈ s.toList, b58 c ≠ 255 := by
    intro c hc h
    have : s.toList.any (fun c => b58 c == 255) = true :=
      List.any_eq_true.mpr ⟨c, hc, by simp [h]⟩
    rw [hv] at this
    cases this
  unfold Decode
  rw [if_neg (by rw [hv]; exact Bool.false_ne_true)]
  simp only
  generalize hcs : s.toList = cs at hvalid
  have hsplit := List.takeWhile_append_dropWhile (fun c => c == '1') cs
  generalize htw : cs.takeWhile (fun c => c == '1') = tw at hsplit
  generalize hrest : cs.dropWhile (fun c => c == '1') = rest at hsplit
  have htw1 : ∀ c ∈ tw, c = '1' := by
    intro c hc
    rw [← htw] at hc
    simpa using List.mem_takeWhile_imp hc
  have htwr : tw = List.replicate tw.length '1' := List.eq_replicate_of_mem htw1
  have hrv : ∀ c ∈ rest, b58 c ≠ 255 := fun c hc => hvalid c (by rw [← hsplit]; simp [hc])
  have hN : cs.foldl (fun acc c => acc * 58 + b58 c) 0 =
      Nat.ofDigits 58 (rest.map b58).reverse := by
    rw [← hsplit, List.foldl_append, foldl_ones tw htw1, foldl_horner 58 b58 rest 0]
    simp
  have hdig : Nat.digits 58 (Nat.ofDigits 58 (rest.map b58).reverse) = (rest.map b58).reverse := by
    apply Nat.digits_ofDigits 58 (by omega)
    · intro d hd
      rw [List.mem_reverse, List.mem_map] at hd
      obtain ⟨c, hc, rfl⟩ := hd
      exact b58_lt c (hrv c hc)
    · intro hne
      cases rest with
      | nil => exact absurd rfl hne
      | cons c cs' =>
        simp only [List.map_cons, List.reverse_cons, List.getLast_append_singleton] at hne ⊢
        intro h0
        have hc1 := eq_one_of_b58_eq_zero c h0
        have := List.head_dropWhile_not (fun c => c == '1') cs (by rw [hrest]; simp)
        simp only [hrest, List.head_cons, hc1] at this
        simp at this
  rw [hN]
  unfold Encode
  simp only
  rw [setBytes_zeros_append, setBytes_bigBytes, takeWhile_zero_decode,
    digitsLE_eq_digits 58 (by omega) _ _ (le_refl _), hdig]
  have hmap : List.map (fun d => alphabet.getD d '1') (List.map b58 rest).reverse = rest.reverse := by
    rw [← List.map_reverse, List.map_map]
    conv_rhs => rw [← List.map_id rest.reverse]
    apply List.map_congr_left
    intro c hc
    exact getD_b58 c (hrv c (List.mem_reverse.mp hc))
  rw [hmap, List.reverse_append, List.reverse_reverse, List.reverse_replicate, ← htwr, hsplit,
    ← hcs]
  rfl

/-- A non-empty result of `Decode` comes from a string of alphabet characters only. -/
theorem valid_of_Decode_ne_nil (s : String) (h : Decode s ≠ []) :
    s.toList.any (fun c => b58 c == 255) = false := by
  unfold Decode at h
  by_contra hc
  rw [if_pos (by simpa using hc)] at h
  exact h rfl

theorem b58_getD : ∀ d, d < 58 → b58 (alphabet.getD d '1') = d := by decide

theorem ofDigits_zeros (b z : Nat) : Nat.ofDigits b (List.replicate z 0) = 0 := by
  induction z with
  | zero => rfl
  | succ z ih => rw [List.replicate_succ, Nat.ofDigits_cons, ih]; simp

theorem ofNat_toNat (x : UInt8) : UInt8.ofNat x.toNat = x := by
  cases x with
  | mk v =>
    apply UInt8.eq_of_toBitVec_eq
    apply BitVec.eq_of_toNat_eq
    show v.toNat % 256 = v.toNat
    exact Nat.mod_eq_of_lt v.isLt

theorem toNat_ne_zero (x : UInt8) (h : x ≠ 0) : x.toNat ≠ 0 := by
  intro h0
  apply h
  rw [← ofNat_toNat x, h0]
  rfl

theorem bigBytes_setBytes (bs : Bytes) (h : ∀ hne : bs ≠ [], bs.head hne ≠ 0) :
    bigBytes (setBytes bs) = bs := by
  rw [setBytes_eq, bigBytes, digitsLE_eq_digits 256 (by omega) _ _ (le_refl _)]
  rw [Nat.digits_ofDigits 256 (by omega)]
  · rw [List.reverse_reverse, List.map_map]
    conv_rhs => rw [← List.map_id bs]
    apply List.map_congr_left
    intro x _
    exact ofNat_toNat x
  · intro d hd
    rw [List.mem_reverse, List.mem_map] at hd
    obtain ⟨x, _, rfl⟩ := hd
    exact x.toNat_lt
  · intro hne
    cases bs with
    | nil => exact absurd rfl hne
    | cons x xs =>
      simp only [List.map_cons, List.reverse_cons, List.getLast_append_singleton]
      exact toNat_ne_zero x (h (by simp))

theorem takeWhile_one_digits (D : List Nat) (hD : ∀ d ∈ D, d < 58)
    (hlast : ∀ hne : D ≠ [], D.getLast hne ≠ 0) :
    ((D.map (fun d => alphabet.getD d '1')).reverse).takeWhile (fun c => c == '1') = [] := by
  rcases List.eq_nil_or_concat D with rfl | ⟨l, x, rfl⟩
  · rfl
  · have hx : x ≠ 0 := by
      intro hx
      apply hlast (by simp)
      simp [List.concat_eq_append, hx]
    have hx58 : x < 58 := hD x (by simp)
    have hne : alphabet.getD x '1' ≠ '1' := by
      intro hc
      have h1 := b58_getD x hx58
      rw [hc, b58_one] at h1
      exact hx h1.symm
    simp only [List.concat_eq_append, List.map_append, List.map_cons, List.map_nil,
      List.reverse_append, List.reverse_singleton, List.singleton_append]
    rw [List.takeWhile_cons, if_neg (by simpa using hne)]

theorem takeWhile_one_encode (z : Nat) (l : List Char)
    (hl : l.takeWhile (fun c => c == '1') = []) :
    ((List.replicate z '1' ++ l).takeWhile (fun c => c == '1')).length = z := by
  induction z with
  | zero => simp [hl]
  | succ z ih =>
    rw [List.replicate_succ, List.cons_append, List.takeWhile_cons]
    simp only [beq_self_eq_true, if_true, List.length_cons, ih]

/-- Decoding what `Encode` returns gives the bytes back. -/
theorem Decode_Encode (b : Bytes) : Decode (Encode b) = b := by
  have hsplit := List.takeWhile_append_dropWhile (fun i => i == (0 : UInt8)) b
  have htw0 : ∀ x ∈ b.takeWhile (fun i => i == (0 : UInt8)), x = 0 := by
    intro x hx
    simpa using List.mem_takeWhile_imp hx
  have htw : b.takeWhile (fun i => i == (0 : UInt8)) =
      List.replicate (b.takeWhile (fun i => i == (0 : UInt8))).length 0 :=
    List.eq_replicate_of_mem htw0
  generalize hz : (b.takeWhile (fun i => i == (0 : UInt8))).length = z at htw
  generalize hb' : b.dropWhile (fun i => i == (0 : UInt8)) = b' at hsplit
  have hhead : ∀ hne : b' ≠ [], b'.head hne ≠ 0 := by
    intro hne
    have := List.head_dropWhile_not (fun i => i == (0 : UInt8)) b (by rw [hb']; exact hne)
    simp only [hb'] at this
    simpa using this
  have hx : setBytes b = setBytes b' := by
    rw [← hsplit, htw, setBytes_zeros_append]
  unfold Encode
  simp only
  rw [hz, hx, digitsLE_eq_digits 58 (by omega) _ _ (le_refl _)]
  have hD : ∀ d ∈ Nat.digits 58 (setBytes b'), d < 58 :=
    fun d hd => Nat.digits_lt_base (by omega) hd
  have hlast : ∀ hne : Nat.digits 58 (setBytes b') ≠ [],
      (Nat.digits 58 (setBytes b')).getLast hne ≠ 0 := by
    intro hne
    exact Nat.getLast_digit_ne_zero 58 (Nat.digits_ne_nil_iff_ne_zero.mp hne)
  have hval : Nat.ofDigits 58 (Nat.digits 58 (setBytes b')) = setBytes b' := Nat.ofDigits_digits _ _
  generalize Nat.digits 58 (setBytes b') = D at hD hlast hval
  have hchars : (List.map (fun d => alphabet.getD d '1') D ++ List.replicate z '1').reverse =
      List.replicate z '1' ++ (D.map (fun d => alphabet.getD d '1')).reverse := by
    rw [List.reverse_append, List.reverse_replicate]
  rw [hchars]
  generalize hr : (D.map (fun d => alphabet.getD d '1')).reverse = r
  have hrb : r.map b58 = D.reverse := by
    rw [← hr, ← List.map_reverse, List.map_map]
    conv_rhs => rw [← List.map_id D.reverse]
    apply List.map_congr_left
    intro d hd
    exact b58_getD d (hD d (List.mem_reverse.mp hd))
  have hrv : ∀ c ∈ r, b58 c ≠ 255 := by
    intro c hc
    have : b58 c ∈ r.map b58 := List.mem_map_of_mem _ hc
    rw [hrb, List.mem_reverse] at this
    have := hD _ this
    omega
  have hones : ∀ c ∈ List.replicate z '1', c = '1' := fun c hc => List.eq_of_mem_replicate hc
  have hvalid : (List.replicate z '1' ++ r).any (fun c => b58 c == 255) = false := by
    rw [List.any_eq_false]
    intro c hc
    rcases List.mem_append.mp hc with h1 | h2
    · rw [hones c h1, b58_one]; decide
    · simpa using hrv c h2
  have hfold : (List.replicate z '1' ++ r).foldl (fun acc c => acc * 58 + b58 c) 0 =
      setBytes b' := by
    rw [List.foldl_append, foldl_ones _ hones, foldl_horner 58 b58 r 0, hrb,
      List.reverse_reverse, hval]
    simp
  have htake : ((List.replicate z '1' ++ r).takeWhile (fun c => c == '1')).length = z :=
    takeWhile_one_encode z r (by rw [← hr]; exact takeWhile_one_digits D hD hlast)
  unfold Decode
  show (if (List.replicate z '1' ++ r).any (fun c => b58 c == 255) = true then []
    else List.replicate
        ((List.replicate z '1' ++ r).takeWhile (fun c => c == '1')).length 0 ++
      bigBytes ((List.replicate z '1' ++ r).foldl (fun acc c => acc * 58 + b58 c) 0)) = b
  rw [hvalid, if_neg Bool.false_ne_true, htake, hfold, bigBytes_setBytes b' hhead, ← htw, hsplit]

theorem Sha256D_length (input : Bytes) : (Sha256D input).length = 4 := by
  simp [Sha256D, sha256.Sum256_length]

end base58

/-! ## The address codec -/

namespace part

/-- What `GetAddrDescFromAddress` computes once the base decoder has rejected the string
and at least 5 bytes were decoded: the three slices are in range. -/
theorem getAddrDesc_rejected (p : ParticlParser) (address : String) (e : bchain.Error)
    (decoded : Bytes)
    (hstd : p.BitcoinLikeParser.GetAddrDescFromAddress address = .error e)
    (hd : base58.Decode address = decoded) (hlen : 5 ≤ decoded.length) :
    p.GetAddrDescFromAddress address =
      (let payload := (decoded.take (decoded.length - 4)).drop 1
       if (sha256.Sum256 (sha256.Sum256 (decoded.take (decoded.length - 4)))).take 4 ≠
           decoded.drop (decoded.length - 4) then
         some (.error bchain.Error.ErrAddressMissing)
       else if decoded.head? = some 0x39 ∧ payload.length = 32 then
         some (.ok ([0x76, 0xa8, 0x20] ++ payload ++ [0x88, 0xac]))
       else if decoded.head? = some 0x3d ∧ payload.length = 32 then
         some (.ok ([0xa8, 0x20] ++ payload ++ [0x87]))
       else some (.error bchain.Error.ErrAddressMissing)) := by
  unfold ParticlParser.GetAddrDescFromAddress
  rw [hstd, hd]
  match decoded, hlen with
  | v :: rest, hlen =>
    have h1 : ¬ (v :: rest).length < 5 := by omega
    have h4 : (v :: rest).length - 4 ≤ (v :: rest).length := by omega
    have h14 : 1 ≤ (v :: rest).length - 4 := by omega
    simp only [h1, if_false, Go.index_cons_zero, Go.slice_eq_some _ 1 _ h14 h4,
      Go.slice_to_end _ _ h4, Go.slice_full_left _ _ h4, Option.bind_eq_bind, Option.some_bind,
      Option.pure_def, bind_pure_comp]
    generalize List.drop 1 (List.take ((v :: rest).length - 4) (v :: rest)) = payload
    by_cases hp : payload.length = 32
    · simp only [Go.copy_full payload 32 hp]
      simp [hp]
    · simp [hp]

/-- Splitting `version ‖ payload ‖ checksum` with a 4-byte checksum: the bytes before the
last four, and the last four. -/
theorem split_decoded (v : UInt8) (h ck : Bytes) (hck : ck.length = 4) :
    ([v] ++ h ++ ck).take (([v] ++ h ++ ck).length - 4) = [v] ++ h ∧
      ([v] ++ h ++ ck).drop (([v] ++ h ++ ck).length - 4) = ck := by
  have hl : ([v] ++ h ++ ck).length - 4 = ([v] ++ h).length := by
    simp only [List.length_append, hck]; omega
  rw [hl]
  exact ⟨List.take_left' rfl, List.drop_left' rfl⟩

/-- The base decoder accepted the string: its descriptor is returned. -/
theorem getAddrDesc_accepted (p : ParticlParser) (address : String)
    (desc : bchain.AddressDescriptor)
    (hstd : p.BitcoinLikeParser.GetAddrDescFromAddress address = .ok desc) :
    p.GetAddrDescFromAddress address = some (.ok desc) := by
  unfold ParticlParser.GetAddrDescFromAddress
  rw [hstd]

/-- The base decoder rejected the string and fewer than 5 bytes were decoded. -/
theorem getAddrDesc_short (p : ParticlParser) (address : String) (e : bchain.Error)
    (hstd : p.BitcoinLikeParser.GetAddrDescFromAddress address = .error e)
    (hlen : (base58.Decode address).length < 5) :
    p.GetAddrDescFromAddress address = some (.error bchain.Error.ErrAddressMissing) := by
  unfold ParticlParser.GetAddrDescFromAddress
  rw [hstd]
  simp only [hlen, if_true]

/-- The base decoder rejected the string, which decodes to `39 ‖ h ‖ checksum`. -/
theorem getAddrDesc_p2cs (p : ParticlParser) (address : String) (h : Bytes) (e : bchain.Error)
    (hstd : p.BitcoinLikeParser.GetAddrDescFromAddress address = .error e)
    (hdec : base58.Decode address =
      [0x39] ++ h ++ (sha256.Sum256 (sha256.Sum256 ([0x39] ++ h))).take 4)
    (hlen : h.length = 32) :
    p.GetAddrDescFromAddress address = some (.ok ([0x76, 0xa8, 0x20] ++ h ++ [0x88, 0xac])) := by
  have hck := base58.Sha256D_length ([0x39] ++ h)
  unfold base58.Sha256D at hck
  obtain ⟨e1, e2⟩ := split_decoded 0x39 h _ hck
  rw [getAddrDesc_rejected p address e _ hstd hdec
    (by simp only [List.length_append, hck, hlen, List.length_singleton]; omega)]
  simp only [e1, e2]
  simp [hlen]

/-- The base decoder rejected the string, which decodes to `3d ‖ h ‖ checksum`. -/
theorem getAddrDesc_p2sh256 (p : ParticlParser) (address : String) (h : Bytes)
    (e : bchain.Error)
    (hstd : p.BitcoinLikeParser.GetAddrDescFromAddress address = .error e)
    (hdec : base58.Decode address =
      [0x3d] ++ h ++ (sha256.Sum256 (sha256.Sum256 ([0x3d] ++ h))).take 4)
    (hlen : h.length = 32) :
    p.GetAddrDescFromAddress address = some (.ok ([0xa8, 0x20] ++ h ++ [0x87])) := by
  have hck := base58.Sha256D_length ([0x3d] ++ h)
  unfold base58.Sha256D at hck
  obtain ⟨e1, e2⟩ := split_decoded 0x3d h _ hck
  rw [getAddrDesc_rejected p address e _ hstd hdec
    (by simp only [List.length_append, hck, hlen, List.length_singleton]; omega)]
  simp only [e1, e2]
  simp [hlen]

/-- C2: an address that the standard decoder rejects and whose base58 decoding is version
byte 0x39, a 32-byte payload `h` and the correct checksum (first 4 bytes of
SHA256(SHA256(0x39 ‖ h))) decodes, without error, to exactly the 37-byte script
`76 a8 20 h 88 ac`. -/
theorem GetAddrDescFromAddress_p2cs (p : ParticlParser) (address : String) (h : Bytes)
    (hstd : ∃ e, p.BitcoinLikeParser.GetAddrDescFromAddress address = .error e)
    (hdec : base58.Decode address =
      [0x39] ++ h ++ (sha256.Sum256 (sha256.Sum256 ([0x39] ++ h))).take 4)
    (hlen : h.length = 32) :
    p.GetAddrDescFromAddress address = some (.ok ([0x76, 0xa8, 0x20] ++ h ++ [0x88, 0xac])) ∧
      ([0x76, 0xa8, 0x20] ++ h ++ [0x88, 0xac]).length = 37 := by
  obtain ⟨e, hstd⟩ := hstd
  exact ⟨getAddrDesc_p2cs p address h e hstd hdec hlen, by simp [hlen]⟩

/-- Witness for C2: the P2CS address and script of the test fixtures. -/
theorem GetAddrDescFromAddress_p2cs_witness :
    (∃ e, fixtureParser.BitcoinLikeParser.GetAddrDescFromAddress
        "2urAsyaHCnbMEQLNCCv3unbeysaPpjp1TiWLMWcQRMwYs74qGQh" = .error e) ∧
    fixtureHashP2CS.length = 32 ∧
    fixtureParser.GetAddrDescFromAddress "2urAsyaHCnbMEQLNCCv3unbeysaPpjp1TiWLMWcQRMwYs74qGQh" =
      some (.ok ([0x76, 0xa8, 0x20] ++ fixtureHashP2CS ++ [0x88, 0xac])) :=
  ⟨⟨_, rfl⟩, by decide,
    (GetAddrDescFromAddress_p2cs fixtureParser
      "2urAsyaHCnbMEQLNCCv3unbeysaPpjp1TiWLMWcQRMwYs74qGQh" fixtureHashP2CS
      ⟨_, rfl⟩ (by decide!) (by decide)).1⟩

/-- C3: an address that the standard decoder rejects and whose base58 decoding is version
byte 0x3d, a 32-byte payload `h` and the correct checksum decodes, without error, to
exactly the 35-byte script `a8 20 h 87`. -/
theorem GetAddrDescFromAddress_p2sh256 (p : ParticlParser) (address : String) (h : Bytes)
    (hstd : ∃ e, p.BitcoinLikeParser.GetAddrDescFromAddress address = .error e)
    (hdec : base58.Decode address =
      [0x3d] ++ h ++ (sha256.Sum256 (sha256.Sum256 ([0x3d] ++ h))).take 4)
    (hlen : h.length = 32) :
    p.GetAddrDescFromAddress address = some (.ok ([0xa8, 0x20] ++ h ++ [0x87])) ∧
      ([0xa8, 0x20] ++ h ++ [0x87]).length = 35 := by
  obtain ⟨e, hstd⟩ := hstd
  exact ⟨getAddrDesc_p2sh256 p address h e hstd hdec hlen, by simp [hlen]⟩

/-- Witness for C3: the P2SH256 address and script of the test fixtures. -/
theorem GetAddrDescFromAddress_p2sh256_witness :
    (∃ e, fixtureParser.BitcoinLikeParser.GetAddrDescFromAddress
        "33kQnRT9ecMedncHvns3eHbbNzgKPqXMcTCFuWV697J8PiX6myG" = .error e) ∧
    fixtureHashP2SH256.length = 32 ∧
    fixtureParser.GetAddrDescFromAddress "33kQnRT9ecMedncHvns3eHbbNzgKPqXMcTCFuWV697J8PiX6myG" =
      some (.ok ([0xa8, 0x20] ++ fixtureHashP2SH256 ++ [0x87])) :=
  ⟨⟨_, rfl⟩, by decide,
    (GetAddrDescFromAddress_p2sh256 fixtureParser
      "33kQnRT9ecMedncHvns3eHbbNzgKPqXMcTCFuWV697J8PiX6myG" fixtureHashP2SH256
      ⟨_, rfl⟩ (by decide!) (by decide)).1⟩

/-- C4: when the standard decoder accepts an address string, `GetAddrDescFromAddress`
returns exactly the standard descriptor and no error; the Particl-specific decoding of the
string is never looked at. -/
theorem GetAddrDescFromAddress_standard_first (p : ParticlParser) (address : String)
    (desc : bchain.AddressDescriptor)
    (hstd : p.BitcoinLikeParser.GetAddrDescFromAddress address = .ok desc) :
    p.GetAddrDescFromAddress address = some (.ok desc) :=
  getAddrDesc_accepted p address desc hstd

/-- Witness for C4: the standard P2PKH address of the test fixtures. -/
theorem GetAddrDescFromAddress_standard_first_witness :
    fixtureParser.BitcoinLikeParser.GetAddrDescFromAddress "Po3VBGWztKbFnU9rFGKNx2Rtg1zWoS4zTR" =
      .ok fixtureP2PKH ∧
    fixtureParser.GetAddrDescFromAddress "Po3VBGWztKbFnU9rFGKNx2Rtg1zWoS4zTR" =
      some (.ok fixtureP2PKH) :=
  ⟨rfl, GetAddrDescFromAddress_standard_first fixtureParser
    "Po3VBGWztKbFnU9rFGKNx2Rtg1zWoS4zTR" fixtureP2PKH rfl⟩

/-- C5: an address that the standard decoder rejects and whose base58 decoding is shorter
than 5 bytes fails with `ErrAddressMissing`; no descriptor is returned. -/
theorem GetAddrDescFromAddress_short (p : ParticlParser) (address : String)
    (hstd : ∃ e, p.BitcoinLikeParser.GetAddrDescFromAddress address = .error e)
    (hlen : (base58.Decode address).length < 5) :
    p.GetAddrDescFromAddress address = some (.error bchain.Error.ErrAddressMissing) := by
  obtain ⟨e, hstd⟩ := hstd
  exact getAddrDesc_short p address e hstd hlen

/-- Witness for C5: the string `2ur` decodes to fewer than 5 bytes. -/
theorem GetAddrDescFromAddress_short_witness :
    (base58.Decode "2ur").length < 5 ∧
    fixtureParser.GetAddrDescFromAddress "2ur" = some (.error bchain.Error.ErrAddressMissing) :=
  ⟨by decide, GetAddrDescFromAddress_short fixtureParser "2ur" ⟨_, rfl⟩ (by decide)⟩

/-- C6: an address that the standard decoder rejects and whose base58 decoding has at least
5 bytes fails with `ErrAddressMissing` whenever its last 4 bytes differ from the first 4
bytes of SHA256(SHA256(all preceding bytes)), whatever the version byte and payload. -/
theorem GetAddrDescFromAddress_bad_checksum (p : ParticlParser) (address : String)
    (hstd : ∃ e, p.BitcoinLikeParser.GetAddrDescFromAddress address = .error e)
    (hlen : 5 ≤ (base58.Decode address).length)
    (hck : (base58.Decode address).drop ((base58.Decode address).length - 4) ≠
      (sha256.Sum256 (sha256.Sum256
        ((base58.Decode address).take ((base58.Decode address).length - 4)))).take 4) :
    p.GetAddrDescFromAddress address = some (.error bchain.Error.ErrAddressMissing) := by
  obtain ⟨e, hstd⟩ := hstd
  rw [getAddrDesc_rejected p address e _ hstd rfl hlen]
  simp only [ne_eq, ite_not]
  rw [if_neg (fun h => hck h.symm)]

/-- Witness for C6: the P2CS fixture address with its last character changed still has
version byte 0x39 and a 32-byte payload, but a wrong checksum. -/
theorem GetAddrDescFromAddress_bad_checksum_witness :
    (base58.Decode "2urAsyaHCnbMEQLNCCv3unbeysaPpjp1TiWLMWcQRMwYs74qGQi").head? = some 0x39 ∧
    (base58.Decode "2urAsyaHCnbMEQLNCCv3unbeysaPpjp1TiWLMWcQRMwYs74qGQi").length = 37 ∧
    fixtureParser.GetAddrDescFromAddress "2urAsyaHCnbMEQLNCCv3unbeysaPpjp1TiWLMWcQRMwYs74qGQi" =
      some (.error bchain.Error.ErrAddressMissing) :=
  ⟨by decide!, by decide!,
    GetAddrDescFromAddress_bad_checksum fixtureParser
      "2urAsyaHCnbMEQLNCCv3unbeysaPpjp1TiWLMWcQRMwYs74qGQi" ⟨_, rfl⟩ (by decide!) (by decide!)⟩

/-- C7: for an address that the standard decoder rejects, `GetAddrDescFromAddress` succeeds
only if the decoded version byte is 0x39 or 0x3d and the payload (the bytes between the
version byte and the last four) has exactly 32 bytes; in every other case, a valid
checksum included, it fails with `ErrAddressMissing`. -/
theorem GetAddrDescFromAddress_only_particl (p : ParticlParser) (address : String)
    (hstd : ∃ e, p.BitcoinLikeParser.GetAddrDescFromAddress address = .error e) :
    (∀ desc, p.GetAddrDescFromAddress address = some (.ok desc) →
      ((base58.Decode address).head? = some 0x39 ∨ (base58.Decode address).head? = some 0x3d) ∧
      (((base58.Decode address).take ((base58.Decode address).length - 4)).drop 1).length = 32) ∧
    (¬ (((base58.Decode address).head? = some 0x39 ∨ (base58.Decode address).head? = some 0x3d) ∧
      (((base58.Decode address).take ((base58.Decode address).length - 4)).drop 1).length = 32) →
      p.GetAddrDescFromAddress address = some (.error bchain.Error.ErrAddressMissing)) := by
  have key : ¬ (((base58.Decode address).head? = some 0x39 ∨
        (base58.Decode address).head? = some 0x3d) ∧
      (((base58.Decode address).take ((base58.Decode address).length - 4)).drop 1).length = 32) →
      p.GetAddrDescFromAddress address = some (.error bchain.Error.ErrAddressMissing) := by
    intro hn
    obtain ⟨e, hstd⟩ := hstd
    by_cases hlen : (base58.Decode address).length < 5
    · exact getAddrDesc_short p address e hstd hlen
    · rw [getAddrDesc_rejected p address e _ hstd rfl (by omega)]
      simp only
      split_ifs with h1 h2 h3
      · rfl
      · exact absurd ⟨Or.inl h2.1, h2.2⟩ hn
      · exact absurd ⟨Or.inr h3.1, h3.2⟩ hn
      · rfl
  refine ⟨fun desc hd => ?_, key⟩
  by_contra hn
  rw [key hn] at hd
  cases hd

/-- Witness for C7: the P2PKH fixture string has a valid checksum, version byte 0x38 and a
20-byte payload; a parser whose base decoder rejects it fails with `ErrAddressMissing`. -/
theorem GetAddrDescFromAddress_only_particl_witness :
    (base58.Decode "Po3VBGWztKbFnU9rFGKNx2Rtg1zWoS4zTR").drop 21 =
      (sha256.Sum256 (sha256.Sum256
        ((base58.Decode "Po3VBGWztKbFnU9rFGKNx2Rtg1zWoS4zTR").take 21))).take 4 ∧
    (base58.Decode "Po3VBGWztKbFnU9rFGKNx2Rtg1zWoS4zTR").head? = some 0x38 ∧
    (NewParticlParser rejectingBase).GetAddrDescFromAddress "Po3VBGWztKbFnU9rFGKNx2Rtg1zWoS4zTR" =
      some (.error bchain.Error.ErrAddressMissing) :=
  ⟨by decide!, by decide!,
    (GetAddrDescFromAddress_only_particl (NewParticlParser rejectingBase)
      "Po3VBGWztKbFnU9rFGKNx2Rtg1zWoS4zTR" ⟨_, rfl⟩).2 (by decide!)⟩

/-! ## Address encoding -/

/-- C8: for every hash `h` and version byte `v`, `ParticlP2CSAddress.String` is the base58
encoding of `v ‖ h ‖ c`, where `c` is the first 4 bytes of SHA256(SHA256(v ‖ h)): it is
`Encode` of these bytes, and `Decode` gives these bytes back. -/
theorem ParticlP2CSAddress_String_eq (h : Bytes) (v : UInt8) (params : chaincfg.Params) :
    ParticlP2CSAddress.String { pubKeyHash := h, versionByte := v, params := params } =
      base58.Encode ([v] ++ h ++ (sha256.Sum256 (sha256.Sum256 ([v] ++ h))).take 4) ∧
    base58.Decode
        (ParticlP2CSAddress.String { pubKeyHash := h, versionByte := v, params := params }) =
      [v] ++ h ++ (sha256.Sum256 (sha256.Sum256 ([v] ++ h))).take 4 :=
  ⟨rfl, base58.Decode_Encode _⟩

/-- Test vector of `TestParticlP2CSAddress_String`, version 0x39. -/
theorem String_fixture_p2cs :
    ParticlP2CSAddress.String
      { pubKeyHash := fixtureHashP2CS, versionByte := 0x39, params := MainNetParams } =
      "2urAsyaHCnbMEQLNCCv3unbeysaPpjp1TiWLMWcQRMwYs74qGQh" := by decide!

/-- Test vector of `TestParticlP2CSAddress_String`, version 0x3d. -/
theorem String_fixture_p2sh256 :
    ParticlP2CSAddress.String
      { pubKeyHash := fixtureHashP2SH256, versionByte := 0x3d, params := MainNetParams } =
      "33kQnRT9ecMedncHvns3eHbbNzgKPqXMcTCFuWV697J8PiX6myG" := by decide!

/-- A single SHA-256 as checksum function gives a different string on the first test vector. -/
theorem String_fixture_not_single_sha :
    base58.CheckEncode fixtureHashP2CS [0x39] (fun b => (sha256.Sum256 b).take 4) ≠
      "2urAsyaHCnbMEQLNCCv3unbeysaPpjp1TiWLMWcQRMwYs74qGQh" := by decide!

/-! ## The script classifier -/

/-- A byte slice of length 20, spelled out. -/
theorem bytes_of_length_20 (k : Bytes) (hk : k.length = 20) :
    ∃ a0 a1 a2 a3 a4 a5 a6 a7 a8 a9 b0 b1 b2 b3 b4 b5 b6 b7 b8 b9,
      k = [a0, a1, a2, a3, a4, a5, a6, a7, a8, a9, b0, b1, b2, b3, b4, b5, b6, b7, b8, b9] := by
  match k, hk with
  | [a0, a1, a2, a3, a4, a5, a6, a7, a8, a9, b0, b1, b2, b3, b4, b5, b6, b7, b8, b9], _ =>
    exact ⟨a0, a1, a2, a3, a4, a5, a6, a7, a8, a9, b0, b1, b2, b3, b4, b5, b6, b7, b8, b9, rfl⟩

/-- A byte slice of length 32, spelled out. -/
theorem bytes_of_length_32 (h : Bytes) (hh : h.length = 32) :
    ∃ a0 a1 a2 a3 a4 a5 a6 a7 a8 a9 b0 b1 b2 b3 b4 b5 b6 b7 b8 b9
      c0 c1 c2 c3 c4 c5 c6 c7 c8 c9 d0 d1,
      h = [a0, a1, a2, a3, a4, a5, a6, a7, a8, a9, b0, b1, b2, b3, b4, b5, b6, b7, b8, b9,
           c0, c1, c2, c3, c4, c5, c6, c7, c8, c9, d0, d1] := by
  match h, hh with
  | [a0, a1, a2, a3, a4, a5, a6, a7, a8, a9, b0, b1, b2, b3, b4, b5, b6, b7, b8, b9,
     c0, c1, c2, c3, c4, c5, c6, c7, c8, c9, d0, d1], _ =>
    exact ⟨a0, a1, a2, a3, a4, a5, a6, a7, a8, a9, b0, b1, b2, b3, b4, b5, b6, b7, b8, b9,
      c0, c1, c2, c3, c4, c5, c6, c7, c8, c9, d0, d1, rfl⟩

/-- C9: a 66-byte script `b8 63 ‖ 76 a9 14 k 88 ac ‖ 67 ‖ 76 a8 20 h 88 ac ‖ 68` with a
20-byte `k` and a 32-byte `h` is classified, without panic or error, as exactly one
address, the encoding of `h` with version byte 0x39, and `isValid = true`; `h` is bytes
31..62 of the script. -/
theorem outputScriptToAddresses_coinstake66 (p : ParticlParser) (k h : Bytes)
    (hk : k.length = 20) (hh : h.length = 32) :
    p.outputScriptToAddresses
        ([0xb8, 0x63] ++ ([0x76, 0xa9, 0x14] ++ k ++ [0x88, 0xac]) ++ [0x67] ++
          ([0x76, 0xa8, 0x20] ++ h ++ [0x88, 0xac]) ++ [0x68]) =
      some (some [ParticlP2CSAddress.String
        { pubKeyHash := h, versionByte := 0x39, params := p.BitcoinLikeParser.Params }],
        true, none) ∧
    ([0xb8, 0x63] ++ ([0x76, 0xa9, 0x14] ++ k ++ [0x88, 0xac]) ++ [0x67] ++
        ([0x76, 0xa8, 0x20] ++ h ++ [0x88, 0xac]) ++ [0x68]).length = 66 ∧
    (([0xb8, 0x63] ++ ([0x76, 0xa9, 0x14] ++ k ++ [0x88, 0xac]) ++ [0x67] ++
        ([0x76, 0xa8, 0x20] ++ h ++ [0x88, 0xac]) ++ [0x68]).drop 31).take 32 = h := by
  obtain ⟨a0, a1, a2, a3, a4, a5, a6, a7, a8, a9, b0, b1, b2, b3, b4, b5, b6, b7, b8, b9, rfl⟩ :=
    bytes_of_length_20 k hk
  obtain ⟨a0, a1, a2, a3, a4, a5, a6, a7, a8, a9, b0, b1, b2, b3, b4, b5, b6, b7, b8, b9,
      c0, c1, c2, c3, c4, c5, c6, c7, c8, c9, d0, d1, rfl⟩ := bytes_of_length_32 h hh
  exact ⟨rfl, rfl, rfl⟩

/-- Witness for C9: the 66-byte coinstake script of the test fixtures and its address. -/
theorem outputScriptToAddresses_coinstake66_witness :
    fixtureParser.outputScriptToAddresses
        ([0xb8, 0x63] ++ ([0x76, 0xa9, 0x14] ++ fixtureKeyHash ++ [0x88, 0xac]) ++ [0x67] ++
          ([0x76, 0xa8, 0x20] ++ fixtureHashCoinstake ++ [0x88, 0xac]) ++ [0x68]) =
      some (some ["2vjzfpCeiohkBtg3gcQJFLFaV6Yjqehw6Q4SwiKqRwKWfut2zPD"], true, none) :=
  (outputScriptToAddresses_coinstake66 fixtureParser fixtureKeyHash fixtureHashCoinstake
    (by decide) (by decide)).1.trans (by decide!)

/-- C10: a 64-byte script `b8 63 ‖ 76 a9 14 k 88 ac ‖ 67 ‖ a8 20 h 87 ‖ 68` with a 20-byte
`k` and a 32-byte `h` is classified, without panic or error, as exactly one address, the
encoding of `h` with version byte 0x3d, and `isValid = true`; `h` is bytes 30..61 of the
script. -/
theorem outputScriptToAddresses_coinstake64 (p : ParticlParser) (k h : Bytes)
    (hk : k.length = 20) (hh : h.length = 32) :
    p.outputScriptToAddresses
        ([0xb8, 0x63] ++ ([0x76, 0xa9, 0x14] ++ k ++ [0x88, 0xac]) ++ [0x67] ++
          ([0xa8, 0x20] ++ h ++ [0x87]) ++ [0x68]) =
      some (some [ParticlP2CSAddress.String
        { pubKeyHash := h, versionByte := 0x3d, params := p.BitcoinLikeParser.Params }],
        true, none) ∧
    ([0xb8, 0x63] ++ ([0x76, 0xa9, 0x14] ++ k ++ [0x88, 0xac]) ++ [0x67] ++
        ([0xa8, 0x20] ++ h ++ [0x87]) ++ [0x68]).length = 64 ∧
    (([0xb8, 0x63] ++ ([0x76, 0xa9, 0x14] ++ k ++ [0x88, 0xac]) ++ [0x67] ++
        ([0xa8, 0x20] ++ h ++ [0x87]) ++ [0x68]).drop 30).take 32 = h := by
  obtain ⟨a0, a1, a2, a3, a4, a5, a6, a7, a8, a9, b0, b1, b2, b3, b4, b5, b6, b7, b8, b9, rfl⟩ :=
    bytes_of_length_20 k hk
  obtain ⟨a0, a1, a2, a3, a4, a5, a6, a7, a8, a9, b0, b1, b2, b3, b4, b5, b6, b7, b8, b9,
      c0, c1, c2, c3, c4, c5, c6, c7, c8, c9, d0, d1, rfl⟩ := bytes_of_length_32 h hh
  exact ⟨rfl, rfl, rfl⟩

/-- Witness for C10: the 64-byte coinstake script of the test fixtures and its address. -/
theorem outputScriptToAddresses_coinstake64_witness :
    fixtureParser.outputScriptToAddresses
        ([0xb8, 0x63] ++ ([0x76, 0xa9, 0x14] ++ fixtureKeyHash ++ [0x88, 0xac]) ++ [0x67] ++
          ([0xa8, 0x20] ++ fixtureHashP2SH256 ++ [0x87]) ++ [0x68]) =
      some (some ["33kQnRT9ecMedncHvns3eHbbNzgKPqXMcTCFuWV697J8PiX6myG"], true, none) :=
  (outputScriptToAddresses_coinstake64 fixtureParser fixtureKeyHash fixtureHashP2SH256
    (by decide) (by decide)).1.trans (by decide!)

/-! ## Closed form of the classifier -/

theorem classify_37 (p : ParticlParser) (s : Bytes) (h : s.length = 37) :
    p.outputScriptToAddresses s = some (classifyResult p s) := by
  unfold ParticlParser.outputScriptToAddresses classifyResult standaloneResult isCoinstakeEnvelope
    isP2CS isP2SH256
  simp only [h, Go.byteIs_eq s _ _ (show 0 < s.length by omega),
    Go.byteIs_eq s _ _ (show 1 < s.length by omega),
    Go.byteIs_eq s _ _ (show 2 < s.length by omega),
    Go.byteIs_eq s _ _ (show 35 < s.length by omega),
    Go.byteIs_eq s _ _ (show 36 < s.length by omega),
    Go.slice_eq_some s 3 35 (by omega) (by omega), Go.and_some_some]
  simp [Go.and_some_false, Go.and_some_true]
  split_ifs <;> simp_all [Go.and_some_false, Go.and_some_true]

theorem classify_35 (p : ParticlParser) (s : Bytes) (h : s.length = 35) :
    p.outputScriptToAddresses s = some (classifyResult p s) := by
  unfold ParticlParser.outputScriptToAddresses classifyResult standaloneResult isCoinstakeEnvelope
    isP2CS isP2SH256
  simp only [h, Go.byteIs_eq s _ _ (show 0 < s.length by omega),
    Go.byteIs_eq s _ _ (show 1 < s.length by omega),
    Go.byteIs_eq s _ _ (show 34 < s.length by omega),
    Go.slice_eq_some s 2 34 (by omega) (by omega), Go.and_some_some]
  simp [Go.and_some_false, Go.and_some_true]
  split_ifs <;> simp_all [Go.and_some_false, Go.and_some_true]

theorem classify_66 (p : ParticlParser) (s : Bytes) (h : s.length = 66) :
    p.outputScriptToAddresses s = some (classifyResult p s) := by
  have hs : (stakingScript s).length = 37 := by simp [stakingScript, h]
  have e : List.drop 28 (List.take 65 s) = stakingScript s := by simp [stakingScript, h]
  unfold ParticlParser.outputScriptToAddresses classifyResult standaloneResult isCoinstakeEnvelope
    isP2CS isP2SH256
  simp only [h, Go.byteIs_eq s _ _ (show 0 < s.length by omega),
    Go.byteIs_eq s _ _ (show 1 < s.length by omega),
    Go.byteIs_eq s _ _ (show 2 < s.length by omega),
    Go.byteIs_eq s _ _ (show 3 < s.length by omega),
    Go.byteIs_eq s _ _ (show 4 < s.length by omega),
    Go.byteIs_eq s _ _ (show 27 < s.length by omega),
    Go.byteIs_eq s _ _ (show 66 - 1 < s.length by omega),
    Go.slice_eq_some s 28 (66 - 1) (by omega) (by omega),
    Go.and_some_some, Nat.add_one_sub_one, Option.bind_eq_bind, Option.some_bind, e, hs,
    Go.byteIs_eq (stakingScript s) _ _ (show 0 < (stakingScript s).length by omega),
    Go.byteIs_eq (stakingScript s) _ _ (show 1 < (stakingScript s).length by omega),
    Go.byteIs_eq (stakingScript s) _ _ (show 2 < (stakingScript s).length by omega),
    Go.byteIs_eq (stakingScript s) _ _ (show 35 < (stakingScript s).length by omega),
    Go.byteIs_eq (stakingScript s) _ _ (show 36 < (stakingScript s).length by omega),
    Go.slice_eq_some (stakingScript s) 3 35 (by omega) (by omega)]
  simp [Go.and_some_false, Go.and_some_true]
  split_ifs <;> simp_all [Go.and_some_false, Go.and_some_true]

theorem classify_64 (p : ParticlParser) (s : Bytes) (h : s.length = 64) :
    p.outputScriptToAddresses s = some (classifyResult p s) := by
  have hs : (stakingScript s).length = 35 := by simp [stakingScript, h]
  have e : List.drop 28 (List.take 63 s) = stakingScript s := by simp [stakingScript, h]
  unfold ParticlParser.outputScriptToAddresses classifyResult standaloneResult isCoinstakeEnvelope
    isP2CS isP2SH256
  simp only [h, Go.byteIs_eq s _ _ (show 0 < s.length by omega),
    Go.byteIs_eq s _ _ (show 1 < s.length by omega),
    Go.byteIs_eq s _ _ (show 2 < s.length by omega),
    Go.byteIs_eq s _ _ (show 3 < s.length by omega),
    Go.byteIs_eq s _ _ (show 4 < s.length by omega),
    Go.byteIs_eq s _ _ (show 27 < s.length by omega),
    Go.byteIs_eq s _ _ (show 64 - 1 < s.length by omega),
    Go.slice_eq_some s 28 (64 - 1) (by omega) (by omega),
    Go.and_some_some, Nat.add_one_sub_one, Option.bind_eq_bind, Option.some_bind, e, hs,
    Go.byteIs_eq (stakingScript s) _ _ (show 0 < (stakingScript s).length by omega),
    Go.byteIs_eq (stakingScript s) _ _ (show 1 < (stakingScript s).length by omega),
    Go.byteIs_eq (stakingScript s) _ _ (show 34 < (stakingScript s).length by omega),
    Go.slice_eq_some (stakingScript s) 2 34 (by omega) (by omega)]
  simp [Go.and_some_false, Go.and_some_true]
  split_ifs <;> simp_all [Go.and_some_false, Go.and_some_true]

theorem classify_other (p : ParticlParser) (s : Bytes) (h66 : s.length ≠ 66)
    (h64 : s.length ≠ 64) (h37 : s.length ≠ 37) (h35 : s.length ≠ 35) :
    p.outputScriptToAddresses s = some (classifyResult p s) := by
  have e : classifyResult p s = ((p.BitcoinOutputScriptToAddressesFunc s).1,
      (p.BitcoinOutputScriptToAddressesFunc s).2.1, none) := by
    unfold classifyResult standaloneResult isCoinstakeEnvelope isP2CS isP2SH256
    simp [h66, h64, h37, h35]
  rw [e]
  unfold ParticlParser.outputScriptToAddresses
  simp only [h66, h64, h37, h35, beq_iff_eq, Bool.or_self, decide_False, Go.and_some_false,
    Option.bind_eq_bind, Option.some_bind, Bool.or_false, Bool.false_eq_true, if_false,
    Option.pure_def, beq_eq_false_iff_ne, ne_eq, not_false_eq_true, beq_false_of_ne]

/-- The classifier never panics, and its result is given by `classifyResult`. -/
theorem outputScriptToAddresses_eq (p : ParticlParser) (s : Bytes) :
    p.outputScriptToAddresses s = some (classifyResult p s) := by
  by_cases h66 : s.length = 66
  · exact classify_66 p s h66
  by_cases h64 : s.length = 64
  · exact classify_64 p s h64
  by_cases h37 : s.length = 37
  · exact classify_37 p s h37
  by_cases h35 : s.length = 35
  · exact classify_35 p s h35
  exact classify_other p s h66 h64 h37 h35

/-! ## Round trip -/

/-- The standalone P2CS rule on the script built from a 32-byte hash. -/
theorem classify_p2cs_script (p : ParticlParser) (h : Bytes) (hh : h.length = 32) :
    p.outputScriptToAddresses ([0x76, 0xa8, 0x20] ++ h ++ [0x88, 0xac]) =
      some (some [ParticlP2CSAddress.String
        { pubKeyHash := h, versionByte := 0x39, params := p.BitcoinLikeParser.Params }],
        true, none) := by
  obtain ⟨a0, a1, a2, a3, a4, a5, a6, a7, a8, a9, b0, b1, b2, b3, b4, b5, b6, b7, b8, b9,
      c0, c1, c2, c3, c4, c5, c6, c7, c8, c9, d0, d1, rfl⟩ := bytes_of_length_32 h hh
  rfl

/-- The standalone P2SH256 rule on the script built from a 32-byte hash. -/
theorem classify_p2sh256_script (p : ParticlParser) (h : Bytes) (hh : h.length = 32) :
    p.outputScriptToAddresses ([0xa8, 0x20] ++ h ++ [0x87]) =
      some (some [ParticlP2CSAddress.String
        { pubKeyHash := h, versionByte := 0x3d, params := p.BitcoinLikeParser.Params }],
        true, none) := by
  obtain ⟨a0, a1, a2, a3, a4, a5, a6, a7, a8, a9, b0, b1, b2, b3, b4, b5, b6, b7, b8, b9,
      c0, c1, c2, c3, c4, c5, c6, c7, c8, c9, d0, d1, rfl⟩ := bytes_of_length_32 h hh
  rfl

/-- A script that no Particl-specific rule resolves goes to the standard classifier, whose
error is dropped. -/
theorem classify_standard (p : ParticlParser) (s : Bytes) (h : isParticlScript s = false) :
    p.outputScriptToAddresses s =
      some ((p.BitcoinOutputScriptToAddressesFunc s).1,
        (p.BitcoinOutputScriptToAddressesFunc s).2.1, none) := by
  rw [outputScriptToAddresses_eq]
  unfold isParticlScript at h
  simp only [Bool.or_eq_false_iff, Bool.and_eq_false_iff] at h
  obtain ⟨⟨h1, h2⟩, h3⟩ := h
  unfold classifyResult standaloneResult
  rcases h1 with h1 | ⟨h1, h1'⟩
  · simp [h1, h2, h3]
  · simp [h1, h1', h2, h3]

/-- The address that encodes what a string of alphabet characters decodes to is that
string. -/
theorem String_of_decoded (v : UInt8) (h : Bytes) (params : chaincfg.Params) (address : String)
    (hdec : base58.Decode address =
      [v] ++ h ++ (sha256.Sum256 (sha256.Sum256 ([v] ++ h))).take 4) :
    ParticlP2CSAddress.String { pubKeyHash := h, versionByte := v, params := params } =
      address := by
  have hne : base58.Decode address ≠ [] := by rw [hdec]; simp
  have hv := base58.valid_of_Decode_ne_nil address hne
  show base58.Encode ([v] ++ h ++ (sha256.Sum256 (sha256.Sum256 ([v] ++ h))).take 4) = address
  rw [← hdec]
  exact base58.Encode_Decode address hv

/-- The round trip over any base parser. Let the standard decoder accept `A`, with a
descriptor that no Particl-specific rule resolves and that the standard classifier maps to
`[A]` with `isValid = true`; or let it reject `A`, and `A` decode to version byte 0x39 or
0x3d, a 32-byte hash and the correct checksum. Then `GetAddrDescFromAddress` succeeds on
`A` and `GetAddressesFromAddrDesc` maps its descriptor to exactly `[A]` with
`isValid = true`. -/
theorem round_trip_of_codec (p : ParticlParser) (A : String)
    (hA : (∃ d, p.BitcoinLikeParser.GetAddrDescFromAddress A = .ok d ∧
            isParticlScript d = false ∧
            (p.BitcoinOutputScriptToAddressesFunc d).1 = some [A] ∧
            (p.BitcoinOutputScriptToAddressesFunc d).2.1 = true) ∨
          ((∃ e, p.BitcoinLikeParser.GetAddrDescFromAddress A = .error e) ∧
            ∃ v h, (v = 0x39 ∨ v = 0x3d) ∧ h.length = 32 ∧
              base58.Decode A =
                [v] ++ h ++ (sha256.Sum256 (sha256.Sum256 ([v] ++ h))).take 4)) :
    ∃ d, p.GetAddrDescFromAddress A = some (.ok d) ∧
      p.GetAddressesFromAddrDesc d = some (some [A], true, none) := by
  rcases hA with ⟨d, hd, hnp, h1, h2⟩ | ⟨⟨e, hstd⟩, v, h, hv, hlen, hdec⟩
  · refine ⟨d, getAddrDesc_accepted p A d hd, ?_⟩
    unfold ParticlParser.GetAddressesFromAddrDesc
    rw [classify_standard p d hnp, h1, h2]
  · rcases hv with rfl | rfl
    · refine ⟨_, getAddrDesc_p2cs p A h e hstd hdec hlen, ?_⟩
      unfold ParticlParser.GetAddressesFromAddrDesc
      rw [classify_p2cs_script p h hlen, String_of_decoded _ h _ A hdec]
    · refine ⟨_, getAddrDesc_p2sh256 p A h e hstd hdec hlen, ?_⟩
      unfold ParticlParser.GetAddressesFromAddrDesc
      rw [classify_p2sh256_script p h hlen, String_of_decoded _ h _ A hdec]

/-- What the standard decoder accepts: the string decodes to the pubkey-hash or the
script-hash version of the network, a 20-byte hash and the checksum of the two, and the
descriptor is the P2PKH or the P2SH script of the hash. -/
theorem standard_decoded (params : chaincfg.Params) (A : String) (d : bchain.AddressDescriptor)
    (h : btc.GetAddrDescFromAddress params A = .ok d) :
    ∃ ver hash : Bytes, hash.length = 20 ∧
      base58.Decode A = ver ++ hash ++ base58.Sha256D (ver ++ hash) ∧
      ((ver = params.PubKeyHashAddrID ∧ d = [0x76, 0xa9, 0x14] ++ hash ++ [0x88, 0xac]) ∨
        (ver = params.ScriptHashAddrID ∧ d = [0xa9, 0x14] ++ hash ++ [0x87])) := by
  unfold btc.GetAddrDescFromAddress at h
  simp only at h
  have hsplit : base58.Decode A =
      (base58.Decode A).take ((base58.Decode A).length - 4) ++
        (base58.Decode A).drop ((base58.Decode A).length - 4) :=
    (List.take_append_drop _ _).symm
  split_ifs at h with h1 h2 h3 h4
  · have hck : (base58.Decode A).drop ((base58.Decode A).length - 4) =
        base58.Sha256D ((base58.Decode A).take ((base58.Decode A).length - 4)) := by
      by_contra hne
      exact h2 hne
    refine ⟨params.PubKeyHashAddrID, _, h3.2, ?_, Or.inl ⟨rfl, (Except.ok.inj h).symm⟩⟩
    rw [← h3.1, ← hck]
    exact hsplit
  · have hck : (base58.Decode A).drop ((base58.Decode A).length - 4) =
        base58.Sha256D ((base58.Decode A).take ((base58.Decode A).length - 4)) := by
      by_contra hne
      exact h2 hne
    refine ⟨params.ScriptHashAddrID, _, h4.2, ?_, Or.inr ⟨rfl, (Except.ok.inj h).symm⟩⟩
    rw [← h4.1, ← hck]
    exact hsplit

/-- The standard classifier on the P2PKH script of a 20-byte hash. -/
theorem classify_p2pkh (params : chaincfg.Params) (hash : Bytes) (hh : hash.length = 20) :
    btc.outputScriptToAddresses params ([0x76, 0xa9, 0x14] ++ hash ++ [0x88, 0xac]) =
      (some [base58.CheckEncode hash params.PubKeyHashAddrID base58.Sha256D], true, none) := by
  obtain ⟨a0, a1, a2, a3, a4, a5, a6, a7, a8, a9, b0, b1, b2, b3, b4, b5, b6, b7, b8, b9,
      rfl⟩ := bytes_of_length_20 hash hh
  rfl

/-- The standard classifier on the P2SH script of a 20-byte hash. -/
theorem classify_p2sh (params : chaincfg.Params) (hash : Bytes) (hh : hash.length = 20) :
    btc.outputScriptToAddresses params ([0xa9, 0x14] ++ hash ++ [0x87]) =
      (some [base58.CheckEncode hash params.ScriptHashAddrID base58.Sha256D], true, none) := by
  obtain ⟨a0, a1, a2, a3, a4, a5, a6, a7, a8, a9, b0, b1, b2, b3, b4, b5, b6, b7, b8, b9,
      rfl⟩ := bytes_of_length_20 hash hh
  rfl

/-- The base58check string of what a string decodes to is that string. -/
theorem checkEncode_of_decoded (ver hash : Bytes) (A : String)
    (hdec : base58.Decode A = ver ++ hash ++ base58.Sha256D (ver ++ hash))
    (hne : hash ≠ []) :
    base58.CheckEncode hash ver base58.Sha256D = A := by
  have hn : base58.Decode A ≠ [] := by
    rw [hdec]
    intro h
    have := congrArg List.length h
    simp only [List.length_append, List.length_nil] at this
    have : hash.length = 0 := by omega
    exact hne (List.length_eq_zero.mp this)
  have hv := base58.valid_of_Decode_ne_nil A hn
  show base58.Encode (ver ++ hash ++ base58.Sha256D (ver ++ hash)) = A
  rw [← hdec]
  exact base58.Encode_Decode A hv

/-- A script of 25 or 23 bytes is resolved by no Particl-specific rule. -/
theorem not_particl_of_length (s : Bytes) (h : s.length = 25 ∨ s.length = 23) :
    isParticlScript s = false := by
  have h1 : isCoinstakeEnvelope s = false := by
    unfold isCoinstakeEnvelope
    rcases h with h | h <;> simp [h]
  have h2 : isP2CS s = false := by
    unfold isP2CS
    rcases h with h | h <;> simp [h]
  have h3 : isP2SH256 s = false := by
    unfold isP2SH256
    rcases h with h | h <;> simp [h]
  unfold isParticlScript
  rw [h1, h2, h3]
  rfl

/-- The standard half of the round trip, over the standard codec of any network: an
address that the standard decoder accepts is what the standard classifier returns for its
descriptor, and no Particl-specific rule resolves that descriptor. -/
theorem standard_round_trip (params : chaincfg.Params) (A : String)
    (d : bchain.AddressDescriptor) (h : btc.GetAddrDescFromAddress params A = .ok d) :
    isParticlScript d = false ∧
      btc.outputScriptToAddresses params d = (some [A], true, none) := by
  obtain ⟨ver, hash, hlen, hdec, hcase⟩ := standard_decoded params A d h
  have hne : hash ≠ [] := by
    intro h0
    rw [h0] at hlen
    cases hlen
  rcases hcase with ⟨rfl, rfl⟩ | ⟨rfl, rfl⟩
  · refine ⟨not_particl_of_length _ (Or.inl (by simp [hlen])), ?_⟩
    rw [classify_p2pkh params hash hlen, checkEncode_of_decoded _ hash A hdec hne]
  · refine ⟨not_particl_of_length _ (Or.inr (by simp [hlen])), ?_⟩
    rw [classify_p2sh params hash hlen, checkEncode_of_decoded _ hash A hdec hne]

/-- C1: round trip, for the parser over the standard codec of any network (P2PKH and P2SH
addresses in base58check). Let `A` be a valid standard address (the standard decoder
accepts it) or a valid Particl-specific address (it decodes to version byte 0x39, P2CS, or
0x3d, P2SH256, a 32-byte hash and the correct checksum). Then `GetAddrDescFromAddress`
succeeds on `A` and `GetAddressesFromAddrDesc` maps its descriptor to exactly `[A]` with
`isValid = true`. -/
theorem address_round_trip (params : chaincfg.Params)
    (AmountToBigInt : common.JSONNumber → Except bchain.Error Int) (A : String)
    (hA : (∃ d, btc.GetAddrDescFromAddress params A = .ok d) ∨
          ∃ v h, (v = 0x39 ∨ v = 0x3d) ∧ h.length = 32 ∧
            base58.Decode A =
              [v] ++ h ++ (sha256.Sum256 (sha256.Sum256 ([v] ++ h))).take 4) :
    ∃ d, (NewParticlParser (btc.NewBitcoinLikeParser params AmountToBigInt)).GetAddrDescFromAddress
          A = some (.ok d) ∧
      (NewParticlParser (btc.NewBitcoinLikeParser params AmountToBigInt)).GetAddressesFromAddrDesc
          d = some (some [A], true, none) := by
  have hstd : ∀ d, btc.GetAddrDescFromAddress params A = .ok d →
      ∃ d, (NewParticlParser
            (btc.NewBitcoinLikeParser params AmountToBigInt)).GetAddrDescFromAddress A =
          some (.ok d) ∧
        (NewParticlParser
            (btc.NewBitcoinLikeParser params AmountToBigInt)).GetAddressesFromAddrDesc d =
          some (some [A], true, none) := by
    intro d hd
    obtain ⟨hnp, hcls⟩ := standard_round_trip params A d hd
    exact round_trip_of_codec _ A (Or.inl ⟨d, hd, hnp, by
      show (btc.outputScriptToAddresses params d).1 = some [A]
      rw [hcls], by
      show (btc.outputScriptToAddresses params d).2.1 = true
      rw [hcls]⟩)
  rcases hA with ⟨d, hd⟩ | hpart
  · exact hstd d hd
  · cases hd : btc.GetAddrDescFromAddress params A with
    | ok d => exact hstd d hd
    | error e => exact round_trip_of_codec _ A (Or.inr ⟨⟨e, hd⟩, hpart⟩)

/-- The standard codec computes the P2PKH pair of the test fixtures: the address decodes to
the script and the script is classified as the address. -/
theorem standard_fixture :
    btc.GetAddrDescFromAddress MainNetParams "Po3VBGWztKbFnU9rFGKNx2Rtg1zWoS4zTR" =
      .ok fixtureP2PKH ∧
    btc.outputScriptToAddresses MainNetParams fixtureP2PKH =
      (some ["Po3VBGWztKbFnU9rFGKNx2Rtg1zWoS4zTR"], true, none) := by
  decide!

/-- Witness for C1: the standard, the P2CS and the P2SH256 address of the test fixtures,
over the standard codec of the main network; the descriptors are the three scripts of the
test fixtures. -/
theorem address_round_trip_witness :
    ((NewParticlParser (btc.NewBitcoinLikeParser MainNetParams
          fixtureBase.AmountToBigInt)).GetAddrDescFromAddress
        "Po3VBGWztKbFnU9rFGKNx2Rtg1zWoS4zTR" = some (.ok fixtureP2PKH) ∧
      (NewParticlParser (btc.NewBitcoinLikeParser MainNetParams
          fixtureBase.AmountToBigInt)).GetAddressesFromAddrDesc fixtureP2PKH =
        some (some ["Po3VBGWztKbFnU9rFGKNx2Rtg1zWoS4zTR"], true, none)) ∧
    ((NewParticlParser (btc.NewBitcoinLikeParser MainNetParams
          fixtureBase.AmountToBigInt)).GetAddrDescFromAddress
        "2urAsyaHCnbMEQLNCCv3unbeysaPpjp1TiWLMWcQRMwYs74qGQh" =
        some (.ok ([0x76, 0xa8, 0x20] ++ fixtureHashP2CS ++ [0x88, 0xac])) ∧
      (NewParticlParser (btc.NewBitcoinLikeParser MainNetParams
          fixtureBase.AmountToBigInt)).GetAddressesFromAddrDesc
          ([0x76, 0xa8, 0x20] ++ fixtureHashP2CS ++ [0x88, 0xac]) =
        some (some ["2urAsyaHCnbMEQLNCCv3unbeysaPpjp1TiWLMWcQRMwYs74qGQh"], true, none)) ∧
    ((NewParticlParser (btc.NewBitcoinLikeParser MainNetParams
          fixtureBase.AmountToBigInt)).GetAddrDescFromAddress
        "33kQnRT9ecMedncHvns3eHbbNzgKPqXMcTCFuWV697J8PiX6myG" =
        some (.ok ([0xa8, 0x20] ++ fixtureHashP2SH256 ++ [0x87])) ∧
      (NewParticlParser (btc.NewBitcoinLikeParser MainNetParams
          fixtureBase.AmountToBigInt)).GetAddressesFromAddrDesc
          ([0xa8, 0x20] ++ fixtureHashP2SH256 ++ [0x87]) =
        some (some ["33kQnRT9ecMedncHvns3eHbbNzgKPqXMcTCFuWV697J8PiX6myG"], true, none)) := by
  obtain ⟨d1, hd1, hr1⟩ := address_round_trip MainNetParams fixtureBase.AmountToBigInt
    "Po3VBGWztKbFnU9rFGKNx2Rtg1zWoS4zTR" (Or.inl ⟨fixtureP2PKH, standard_fixture.1⟩)
  obtain ⟨d2, hd2, hr2⟩ := address_round_trip MainNetParams fixtureBase.AmountToBigInt
    "2urAsyaHCnbMEQLNCCv3unbeysaPpjp1TiWLMWcQRMwYs74qGQh"
    (Or.inr ⟨0x39, fixtureHashP2CS, Or.inl rfl, by decide, by decide!⟩)
  obtain ⟨d3, hd3, hr3⟩ := address_round_trip MainNetParams fixtureBase.AmountToBigInt
    "33kQnRT9ecMedncHvns3eHbbNzgKPqXMcTCFuWV697J8PiX6myG"
    (Or.inr ⟨0x3d, fixtureHashP2SH256, Or.inr rfl, by decide, by decide!⟩)
  have e1 : (NewParticlParser (btc.NewBitcoinLikeParser MainNetParams
      fixtureBase.AmountToBigInt)).GetAddrDescFromAddress
      "Po3VBGWztKbFnU9rFGKNx2Rtg1zWoS4zTR" = some (.ok fixtureP2PKH) := by decide!
  have e2 : (NewParticlParser (btc.NewBitcoinLikeParser MainNetParams
      fixtureBase.AmountToBigInt)).GetAddrDescFromAddress
      "2urAsyaHCnbMEQLNCCv3unbeysaPpjp1TiWLMWcQRMwYs74qGQh" =
      some (.ok ([0x76, 0xa8, 0x20] ++ fixtureHashP2CS ++ [0x88, 0xac])) := by decide!
  have e3 : (NewParticlParser (btc.NewBitcoinLikeParser MainNetParams
      fixtureBase.AmountToBigInt)).GetAddrDescFromAddress
      "33kQnRT9ecMedncHvns3eHbbNzgKPqXMcTCFuWV697J8PiX6myG" =
      some (.ok ([0xa8, 0x20] ++ fixtureHashP2SH256 ++ [0x87])) := by decide!
  have f1 : d1 = fixtureP2PKH := Except.ok.inj (Option.some.inj (hd1.symm.trans e1))
  have f2 : d2 = [0x76, 0xa8, 0x20] ++ fixtureHashP2CS ++ [0x88, 0xac] :=
    Except.ok.inj (Option.some.inj (hd2.symm.trans e2))
  have f3 : d3 = [0xa8, 0x20] ++ fixtureHashP2SH256 ++ [0x87] :=
    Except.ok.inj (Option.some.inj (hd3.symm.trans e3))
  subst f1 f2 f3
  exact ⟨⟨hd1, hr1⟩, ⟨hd2, hr2⟩, ⟨hd3, hr3⟩⟩

/-! ## The documented shapes and the order of the rules -/

theorem isP2CS_length (s : Bytes) (h : isP2CS s = true) : s.length = 37 := by
  unfold isP2CS at h
  simp only [Bool.and_eq_true, beq_iff_eq] at h
  exact h.1.1.1.1.1

theorem isP2SH256_length (s : Bytes) (h : isP2SH256 s = true) : s.length = 35 := by
  unfold isP2SH256 at h
  simp only [Bool.and_eq_true, beq_iff_eq] at h
  exact h.1.1.1

theorem stakingScript_length (s : Bytes) : (stakingScript s).length = s.length - 1 - 28 := by
  unfold stakingScript
  simp only [List.length_drop, List.length_take]
  omega

theorem coinstake66_length (s : Bytes)
    (h : (isCoinstakeEnvelope s && isP2CS (stakingScript s)) = true) : s.length = 66 := by
  simp only [Bool.and_eq_true] at h
  have h1 := isP2CS_length _ h.2
  rw [stakingScript_length] at h1
  omega

theorem coinstake64_length (s : Bytes)
    (h : (isCoinstakeEnvelope s && isP2SH256 (stakingScript s)) = true) : s.length = 64 := by
  simp only [Bool.and_eq_true] at h
  have h1 := isP2SH256_length _ h.2
  rw [stakingScript_length] at h1
  omega

/-- At most one of the four patterns holds for a script. -/
theorem patterns_disjoint (s : Bytes) :
    (particlPatterns.filter (fun pat => pat s)).length ≤ 1 := by
  unfold particlPatterns
  by_cases h1 : (isCoinstakeEnvelope s && isP2CS (stakingScript s)) = true
  · have hl := coinstake66_length s h1
    have h2 : (isCoinstakeEnvelope s && isP2SH256 (stakingScript s)) = false := by
      by_contra h; have := coinstake64_length s (by simpa using h); omega
    have h3 : isP2CS s = false := by
      by_contra h; have := isP2CS_length s (by simpa using h); omega
    have h4 : isP2SH256 s = false := by
      by_contra h; have := isP2SH256_length s (by simpa using h); omega
    simp [List.filter, h1, h2, h3, h4]
  · by_cases h2 : (isCoinstakeEnvelope s && isP2SH256 (stakingScript s)) = true
    · have hl := coinstake64_length s h2
      have h3 : isP2CS s = false := by
        by_contra h; have := isP2CS_length s (by simpa using h); omega
      have h4 : isP2SH256 s = false := by
        by_contra h; have := isP2SH256_length s (by simpa using h); omega
      simp [List.filter, h1, h2, h3, h4]
    · by_cases h3 : isP2CS s = true
      · have hl := isP2CS_length s h3
        have h4 : isP2SH256 s = false := by
          by_contra h; have := isP2SH256_length s (by simpa using h); omega
        simp [List.filter, h1, h2, h3, h4]
      · by_cases h4 : isP2SH256 s = true <;> simp [List.filter, h1, h2, h3, h4]

/-- Testing rules in another order gives the same first match when any two rules that
match agree on the result. -/
theorem findSome?_perm {α β : Type} (f : α → Option β) {l l' : List α} (hp : l.Perm l')
    (hu : ∀ x ∈ l, ∀ y ∈ l, ∀ a b, f x = some a → f y = some b → a = b) :
    l.findSome? f = l'.findSome? f := by
  induction hp with
  | nil => rfl
  | cons x _ ih =>
    simp only [List.findSome?_cons]
    cases hx : f x with
    | some a => rfl
    | none =>
      exact ih (fun u hu' v hv' a b ha hb =>
        hu u (List.mem_cons_of_mem _ hu') v (List.mem_cons_of_mem _ hv') a b ha hb)
  | swap x y l =>
    simp only [List.findSome?_cons]
    cases hx : f x with
    | some a =>
      cases hy : f y with
      | some b =>
        have := hu y (by simp) x (by simp) b a hy hx
        rw [this]
      | none => rfl
    | none => rfl
  | trans h1 _ ih1 ih2 =>
    rw [ih1 hu]
    exact ih2 (fun u hu' v hv' a b ha hb =>
      hu u (h1.mem_iff.mpr hu') v (h1.mem_iff.mpr hv') a b ha hb)

/-- Two Particl-specific rules that both match a script give the same result. -/
theorem rules_agree (p : ParticlParser) (s : Bytes) :
    ∀ x ∈ particlRules p, ∀ y ∈ particlRules p, ∀ a b, x s = some a → y s = some b → a = b := by
  have H66 := coinstake66_length s
  have H64 := coinstake64_length s
  have H37 := isP2CS_length s
  have H35 := isP2SH256_length s
  intro x hx y hy a b ha hb
  simp only [particlRules, List.mem_cons, List.mem_singleton, List.mem_nil_iff, or_false] at hx hy
  rcases hx with rfl | rfl | rfl | rfl <;> rcases hy with rfl | rfl | rfl | rfl <;>
    simp only [Option.ite_none_right_eq_some, Option.some.injEq] at ha hb <;>
    obtain ⟨c1, rfl⟩ := ha <;> obtain ⟨c2, rfl⟩ := hb <;>
    first
    | rfl
    | exact absurd ((H66 c1).symm.trans (H64 c2)) (by decide)
    | exact absurd ((H66 c1).symm.trans (H37 c2)) (by decide)
    | exact absurd ((H66 c1).symm.trans (H35 c2)) (by decide)
    | exact absurd ((H64 c1).symm.trans (H66 c2)) (by decide)
    | exact absurd ((H64 c1).symm.trans (H37 c2)) (by decide)
    | exact absurd ((H64 c1).symm.trans (H35 c2)) (by decide)
    | exact absurd ((H37 c1).symm.trans (H66 c2)) (by decide)
    | exact absurd ((H37 c1).symm.trans (H64 c2)) (by decide)
    | exact absurd ((H37 c1).symm.trans (H35 c2)) (by decide)
    | exact absurd ((H35 c1).symm.trans (H66 c2)) (by decide)
    | exact absurd ((H35 c1).symm.trans (H64 c2)) (by decide)
    | exact absurd ((H35 c1).symm.trans (H37 c2)) (by decide)

/-- The rules in source order give the closed form of the classifier. -/
theorem classifyInOrder_source (p : ParticlParser) (s : Bytes) :
    classifyInOrder p (particlRules p) s = classifyResult p s := by
  unfold classifyInOrder particlRules classifyResult standaloneResult
  simp only [List.findSome?_cons, List.findSome?_nil]
  by_cases h1 : (isCoinstakeEnvelope s && isP2CS (stakingScript s)) = true
  · simp [h1]
  · by_cases h2 : (isCoinstakeEnvelope s && isP2SH256 (stakingScript s)) = true
    · simp [h1, h2]
    · by_cases h3 : isP2CS s = true
      · simp [h1, h2, h3]
      · by_cases h4 : isP2SH256 s = true
        · simp [h1, h2, h3, h4]
        · simp [h1, h2, h3, h4]

/-- Bytes 2..26 of a script of at least 27 bytes form a P2PKH script exactly when the
opcodes at offsets 2, 3, 4, 25 and 26 are `76 a9 14` and `88 ac`. -/
theorem isP2PKH_window (s : Bytes) (h : 27 ≤ s.length) :
    isP2PKH ((s.take 27).drop 2) =
      (s.getD 2 0 == 0x76 && s.getD 3 0 == 0xa9 && s.getD 4 0 == 0x14 &&
        s.getD 25 0 == 0x88 && s.getD 26 0 == 0xac) := by
  unfold isP2PKH
  have hl : ((s.take 27).drop 2).length = 25 := by
    simp only [List.length_drop, List.length_take]; omega
  simp only [hl, List.getD_eq_getElem?_getD, List.getElem?_drop, List.getElem?_take]
  simp

/-- Every script of a documented shape is resolved by a Particl-specific rule. -/
theorem particl_of_documented (s : Bytes) (h : matchesDocumentedShape s = true) :
    isParticlScript s = true := by
  unfold matchesDocumentedShape at h
  unfold isParticlScript
  simp only [Bool.or_eq_true] at h ⊢
  rcases h with ((h | h) | h) | h
  · left; left
    unfold documentedCoinstake66 at h
    simp only [Bool.and_eq_true, beq_iff_eq] at h
    obtain ⟨⟨⟨⟨⟨⟨hl, h0⟩, h1⟩, hp⟩, h27⟩, hs⟩, h65⟩ := h
    rw [isP2PKH_window s (by omega)] at hp
    simp only [Bool.and_eq_true, beq_iff_eq] at hp
    have e : stakingScript s = (s.take 65).drop 28 := by unfold stakingScript; rw [hl]
    rw [← e] at hs
    rw [show (65 : Nat) = s.length - 1 by omega] at h65
    unfold isCoinstakeEnvelope
    simp only [Bool.and_eq_true, Bool.or_eq_true, beq_iff_eq]
    tauto
  · left; left
    unfold documentedCoinstake64 at h
    simp only [Bool.and_eq_true, beq_iff_eq] at h
    obtain ⟨⟨⟨⟨⟨⟨hl, h0⟩, h1⟩, hp⟩, h27⟩, hs⟩, h63⟩ := h
    rw [isP2PKH_window s (by omega)] at hp
    simp only [Bool.and_eq_true, beq_iff_eq] at hp
    have e : stakingScript s = (s.take 63).drop 28 := by unfold stakingScript; rw [hl]
    rw [← e] at hs
    rw [show (63 : Nat) = s.length - 1 by omega] at h63
    unfold isCoinstakeEnvelope
    simp only [Bool.and_eq_true, Bool.or_eq_true, beq_iff_eq]
    tauto
  · left; right; exact h
  · right; exact h

/-- A script that a Particl-specific rule resolves has a documented shape as soon as its
bytes 25 and 26 are `88 ac`: the two missing tests are the only difference. -/
theorem documented_of_particl (s : Bytes) (h : isParticlScript s = true)
    (h25 : s.getD 25 0 = 0x88) (h26 : s.getD 26 0 = 0xac) :
    matchesDocumentedShape s = true := by
  unfold isParticlScript at h
  unfold matchesDocumentedShape
  simp only [Bool.or_eq_true] at h ⊢
  rcases h with (h | h) | h
  · simp only [Bool.and_eq_true, Bool.or_eq_true] at h
    obtain ⟨henv, hst⟩ := h
    have henv' := henv
    unfold isCoinstakeEnvelope at henv
    simp only [Bool.and_eq_true, Bool.or_eq_true, beq_iff_eq] at henv
    obtain ⟨⟨⟨⟨⟨⟨⟨hl, h0⟩, h1⟩, h2⟩, h3⟩, h4⟩, h27⟩, hlast⟩ := henv
    rcases hst with hst | hst
    · have hl66 := coinstake66_length s (by simp [henv', hst])
      left; left; left
      unfold documentedCoinstake66
      rw [isP2PKH_window s (by omega)]
      have e : stakingScript s = (s.take 65).drop 28 := by unfold stakingScript; rw [hl66]
      rw [hl66] at hlast
      rw [e] at hst
      simp only [Bool.and_eq_true, beq_iff_eq]
      tauto
    · have hl64 := coinstake64_length s (by simp [henv', hst])
      left; left; right
      unfold documentedCoinstake64
      rw [isP2PKH_window s (by omega)]
      have e : stakingScript s = (s.take 63).drop 28 := by unfold stakingScript; rw [hl64]
      rw [hl64] at hlast
      rw [e] at hst
      simp only [Bool.and_eq_true, beq_iff_eq]
      tauto
  · left; right; exact h
  · right; exact h

/-- A script of no documented shape goes to the standard classifier, whose error is
dropped, unless it has 66 or 64 bytes and its bytes 25 and 26 are not `88 ac`. -/
theorem classify_undocumented (p : ParticlParser) (s : Bytes)
    (h : matchesDocumentedShape s = false)
    (hb : (s.getD 25 0 = 0x88 ∧ s.getD 26 0 = 0xac) ∨ (s.length ≠ 66 ∧ s.length ≠ 64)) :
    p.outputScriptToAddresses s =
      some ((p.BitcoinOutputScriptToAddressesFunc s).1,
        (p.BitcoinOutputScriptToAddressesFunc s).2.1, none) := by
  apply classify_standard
  by_contra hp
  have hp' : isParticlScript s = true := by simpa using hp
  rcases hb with ⟨h25, h26⟩ | ⟨h66, h64⟩
  · rw [documented_of_particl s hp' h25 h26] at h
    cases h
  · have hd : matchesDocumentedShape s = true := by
      unfold isParticlScript at hp'
      unfold matchesDocumentedShape
      simp only [Bool.or_eq_true] at hp' ⊢
      rcases hp' with (hc | hc) | hc
      · exfalso
        simp only [Bool.and_eq_true, Bool.or_eq_true] at hc
        rcases hc.2 with h2 | h2
        · exact h66 (coinstake66_length s (by simp [hc.1, h2]))
        · exact h64 (coinstake64_length s (by simp [hc.1, h2]))
      · left; right; exact hc
      · right; exact hc
    rw [hd] at h
    cases h

/-- The error component of the closed form is always `nil`. -/
theorem classifyResult_error (p : ParticlParser) (s : Bytes) :
    (classifyResult p s).2.2 = none := by
  unfold classifyResult standaloneResult
  split_ifs <;> rfl

/-- C11: a 37-byte script `76 a8 20 h 88 ac` with a 32-byte `h` is classified, without
panic or error, as exactly one address, the encoding of `h` with version byte 0x39, and
`isValid = true`; the standard classifier is not consulted: the result is the same
whatever standard classifier the parser holds. -/
theorem outputScriptToAddresses_p2cs (p : ParticlParser) (h : Bytes) (hh : h.length = 32) :
    p.outputScriptToAddresses ([0x76, 0xa8, 0x20] ++ h ++ [0x88, 0xac]) =
      some (some [ParticlP2CSAddress.String
        { pubKeyHash := h, versionByte := 0x39, params := p.BitcoinLikeParser.Params }],
        true, none) ∧
    ([0x76, 0xa8, 0x20] ++ h ++ [0x88, 0xac]).length = 37 ∧
    ∀ f : btc.OutputScriptToAddressesFunc,
      ({ p with BitcoinOutputScriptToAddressesFunc := f } : ParticlParser).outputScriptToAddresses
          ([0x76, 0xa8, 0x20] ++ h ++ [0x88, 0xac]) =
        p.outputScriptToAddresses ([0x76, 0xa8, 0x20] ++ h ++ [0x88, 0xac]) := by
  refine ⟨classify_p2cs_script p h hh, by simp [hh], fun f => ?_⟩
  rw [classify_p2cs_script p h hh, classify_p2cs_script _ h hh]

/-- Witness for C11: the standalone P2CS script of the test fixtures and its address. -/
theorem outputScriptToAddresses_p2cs_witness :
    fixtureParser.outputScriptToAddresses ([0x76, 0xa8, 0x20] ++ fixtureHashP2CS ++ [0x88, 0xac]) =
      some (some ["2urAsyaHCnbMEQLNCCv3unbeysaPpjp1TiWLMWcQRMwYs74qGQh"], true, none) :=
  (outputScriptToAddresses_p2cs fixtureParser fixtureHashP2CS (by decide)).1.trans (by decide!)

/-- C12: a 35-byte script `a8 20 h 87` with a 32-byte `h` is classified, without panic or
error, as exactly one address, the encoding of `h` with version byte 0x3d, and
`isValid = true`; the standard classifier is not consulted: the result is the same
whatever standard classifier the parser holds. -/
theorem outputScriptToAddresses_p2sh256 (p : ParticlParser) (h : Bytes) (hh : h.length = 32) :
    p.outputScriptToAddresses ([0xa8, 0x20] ++ h ++ [0x87]) =
      some (some [ParticlP2CSAddress.String
        { pubKeyHash := h, versionByte := 0x3d, params := p.BitcoinLikeParser.Params }],
        true, none) ∧
    ([0xa8, 0x20] ++ h ++ [0x87]).length = 35 ∧
    ∀ f : btc.OutputScriptToAddressesFunc,
      ({ p with BitcoinOutputScriptToAddressesFunc := f } : ParticlParser).outputScriptToAddresses
          ([0xa8, 0x20] ++ h ++ [0x87]) =
        p.outputScriptToAddresses ([0xa8, 0x20] ++ h ++ [0x87]) := by
  refine ⟨classify_p2sh256_script p h hh, by simp [hh], fun f => ?_⟩
  rw [classify_p2sh256_script p h hh, classify_p2sh256_script _ h hh]

/-- Witness for C12: the standalone P2SH256 script of the test fixtures and its address. -/
theorem outputScriptToAddresses_p2sh256_witness :
    fixtureParser.outputScriptToAddresses ([0xa8, 0x20] ++ fixtureHashP2SH256 ++ [0x87]) =
      some (some ["33kQnRT9ecMedncHvns3eHbbNzgKPqXMcTCFuWV697J8PiX6myG"], true, none) :=
  (outputScriptToAddresses_p2sh256 fixtureParser fixtureHashP2SH256 (by decide)).1.trans
    (by decide!)

/-- C13 (code defect): the script `brokenCoinstake66` has none of the four documented
Particl-specific shapes (its IF branch does not end in `88 ac`), and the standard
classifier of the fixture parser finds no address for it, yet `outputScriptToAddresses`
does not return the standard classifier's result: it returns one address and
`isValid = true`. -/
theorem outputScriptToAddresses_broken_not_delegated :
    matchesDocumentedShape brokenCoinstake66 = false ∧
    fixtureParser.BitcoinOutputScriptToAddressesFunc brokenCoinstake66 =
      (none, false, some (bchain.Error.other "unknown script")) ∧
    fixtureParser.outputScriptToAddresses brokenCoinstake66 =
      some (some ["2vjzfpCeiohkBtg3gcQJFLFaV6Yjqehw6Q4SwiKqRwKWfut2zPD"], true, none) := by
  decide!

/-- C14: script classification never errors and never panics: for every parser and every
byte sequence `outputScriptToAddresses` returns normally with a `nil` error, also when the
standard classifier it delegates to reports an error. -/
theorem outputScriptToAddresses_never_errors (p : ParticlParser) (script : Bytes) :
    ∃ addresses isValid, p.outputScriptToAddresses script = some (addresses, isValid, none) := by
  refine ⟨(classifyResult p script).1, (classifyResult p script).2.1, ?_⟩
  rw [outputScriptToAddresses_eq]
  congr 1
  have := classifyResult_error p script
  rcases hc : classifyResult p script with ⟨a, v, e⟩
  rw [hc] at this
  simp only at this
  rw [this]

/-- An instance of C14: the standard classifier of the fixture parser reports an error on
the empty script, and the classifier returns a `nil` error. -/
theorem outputScriptToAddresses_drops_error :
    fixtureParser.BitcoinOutputScriptToAddressesFunc [] =
      (none, false, some (bchain.Error.other "unknown script")) ∧
    fixtureParser.outputScriptToAddresses [] = some (none, false, none) := by
  decide

/-- C15 (code defect): the scripts `brokenCoinstake66` and `brokenCoinstake64` have 66 and
64 bytes, bytes 25 and 26 are `00 00` instead of `88 ac`, so bytes 2..26 are not a P2PKH
script, and both are resolved by a composite coinstake rule all the same. -/
theorem outputScriptToAddresses_broken_p2pkh_resolved :
    brokenCoinstake66.length = 66 ∧ brokenCoinstake64.length = 64 ∧
    (brokenCoinstake66.getD 25 0, brokenCoinstake66.getD 26 0) = (0x00, 0x00) ∧
    (brokenCoinstake64.getD 25 0, brokenCoinstake64.getD 26 0) = (0x00, 0x00) ∧
    isP2PKH ((brokenCoinstake66.take 27).drop 2) = false ∧
    isP2PKH ((brokenCoinstake64.take 27).drop 2) = false ∧
    (isCoinstakeEnvelope brokenCoinstake66 && isP2CS (stakingScript brokenCoinstake66)) = true ∧
    (isCoinstakeEnvelope brokenCoinstake64 && isP2SH256 (stakingScript brokenCoinstake64)) = true ∧
    fixtureParser.outputScriptToAddresses brokenCoinstake66 =
      some (some ["2vjzfpCeiohkBtg3gcQJFLFaV6Yjqehw6Q4SwiKqRwKWfut2zPD"], true, none) ∧
    fixtureParser.outputScriptToAddresses brokenCoinstake64 =
      some (some ["33kQnRT9ecMedncHvns3eHbbNzgKPqXMcTCFuWV697J8PiX6myG"], true, none) := by
  decide!

/-- At most one of the four documented shapes holds for a script. -/
theorem documented_disjoint (s : Bytes) :
    ([documentedCoinstake66, documentedCoinstake64, isP2CS, isP2SH256].filter
      (fun shape => shape s)).length ≤ 1 := by
  have H66 : documentedCoinstake66 s = true → s.length = 66 := by
    intro h
    unfold documentedCoinstake66 at h
    simp only [Bool.and_eq_true, beq_iff_eq] at h
    exact h.1.1.1.1.1.1
  have H64 : documentedCoinstake64 s = true → s.length = 64 := by
    intro h
    unfold documentedCoinstake64 at h
    simp only [Bool.and_eq_true, beq_iff_eq] at h
    exact h.1.1.1.1.1.1
  have H37 := isP2CS_length s
  have H35 := isP2SH256_length s
  by_cases h1 : documentedCoinstake66 s = true
  · have h2 : documentedCoinstake64 s = false := by
      by_contra h; have := H64 (by simpa using h); have := H66 h1; omega
    have h3 : isP2CS s = false := by
      by_contra h; have := H37 (by simpa using h); have := H66 h1; omega
    have h4 : isP2SH256 s = false := by
      by_contra h; have := H35 (by simpa using h); have := H66 h1; omega
    simp [List.filter, h1, h2, h3, h4]
  · by_cases h2 : documentedCoinstake64 s = true
    · have h3 : isP2CS s = false := by
        by_contra h; have := H37 (by simpa using h); have := H64 h2; omega
      have h4 : isP2SH256 s = false := by
        by_contra h; have := H35 (by simpa using h); have := H64 h2; omega
      simp [List.filter, h1, h2, h3, h4]
    · by_cases h3 : isP2CS s = true
      · have h4 : isP2SH256 s = false := by
          by_contra h; have := H35 (by simpa using h); have := H37 h3; omega
        simp [List.filter, h1, h2, h3, h4]
      · by_cases h4 : isP2SH256 s = true <;> simp [List.filter, h1, h2, h3, h4]

/-- C16: no byte sequence satisfies more than one of the four Particl-specific patterns,
neither as the classifier tests them nor as the specification words them, and
`outputScriptToAddresses` returns what the four rules give when they are tested in any
order (first match wins, the standard classifier is consulted when none matches). -/
theorem outputScriptToAddresses_order_irrelevant :
    (∀ s : Bytes, (particlPatterns.filter (fun pat => pat s)).length ≤ 1) ∧
    (∀ s : Bytes, ([documentedCoinstake66, documentedCoinstake64, isP2CS, isP2SH256].filter
      (fun shape => shape s)).length ≤ 1) ∧
    ∀ (p : ParticlParser) (rules : List (Bytes → Option ClassifyResult)) (s : Bytes),
      rules.Perm (particlRules p) →
        p.outputScriptToAddresses s = some (classifyInOrder p rules s) := by
  refine ⟨patterns_disjoint, documented_disjoint, fun p rules s hperm => ?_⟩
  rw [outputScriptToAddresses_eq, ← classifyInOrder_source]
  unfold classifyInOrder
  rw [findSome?_perm (fun r => r s) hperm.symm (rules_agree p s)]

/-- Witness for C16: the rules in reverse order (standalone rules first) on the 66-byte
coinstake script of the test fixtures. -/
theorem outputScriptToAddresses_order_irrelevant_witness :
    fixtureParser.outputScriptToAddresses
        ([0xb8, 0x63] ++ ([0x76, 0xa9, 0x14] ++ fixtureKeyHash ++ [0x88, 0xac]) ++ [0x67] ++
          ([0x76, 0xa8, 0x20] ++ fixtureHashCoinstake ++ [0x88, 0xac]) ++ [0x68]) =
      some (classifyInOrder fixtureParser (particlRules fixtureParser).reverse
        ([0xb8, 0x63] ++ ([0x76, 0xa9, 0x14] ++ fixtureKeyHash ++ [0x88, 0xac]) ++ [0x67] ++
          ([0x76, 0xa8, 0x20] ++ fixtureHashCoinstake ++ [0x88, 0xac]) ++ [0x68])) :=
  outputScriptToAddresses_order_irrelevant.2.2 fixtureParser (particlRules fixtureParser).reverse _
    (List.reverse_perm _)

/-! ## The JSON normalizer -/

/-- What a successful `ParseTxFromJson` returns, in terms of the decoded transaction. -/
theorem parseTxFromJson_ok (p : ParticlParser)
    (Unmarshal : json.RawMessage → Except bchain.Error ParticlTx) (msg : json.RawMessage)
    (ptx : ParticlTx) (tx : bchain.Tx) (hu : Unmarshal msg = .ok ptx)
    (hok : p.ParseTxFromJson Unmarshal msg = .ok tx) :
    ∃ vout, ParseTxFromJson.vouts p ptx.Vout = .ok vout ∧
      tx = { Hex := ptx.Hex, Txid := ptx.Txid, Version := ptx.Version,
             LockTime := ptx.LockTime, Vin := ptx.Vin.map ParseTxFromJson.vin, Vout := vout,
             Confirmations := ptx.Confirmations, Blocktime := ptx.Blocktime, Time := ptx.Time,
             CoinSpecificData := some { CTFee := ParseTxFromJson.ctFee ptx.Vout } } := by
  unfold ParticlParser.ParseTxFromJson at hok
  rw [hu] at hok
  simp only at hok
  cases hv : ParseTxFromJson.vouts p ptx.Vout with
  | error e => rw [hv] at hok; cases hok
  | ok vout =>
    rw [hv] at hok
    simp only [Except.ok.injEq] at hok
    exact ⟨vout, rfl, hok.symm⟩

/-- A successful loop over the outputs converted every output, in order. -/
theorem vouts_forall₂ (p : ParticlParser) :
    ∀ (outs : List ParticlVout) (vs : List bchain.Vout),
      ParseTxFromJson.vouts p outs = .ok vs →
        List.Forall₂ (fun o v => ParseTxFromJson.vout p o = .ok v) outs vs := by
  intro outs
  induction outs with
  | nil =>
    intro vs h
    unfold ParseTxFromJson.vouts at h
    cases h
    exact List.Forall₂.nil
  | cons o rest ih =>
    intro vs h
    unfold ParseTxFromJson.vouts at h
    cases ho : ParseTxFromJson.vout p o with
    | error e => rw [ho] at h; cases h
    | ok v =>
      rw [ho] at h
      simp only at h
      cases hr : ParseTxFromJson.vouts p rest with
      | error e => rw [hr] at h; cases h
      | ok vs' =>
        rw [hr] at h
        simp only [Except.ok.injEq] at h
        subst h
        exact List.Forall₂.cons ho (ih vs' hr)

/-- The loop over the outputs succeeds when every round does. -/
theorem vouts_ok_of_forall (p : ParticlParser) :
    ∀ outs : List ParticlVout, (∀ o ∈ outs, ∃ v, ParseTxFromJson.vout p o = .ok v) →
      ∃ vs, ParseTxFromJson.vouts p outs = .ok vs := by
  intro outs
  induction outs with
  | nil => intro _; exact ⟨[], rfl⟩
  | cons o rest ih =>
    intro h
    obtain ⟨v, hv⟩ := h o (by simp)
    obtain ⟨vs, hvs⟩ := ih (fun x hx => h x (List.mem_cons_of_mem _ hx))
    refine ⟨v :: vs, ?_⟩
    unfold ParseTxFromJson.vouts
    rw [hv]
    simp only
    rw [hvs]

/-- The loop over the outputs returns the error of the first round that fails. -/
theorem vouts_error (p : ParticlParser) (e : bchain.Error) (o : ParticlVout)
    (post : List ParticlVout) (ho : ParseTxFromJson.vout p o = .error e) :
    ∀ pre : List ParticlVout, (∀ x ∈ pre, ∃ v, ParseTxFromJson.vout p x = .ok v) →
      ParseTxFromJson.vouts p (pre ++ o :: post) = .error e := by
  intro pre
  induction pre with
  | nil =>
    intro _
    rw [List.nil_append]
    unfold ParseTxFromJson.vouts
    rw [ho]
  | cons x rest ih =>
    intro h
    obtain ⟨v, hv⟩ := h x (by simp)
    rw [List.cons_append]
    unfold ParseTxFromJson.vouts
    rw [hv]
    simp only
    rw [ih (fun y hy => h y (List.mem_cons_of_mem _ hy))]

/-- Elements at the same index of two lists related by `Forall₂` are related. -/
theorem forall₂_getElem? {α β : Type} {R : α → β → Prop} {l₁ : List α} {l₂ : List β}
    (h : List.Forall₂ R l₁ l₂) :
    ∀ (i : Nat) (a : α) (b : β), l₁[i]? = some a → l₂[i]? = some b → R a b := by
  induction h with
  | nil => intro i a b ha; simp at ha
  | cons hab _ ih =>
    intro i a b ha hb
    cases i with
    | zero =>
      simp only [List.getElem?_cons_zero, Option.some.injEq] at ha hb
      subst ha hb
      exact hab
    | succ i =>
      simp only [List.getElem?_cons_succ] at ha hb
      exact ih i a b ha hb

/-- The value of an output of a privacy type is zero, and computing it cannot fail. -/
theorem valueSat_privacy (p : ParticlParser) (o : ParticlVout)
    (ht : o.OutputType = "blind" ∨ o.OutputType = "anon" ∨ o.OutputType = "data") :
    ParseTxFromJson.valueSat p o = .ok 0 := by
  unfold ParseTxFromJson.valueSat
  rcases ht with ht | ht | ht <;> rw [ht] <;> rfl

/-- The value of an output of any other type is the amount conversion of its JSON value. -/
theorem valueSat_standard (p : ParticlParser) (o : ParticlVout)
    (ht : ¬ (o.OutputType = "blind" ∨ o.OutputType = "anon" ∨ o.OutputType = "data")) :
    ParseTxFromJson.valueSat p o = p.BitcoinLikeParser.AmountToBigInt o.JsonValue := by
  have h1 : (o.OutputType == "blind" || o.OutputType == "anon") = false := by
    rw [Bool.or_eq_false_iff]
    constructor
    · exact beq_false_of_ne (fun h => ht (Or.inl h))
    · exact beq_false_of_ne (fun h => ht (Or.inr (Or.inl h)))
  have h2 : (o.OutputType == "data") = false :=
    beq_false_of_ne (fun h => ht (Or.inr (Or.inr h)))
  unfold ParseTxFromJson.valueSat
  simp only [h1, h2, Bool.false_eq_true, if_false]

/-- One round of the loop over the outputs succeeds exactly when the value is computed, and
then carries that value and the addresses of `ParseTxFromJson.addresses`. -/
theorem vout_ok_iff (p : ParticlParser) (o : ParticlVout) (v : bchain.Vout) :
    ParseTxFromJson.vout p o = .ok v ↔
      ∃ n, ParseTxFromJson.valueSat p o = .ok n ∧
        v = { ValueSat := n, JsonValue := "", N := o.N,
              ScriptPubKey :=
                { Hex := o.ScriptPubKey.Hex, Addresses := ParseTxFromJson.addresses o },
              OutputType := o.OutputType, ValueCommitment := o.ValueCommitment,
              Data := o.Data, RangeProof := o.RangeProof } := by
  unfold ParseTxFromJson.vout
  cases hv : ParseTxFromJson.valueSat p o with
  | error e =>
    simp only
    constructor
    · intro h; cases h
    · rintro ⟨n, hn, _⟩; cases hn
  | ok n =>
    simp only [Except.ok.injEq]
    constructor
    · intro h; exact ⟨n, rfl, h.symm⟩
    · rintro ⟨m, hm, rfl⟩; rw [hm]

/-- One round of the loop over the outputs fails with the error of the value. -/
theorem vout_error (p : ParticlParser) (o : ParticlVout) (e : bchain.Error)
    (h : ParseTxFromJson.valueSat p o = .error e) : ParseTxFromJson.vout p o = .error e := by
  unfold ParseTxFromJson.vout
  rw [h]

/-- The addresses of an output: the address list when it is not empty, else the single
address field when it is not empty, else the empty list; never `nil`. -/
theorem addresses_eq (o : ParticlVout) :
    ParseTxFromJson.addresses o =
      some (match o.ScriptPubKey.Addresses with
        | some (a :: as) => a :: as
        | _ => if o.ScriptPubKey.Address = "" then [] else [o.ScriptPubKey.Address]) := by
  unfold ParseTxFromJson.addresses
  rcases ha : o.ScriptPubKey.Addresses with _ | ⟨_ | ⟨a, as⟩⟩
  · by_cases hs : o.ScriptPubKey.Address = "" <;> simp [Go.len, hs]
  · by_cases hs : o.ScriptPubKey.Address = "" <;> simp [Go.len, hs]
  · simp [Go.len]

/-- The CT fee loop returns the fee of the first output of type `data` with a positive
fee. -/
theorem ctFee_first (o : ParticlVout) (post : List ParticlVout)
    (ht : o.OutputType = "data") (hf : 0 < o.CTFee) :
    ∀ pre : List ParticlVout, (∀ x ∈ pre, ¬ (x.OutputType = "data" ∧ 0 < x.CTFee)) →
      ParseTxFromJson.ctFee (pre ++ o :: post) = o.CTFee := by
  intro pre
  induction pre with
  | nil =>
    intro _
    rw [List.nil_append]
    unfold ParseTxFromJson.ctFee
    simp [ht, hf]
  | cons x rest ih =>
    intro h
    rw [List.cons_append]
    unfold ParseTxFromJson.ctFee
    have hx := h x (by simp)
    have hc : (x.OutputType == "data" && decide (x.CTFee > 0)) = false := by
      rw [Bool.and_eq_false_iff]
      by_cases hd : x.OutputType = "data"
      · right
        exact decide_eq_false (fun hp => hx ⟨hd, hp⟩)
      · left
        exact beq_false_of_ne hd
    simp only [hc, Bool.false_eq_true, if_false]
    exact ih (fun y hy => h y (List.mem_cons_of_mem _ hy))

/-- The CT fee loop returns zero when no output of type `data` has a positive fee. -/
theorem ctFee_none :
    ∀ outs : List ParticlVout, (∀ x ∈ outs, ¬ (x.OutputType = "data" ∧ 0 < x.CTFee)) →
      ParseTxFromJson.ctFee outs = 0 := by
  intro outs
  induction outs with
  | nil => intro _; rfl
  | cons x rest ih =>
    intro h
    unfold ParseTxFromJson.ctFee
    have hx := h x (by simp)
    have hc : (x.OutputType == "data" && decide (x.CTFee > 0)) = false := by
      rw [Bool.and_eq_false_iff]
      by_cases hd : x.OutputType = "data"
      · right
        exact decide_eq_false (fun hp => hx ⟨hd, hp⟩)
      · left
        exact beq_false_of_ne hd
    simp only [hc, Bool.false_eq_true, if_false]
    exact ih (fun y hy => h y (List.mem_cons_of_mem _ hy))

/-- The fixture transactions are normalized to the fixture results. -/
theorem parse_fixtures :
    fixtureParser.ParseTxFromJson fixtureUnmarshal "blind" = .ok fixtureBlindResult ∧
    fixtureParser.ParseTxFromJson fixtureUnmarshal "data" = .ok fixtureDataResult ∧
    fixtureParser.ParseTxFromJson fixtureUnmarshal "bad amount" =
      .error (bchain.Error.other "AmountToBigInt: failed to convert") := by
  decide!

/-- C17: privacy-value invariant. In every transaction that `ParseTxFromJson` accepts,
each output of type `blind`, `anon` or `data` has value exactly zero, whatever its JSON
`value` holds. -/
theorem ParseTxFromJson_privacy_value (p : ParticlParser)
    (Unmarshal : json.RawMessage → Except bchain.Error ParticlTx) (msg : json.RawMessage)
    (ptx : ParticlTx) (tx : bchain.Tx) (hu : Unmarshal msg = .ok ptx)
    (hok : p.ParseTxFromJson Unmarshal msg = .ok tx) :
    tx.Vout.length = ptx.Vout.length ∧
    ∀ (i : Nat) (o : ParticlVout) (v : bchain.Vout),
      ptx.Vout[i]? = some o → tx.Vout[i]? = some v →
      (o.OutputType = "blind" ∨ o.OutputType = "anon" ∨ o.OutputType = "data") →
      v.ValueSat = 0 := by
  obtain ⟨vout, hv, rfl⟩ := parseTxFromJson_ok p Unmarshal msg ptx tx hu hok
  have hf := vouts_forall₂ p ptx.Vout vout hv
  refine ⟨hf.length_eq.symm, fun i o v ho hvi ht => ?_⟩
  have hr := forall₂_getElem? hf i o v ho hvi
  obtain ⟨n, hn, rfl⟩ := (vout_ok_iff p o v).mp hr
  rw [valueSat_privacy p o ht] at hn
  simp only [Except.ok.injEq] at hn
  exact hn.symm

/-- Witness for C17: the blind output of the fixture transaction carries the JSON value
`12.5` and is normalized to value zero. -/
theorem ParseTxFromJson_privacy_value_witness :
    ∃ o v, fixtureBlindTx.Vout[1]? = some o ∧ fixtureBlindResult.Vout[1]? = some v ∧
      o.OutputType = "blind" ∧ o.JsonValue = "12.5" ∧ v.ValueSat = 0 :=
  ⟨_, _, rfl, rfl, rfl, rfl,
    (ParseTxFromJson_privacy_value fixtureParser fixtureUnmarshal "blind" fixtureBlindTx
      fixtureBlindResult rfl parse_fixtures.1).2 1 _ _ rfl rfl (Or.inl rfl)⟩

/-- When some round of the loop over the outputs fails, the loop fails with the error of
a failing round. -/
theorem vouts_error_of_mem (p : ParticlParser) :
    ∀ outs : List ParticlVout, (∃ o ∈ outs, ∃ e, ParseTxFromJson.vout p o = .error e) →
      ∃ o ∈ outs, ∃ e, ParseTxFromJson.vout p o = .error e ∧
        ParseTxFromJson.vouts p outs = .error e := by
  intro outs
  induction outs with
  | nil => rintro ⟨o, ho, _⟩; simp at ho
  | cons x rest ih =>
    rintro ⟨o, ho, e, he⟩
    cases hx : ParseTxFromJson.vout p x with
    | error ex =>
      refine ⟨x, by simp, ex, hx, ?_⟩
      unfold ParseTxFromJson.vouts
      rw [hx]
    | ok v =>
      have hor : o ∈ rest := by
        rcases List.mem_cons.mp ho with rfl | h
        · rw [hx] at he; cases he
        · exact h
      obtain ⟨o', ho', e', he', hres⟩ := ih ⟨o, hor, e, he⟩
      refine ⟨o', List.mem_cons_of_mem _ ho', e', he', ?_⟩
      unfold ParseTxFromJson.vouts
      rw [hx]
      simp only
      rw [hres]

/-- A round of the loop over the outputs fails only on an output that is not of a privacy
type, with the error of its amount conversion. -/
theorem vout_error_inv (p : ParticlParser) (o : ParticlVout) (e : bchain.Error)
    (h : ParseTxFromJson.vout p o = .error e) :
    ¬ (o.OutputType = "blind" ∨ o.OutputType = "anon" ∨ o.OutputType = "data") ∧
      p.BitcoinLikeParser.AmountToBigInt o.JsonValue = .error e := by
  have hv : ParseTxFromJson.valueSat p o = .error e := by
    unfold ParseTxFromJson.vout at h
    cases hv : ParseTxFromJson.valueSat p o with
    | error e' => rw [hv] at h; simp only [Except.error.injEq] at h; rw [h]
    | ok n => rw [hv] at h; cases h
  by_cases ht : o.OutputType = "blind" ∨ o.OutputType = "anon" ∨ o.OutputType = "data"
  · rw [valueSat_privacy p o ht] at hv; cases hv
  · exact ⟨ht, by rw [← valueSat_standard p o ht]; exact hv⟩

/-- One round of the loop over the outputs succeeds when the output is of a privacy type
or its amount converts. -/
theorem vout_ok_of (p : ParticlParser) (o : ParticlVout)
    (h : ¬ (o.OutputType = "blind" ∨ o.OutputType = "anon" ∨ o.OutputType = "data") →
      ∃ n, p.BitcoinLikeParser.AmountToBigInt o.JsonValue = .ok n) :
    ∃ v, ParseTxFromJson.vout p o = .ok v := by
  by_cases ht : o.OutputType = "blind" ∨ o.OutputType = "anon" ∨ o.OutputType = "data"
  · exact ⟨_, (vout_ok_iff p o _).mpr ⟨0, valueSat_privacy p o ht, rfl⟩⟩
  · obtain ⟨n, hn⟩ := h ht
    exact ⟨_, (vout_ok_iff p o _).mpr ⟨n, by rw [valueSat_standard p o ht]; exact hn, rfl⟩⟩

/-- The result of `ParseTxFromJson` once the message is decoded. -/
theorem parseTxFromJson_decoded (p : ParticlParser)
    (Unmarshal : json.RawMessage → Except bchain.Error ParticlTx) (msg : json.RawMessage)
    (ptx : ParticlTx) (hu : Unmarshal msg = .ok ptx) :
    (∀ e, ParseTxFromJson.vouts p ptx.Vout = .error e →
      p.ParseTxFromJson Unmarshal msg = .error e) ∧
    (∀ vout, ParseTxFromJson.vouts p ptx.Vout = .ok vout →
      ∃ tx, p.ParseTxFromJson Unmarshal msg = .ok tx ∧ tx.Vout = vout) := by
  unfold ParticlParser.ParseTxFromJson
  rw [hu]
  constructor
  · intro e he
    simp only [he]
  · intro vout hv
    simp only [hv]
    exact ⟨_, rfl, rfl⟩

/-- C18: let the message decode to `ptx`. If the amount conversion fails on an output that
is not of type `blind`, `anon` or `data`, `ParseTxFromJson` returns an error and no
transaction: the error of that output when the conversions before it succeed, and in any
case the conversion error of some such output. If every such conversion succeeds, a
transaction is returned in which each such output has the converted value. -/
theorem ParseTxFromJson_amount_conversion (p : ParticlParser)
    (Unmarshal : json.RawMessage → Except bchain.Error ParticlTx) (msg : json.RawMessage)
    (ptx : ParticlTx) (hu : Unmarshal msg = .ok ptx) :
    (∀ (pre : List ParticlVout) (o : ParticlVout) (post : List ParticlVout) (e : bchain.Error),
      ptx.Vout = pre ++ o :: post →
      (∀ x ∈ pre, ¬ (x.OutputType = "blind" ∨ x.OutputType = "anon" ∨ x.OutputType = "data") →
        ∃ n, p.BitcoinLikeParser.AmountToBigInt x.JsonValue = .ok n) →
      ¬ (o.OutputType = "blind" ∨ o.OutputType = "anon" ∨ o.OutputType = "data") →
      p.BitcoinLikeParser.AmountToBigInt o.JsonValue = .error e →
      p.ParseTxFromJson Unmarshal msg = .error e) ∧
    ((∃ o ∈ ptx.Vout,
        ¬ (o.OutputType = "blind" ∨ o.OutputType = "anon" ∨ o.OutputType = "data") ∧
        ∃ e, p.BitcoinLikeParser.AmountToBigInt o.JsonValue = .error e) →
      ∃ o ∈ ptx.Vout,
        ¬ (o.OutputType = "blind" ∨ o.OutputType = "anon" ∨ o.OutputType = "data") ∧
        ∃ e, p.BitcoinLikeParser.AmountToBigInt o.JsonValue = .error e ∧
          p.ParseTxFromJson Unmarshal msg = .error e) ∧
    ((∀ x ∈ ptx.Vout,
        ¬ (x.OutputType = "blind" ∨ x.OutputType = "anon" ∨ x.OutputType = "data") →
        ∃ n, p.BitcoinLikeParser.AmountToBigInt x.JsonValue = .ok n) →
      ∃ tx, p.ParseTxFromJson Unmarshal msg = .ok tx ∧
        tx.Vout.length = ptx.Vout.length ∧
        ∀ (i : Nat) (o : ParticlVout) (v : bchain.Vout),
          ptx.Vout[i]? = some o → tx.Vout[i]? = some v →
          ¬ (o.OutputType = "blind" ∨ o.OutputType = "anon" ∨ o.OutputType = "data") →
          p.BitcoinLikeParser.AmountToBigInt o.JsonValue = .ok v.ValueSat) := by
  obtain ⟨herr, hokk⟩ := parseTxFromJson_decoded p Unmarshal msg ptx hu
  refine ⟨?_, ?_, ?_⟩
  · intro pre o post e hsplit hpre ho he
    apply herr
    rw [hsplit]
    apply vouts_error p e o post
    · apply vout_error
      rw [valueSat_standard p o ho]
      exact he
    · intro x hx
      exact vout_ok_of p x (hpre x hx)
  · rintro ⟨o, ho, ht, e, he⟩
    have hfail : ParseTxFromJson.vout p o = .error e := by
      apply vout_error
      rw [valueSat_standard p o ht]
      exact he
    obtain ⟨o', ho', e', he', hres⟩ := vouts_error_of_mem p ptx.Vout ⟨o, ho, e, hfail⟩
    obtain ⟨ht', hc'⟩ := vout_error_inv p o' e' he'
    exact ⟨o', ho', ht', e', hc', herr e' hres⟩
  · intro hall
    obtain ⟨vs, hvs⟩ := vouts_ok_of_forall p ptx.Vout (fun x hx => vout_ok_of p x (hall x hx))
    obtain ⟨tx, htx, hvout⟩ := hokk vs hvs
    have hf := vouts_forall₂ p ptx.Vout vs hvs
    refine ⟨tx, htx, by rw [hvout]; exact hf.length_eq.symm, fun i o v ho hv ht => ?_⟩
    rw [hvout] at hv
    have hr := forall₂_getElem? hf i o v ho hv
    obtain ⟨n, hn, rfl⟩ := (vout_ok_iff p o v).mp hr
    rw [valueSat_standard p o ht] at hn
    exact hn

/-- Every output of `fixtureDataTx` that is not of a privacy type has a value that the
fixture parser converts. -/
theorem fixtureData_converts :
    ∀ x ∈ fixtureDataTx.Vout,
      ¬ (x.OutputType = "blind" ∨ x.OutputType = "anon" ∨ x.OutputType = "data") →
      ∃ n, fixtureParser.BitcoinLikeParser.AmountToBigInt x.JsonValue = .ok n := by
  intro x hx ht
  simp only [fixtureDataTx, List.mem_cons, List.mem_singleton, List.mem_nil_iff, or_false] at hx
  rcases hx with rfl | rfl
  · exact absurd (Or.inr (Or.inr rfl)) ht
  · exact ⟨135223715049, rfl⟩

/-- Witness for C18: the third output of `fixtureBadAmountTx` fails to convert after two
outputs that pass, and the whole parse fails with its error; every conversion of
`fixtureDataTx` succeeds and its standard output carries the converted value. -/
theorem ParseTxFromJson_amount_conversion_witness :
    fixtureParser.ParseTxFromJson fixtureUnmarshal "bad amount" =
      .error (bchain.Error.other "AmountToBigInt: failed to convert") ∧
    ∃ o v, fixtureDataTx.Vout[1]? = some o ∧ fixtureDataResult.Vout[1]? = some v ∧
      o.JsonValue = "1352.23715049" ∧ v.ValueSat = 135223715049 ∧
      fixtureParser.BitcoinLikeParser.AmountToBigInt o.JsonValue = .ok v.ValueSat := by
  refine ⟨(ParseTxFromJson_amount_conversion fixtureParser fixtureUnmarshal "bad amount"
      fixtureBadAmountTx rfl).1 fixtureDataTx.Vout _ [] _ rfl fixtureData_converts
      (by decide) rfl, ?_⟩
  obtain ⟨tx, htx, _, h⟩ := (ParseTxFromJson_amount_conversion fixtureParser fixtureUnmarshal
    "data" fixtureDataTx rfl).2.2 fixtureData_converts
  have hres := parse_fixtures.2.1
  rw [htx] at hres
  have hEq : tx = fixtureDataResult := Except.ok.inj hres
  subst hEq
  exact ⟨_, _, rfl, rfl, rfl, rfl, h 1 _ _ rfl rfl (by decide)⟩

/-- C19: in every transaction that `ParseTxFromJson` accepts, the address set of each
output is the address list of its scriptPubKey when that list is not empty, else the
one-element list of the single address field when that field is not empty, else the empty
list; it is never `nil`, and a non-empty list wins over the single field. -/
theorem ParseTxFromJson_addresses (p : ParticlParser)
    (Unmarshal : json.RawMessage → Except bchain.Error ParticlTx) (msg : json.RawMessage)
    (ptx : ParticlTx) (tx : bchain.Tx) (hu : Unmarshal msg = .ok ptx)
    (hok : p.ParseTxFromJson Unmarshal msg = .ok tx) :
    tx.Vout.length = ptx.Vout.length ∧
    ∀ (i : Nat) (o : ParticlVout) (v : bchain.Vout),
      ptx.Vout[i]? = some o → tx.Vout[i]? = some v →
      (∀ l, o.ScriptPubKey.Addresses = some l → l ≠ [] →
        v.ScriptPubKey.Addresses = some l) ∧
      ((o.ScriptPubKey.Addresses = none ∨ o.ScriptPubKey.Addresses = some []) →
        o.ScriptPubKey.Address ≠ "" →
        v.ScriptPubKey.Addresses = some [o.ScriptPubKey.Address]) ∧
      ((o.ScriptPubKey.Addresses = none ∨ o.ScriptPubKey.Addresses = some []) →
        o.ScriptPubKey.Address = "" →
        v.ScriptPubKey.Addresses = some []) := by
  obtain ⟨vout, hv, rfl⟩ := parseTxFromJson_ok p Unmarshal msg ptx tx hu hok
  have hf := vouts_forall₂ p ptx.Vout vout hv
  refine ⟨hf.length_eq.symm, fun i o v ho hvi => ?_⟩
  have hr := forall₂_getElem? hf i o v ho hvi
  obtain ⟨n, _, rfl⟩ := (vout_ok_iff p o v).mp hr
  simp only [addresses_eq]
  refine ⟨?_, ?_, ?_⟩
  · intro l hl hne
    rw [hl]
    cases l with
    | nil => exact absurd rfl hne
    | cons a as => rfl
  · intro hl hs
    rcases hl with hl | hl <;> rw [hl] <;> simp [hs]
  · intro hl hs
    rcases hl with hl | hl <;> rw [hl] <;> simp [hs]

/-- Witness for C19: the blind output of the fixture transaction has no address list and
the single address field set, and is normalized to that one address. -/
theorem ParseTxFromJson_addresses_witness :
    ∃ o v, fixtureBlindTx.Vout[1]? = some o ∧ fixtureBlindResult.Vout[1]? = some v ∧
      o.ScriptPubKey.Addresses = none ∧
      v.ScriptPubKey.Addresses = some ["PnUUNEUgXs99PvQ2cC2KNyYRYwTbnADk2W"] :=
  ⟨_, _, rfl, rfl, rfl,
    ((ParseTxFromJson_addresses fixtureParser fixtureUnmarshal "blind" fixtureBlindTx
      fixtureBlindResult rfl parse_fixtures.1).2 1 _ _ rfl rfl).2.1 (Or.inl rfl) (by decide)⟩

/-- C20: every transaction that `ParseTxFromJson` accepts carries side-channel data whose
CT fee is the `ct_fee` of the first output, in output order, that has type `data` and a
positive `ct_fee`, and zero when there is no such output. -/
theorem ParseTxFromJson_ct_fee (p : ParticlParser)
    (Unmarshal : json.RawMessage → Except bchain.Error ParticlTx) (msg : json.RawMessage)
    (ptx : ParticlTx) (tx : bchain.Tx) (hu : Unmarshal msg = .ok ptx)
    (hok : p.ParseTxFromJson Unmarshal msg = .ok tx) :
    ∃ d, tx.CoinSpecificData = some d ∧
      (∀ (pre : List ParticlVout) (o : ParticlVout) (post : List ParticlVout),
        ptx.Vout = pre ++ o :: post →
        (∀ x ∈ pre, ¬ (x.OutputType = "data" ∧ 0 < x.CTFee)) →
        o.OutputType = "data" → 0 < o.CTFee → d.CTFee = o.CTFee) ∧
      ((∀ x ∈ ptx.Vout, ¬ (x.OutputType = "data" ∧ 0 < x.CTFee)) → d.CTFee = 0) := by
  obtain ⟨vout, _, rfl⟩ := parseTxFromJson_ok p Unmarshal msg ptx tx hu hok
  refine ⟨_, rfl, ?_, ?_⟩
  · intro pre o post hsplit hpre ht hf
    simp only [hsplit]
    exact ctFee_first o post ht hf pre hpre
  · intro hnone
    exact ctFee_none ptx.Vout hnone

/-- Witness for C20: the fixture transaction of `TestParseBlindTransaction` has its CT fee
on the first output, of type `data`; the fixture of `TestParseTxFromJson` has none. -/
theorem ParseTxFromJson_ct_fee_witness :
    (∃ d, fixtureBlindResult.CoinSpecificData = some d ∧
      d.CTFee = 4962174155827869 / 2305843009213693952) ∧
    (∃ d, fixtureDataResult.CoinSpecificData = some d ∧ d.CTFee = 0) := by
  obtain ⟨d, hd, h1, _⟩ := ParseTxFromJson_ct_fee fixtureParser fixtureUnmarshal "blind"
    fixtureBlindTx fixtureBlindResult rfl parse_fixtures.1
  obtain ⟨d', hd', _, h2⟩ := ParseTxFromJson_ct_fee fixtureParser fixtureUnmarshal "data"
    fixtureDataTx fixtureDataResult rfl parse_fixtures.2.1
  refine ⟨⟨d, hd, ?_⟩, ⟨d', hd', h2 (by decide!)⟩⟩
  rw [h1 [] _ _ rfl (by simp) rfl (by decide!)]

end part

/-! ## Facts about hexadecimal text and hashes -/

namespace hex

theorem fromHexChar_hextable (n : Nat) (h : n < 16) :
    fromHexChar (hextable.getD n '0') = some n := by
  interval_cases n <;> decide

theorem Decode_Encode_hex (b : Bytes) : Decode (Encode b) = (b, none) := by
  induction b with
  | nil => rfl
  | cons v rest ih =>
    have h1 := fromHexChar_hextable (v.toNat / 16) (by
      have := v.toNat_lt; omega)
    have h2 := fromHexChar_hextable (v.toNat % 16) (by omega)
    have h3 : UInt8.ofNat (v.toNat / 16 * 16 + v.toNat % 16) = v := by
      have : v.toNat / 16 * 16 + v.toNat % 16 = v.toNat := by omega
      rw [this]; exact base58.ofNat_toNat v
    simp only [Encode, Decode, h1, h2, h3, ih]

theorem DecodeString_EncodeToString (b : Bytes) :
    DecodeString (EncodeToString b) = (b, none) := Decode_Encode_hex b

theorem EncodeToString_injective (a b : Bytes)
    (h : EncodeToString a = EncodeToString b) : a = b := by
  have := congrArg DecodeString h
  rw [DecodeString_EncodeToString, DecodeString_EncodeToString] at this
  exact (Prod.mk.inj this).1

theorem EncodeToString_eq_empty (b : Bytes) : EncodeToString b = "" ↔ b = [] := by
  constructor
  · intro h; exact EncodeToString_injective b [] h
  · intro h; subst h; rfl

end hex

namespace chainhash

theorem String_zero_iff (hash : Hash) :
    hash.String = part.zeroHashString ↔ hash.val = List.replicate 32 0 := by
  have hz : part.zeroHashString = hex.EncodeToString (List.replicate 32 0) := by decide
  rw [hz, Hash.String]
  constructor
  · intro h
    have := hex.EncodeToString_injective _ _ h
    have h2 := congrArg List.reverse this
    rw [List.reverse_reverse, List.reverse_replicate] at h2
    exact h2
  · intro h
    rw [h, List.reverse_replicate]

theorem String_ne_empty (hash : Hash) : hash.String ≠ "" := by
  intro h
  rw [Hash.String, hex.EncodeToString_eq_empty] at h
  have := congrArg List.length h
  rw [List.length_reverse, hash.property] at this
  exact absurd this (by decide)

end chainhash

namespace part

/-! ## The conversion of wire transactions -/

theorem vin_eq (t : wire.MsgTx) (i : Nat) (txin : wire.TxIn) (h : t.TxIn[i]? = some txin) :
    TxFromMsgTx.vin t i txin = some
      (if i = 0 ∧ txin.PreviousOutPoint.Hash.val = List.replicate 32 0 then
        { Coinbase := hex.EncodeToString txin.SignatureScript
          Txid := ""
          Vout := 0
          ScriptSig := { Hex := "" }
          Sequence := txin.Sequence
          InputType := ""
          AnonInputs := 0
          RingSize := 0 }
      else
        { Coinbase := ""
          Txid := txin.PreviousOutPoint.Hash.String
          Vout := txin.PreviousOutPoint.Index
          ScriptSig := { Hex := hex.EncodeToString txin.SignatureScript }
          Sequence := txin.Sequence
          InputType := ""
          AnonInputs := 0
          RingSize := 0 }) := by
  have hlen : t.TxIn.length > 0 := by
    have := (List.getElem?_eq_some_iff.mp h).1
    omega
  by_cases hi : i = 0
  · subst hi
    have h0 : Go.elem t.TxIn 0 = some txin := by simpa [Go.elem] using h
    by_cases hz : txin.PreviousOutPoint.Hash.val = List.replicate 32 0
    · have hs := (chainhash.String_zero_iff _).mpr hz
      rw [if_pos ⟨rfl, hz⟩]
      simp [TxFromMsgTx.vin, h0, hlen, Go.and, hs]
    · have hs : ¬ txin.PreviousOutPoint.Hash.String = zeroHashString :=
        fun hs => hz ((chainhash.String_zero_iff _).mp hs)
      rw [if_neg (fun hc => hz hc.2)]
      simp [TxFromMsgTx.vin, h0, hlen, Go.and, hs]
  · rw [if_neg (fun hc => hi hc.1)]
    simp [TxFromMsgTx.vin, hlen, Go.and, hi]


theorem vins_eq (t : wire.MsgTx) (l : List wire.TxIn) (i : Nat)
    (hl : ∀ k txin, l[k]? = some txin → t.TxIn[i + k]? = some txin) :
    ∃ vs, TxFromMsgTx.vins t i l = some vs ∧ vs.length = l.length ∧
      ∀ k txin, l[k]? = some txin → vs[k]? = TxFromMsgTx.vin t (i + k) txin := by
  induction l generalizing i with
  | nil => exact ⟨[], rfl, rfl, fun k txin h => by simp at h⟩
  | cons x rest ih =>
    have hx : t.TxIn[i]? = some x := by simpa using hl 0 x (by simp)
    obtain ⟨vs, hvs, hlen, hget⟩ := ih (i + 1) (fun k txin h => by
      have := hl (k + 1) txin (by simpa using h)
      rwa [Nat.add_assoc, Nat.add_comm 1 k])
    obtain ⟨v, hv⟩ : ∃ v, TxFromMsgTx.vin t i x = some v := ⟨_, vin_eq t i x hx⟩
    refine ⟨v :: vs, ?_, by simp [hlen], ?_⟩
    · simp [TxFromMsgTx.vins, hv, hvs]
    · intro k txin h
      cases k with
      | zero =>
        simp only [List.getElem?_cons_zero, Option.some.injEq] at h
        subst h
        simpa using hv.symm
      | succ k =>
        have := hget k txin (by simpa using h)
        simp only [List.getElem?_cons_succ]
        rw [this, Nat.add_assoc, Nat.add_comm 1 k]

theorem vout_eq (p : ParticlParser) (parseAddresses : Bool) (i : Nat) (out : wire.TxOut) :
    TxFromMsgTx.vout p parseAddresses i out = some
      { ValueSat := out.Value
        JsonValue := ""
        N := i % 2 ^ 32
        ScriptPubKey :=
          { Hex := hex.EncodeToString out.PkScript
            Addresses := if parseAddresses then (classifyResult p out.PkScript).1 else some [] }
        OutputType := ""
        ValueCommitment := ""
        Data := ""
        RangeProof := "" } := by
  cases parseAddresses <;>
    simp [TxFromMsgTx.vout, outputScriptToAddresses_eq, Go.uint32]

theorem vouts_eq (p : ParticlParser) (parseAddresses : Bool) (l : List wire.TxOut) (i : Nat) :
    ∃ vs, TxFromMsgTx.vouts p parseAddresses i l = some vs ∧ vs.length = l.length ∧
      ∀ k out, l[k]? = some out → vs[k]? = TxFromMsgTx.vout p parseAddresses (i + k) out := by
  induction l generalizing i with
  | nil => exact ⟨[], rfl, rfl, fun k out h => by simp at h⟩
  | cons x rest ih =>
    obtain ⟨vs, hvs, hlen, hget⟩ := ih (i + 1)
    obtain ⟨v, hv⟩ : ∃ v, TxFromMsgTx.vout p parseAddresses i x = some v :=
      ⟨_, vout_eq p parseAddresses i x⟩
    refine ⟨v :: vs, ?_, by simp [hlen], ?_⟩
    · simp [TxFromMsgTx.vouts, hv, hvs]
    · intro k out h
      cases k with
      | zero =>
        simp only [List.getElem?_cons_zero, Option.some.injEq] at h
        subst h
        simpa using hv.symm
      | succ k =>
        have := hget k out (by simpa using h)
        simp only [List.getElem?_cons_succ]
        rw [this, Nat.add_assoc, Nat.add_comm 1 k]

theorem txFromMsgTx_eq (p : ParticlParser) (TxHash : wire.MsgTx → chainhash.Hash)
    (t : wire.MsgTx) (parseAddresses : Bool) :
    ∃ vin vout, p.TxFromMsgTx TxHash t parseAddresses = some
        { Hex := ""
          Txid := (TxHash t).String
          Version := t.Version
          LockTime := t.LockTime
          Vin := vin
          Vout := vout
          Confirmations := 0
          Blocktime := 0
          Time := 0
          CoinSpecificData := none } ∧
      vin.length = t.TxIn.length ∧
      (∀ k txin, t.TxIn[k]? = some txin → vin[k]? = TxFromMsgTx.vin t k txin) ∧
      vout.length = t.TxOut.length ∧
      (∀ k out, t.TxOut[k]? = some out →
        vout[k]? = TxFromMsgTx.vout p parseAddresses k out) := by
  obtain ⟨vin, h1, h2, h3⟩ := vins_eq t t.TxIn 0 (fun k txin h => by simpa using h)
  obtain ⟨vout, h4, h5, h6⟩ := vouts_eq p parseAddresses t.TxOut 0
  refine ⟨vin, vout, ?_, h2, ?_, h5, ?_⟩
  · simp [ParticlParser.TxFromMsgTx, h1, h4]
  · intro k txin h; simpa using h3 k txin h
  · intro k out h; simpa using h6 k out h

/-- C21: in `TxFromMsgTx`, input `i` becomes a coinbase-style input (`Coinbase` is the hex
of its unlock script, `Sequence` is kept, `Txid`, `Vout` and `ScriptSig` are empty) exactly
when `i = 0` and its previous-output hash is all zero; every other input, also a later
input whose previous-output hash is all zero, becomes a standard reference that carries
the previous txid, the output index, `Sequence` and the hex of its unlock script. The
conversion returns for every transaction. -/
theorem TxFromMsgTx_coinbase_input (p : ParticlParser) (TxHash : wire.MsgTx → chainhash.Hash)
    (t : wire.MsgTx) (parseAddresses : Bool) (i : Nat) (txin : wire.TxIn)
    (h : t.TxIn[i]? = some txin) :
    ∃ tx, p.TxFromMsgTx TxHash t parseAddresses = some tx ∧
      (tx.Vin[i]? = some
          { Coinbase := hex.EncodeToString txin.SignatureScript
            Txid := ""
            Vout := 0
            ScriptSig := { Hex := "" }
            Sequence := txin.Sequence
            InputType := ""
            AnonInputs := 0
            RingSize := 0 } ↔
        i = 0 ∧ txin.PreviousOutPoint.Hash.val = List.replicate 32 0) ∧
      (tx.Vin[i]? = some
          { Coinbase := ""
            Txid := txin.PreviousOutPoint.Hash.String
            Vout := txin.PreviousOutPoint.Index
            ScriptSig := { Hex := hex.EncodeToString txin.SignatureScript }
            Sequence := txin.Sequence
            InputType := ""
            AnonInputs := 0
            RingSize := 0 } ↔
        ¬ (i = 0 ∧ txin.PreviousOutPoint.Hash.val = List.replicate 32 0)) := by
  obtain ⟨vin, vout, htx, _, hvin, _, _⟩ := txFromMsgTx_eq p TxHash t parseAddresses
  refine ⟨_, htx, ?_⟩
  have hi := hvin i txin h
  rw [vin_eq t i txin h] at hi
  have hne := chainhash.String_ne_empty txin.PreviousOutPoint.Hash
  simp only [hi]
  by_cases hc : i = 0 ∧ txin.PreviousOutPoint.Hash.val = List.replicate 32 0
  · rw [if_pos hc]
    refine ⟨⟨fun _ => hc, fun _ => rfl⟩, ⟨fun heq => ?_, fun hn => absurd hc hn⟩⟩
    have := congrArg bchain.Vin.Txid (Option.some.inj heq)
    exact absurd this.symm hne
  · rw [if_neg hc]
    refine ⟨⟨fun heq => ?_, fun hn => absurd hn hc⟩, ⟨fun _ => hc, fun _ => rfl⟩⟩
    have := congrArg bchain.Vin.Txid (Option.some.inj heq)
    exact absurd this hne

/-- Witness for C21: in the example coinstake transaction the first input, with an all-zero
previous-output hash, becomes a coinbase-style input, and the second input, whose hash is
all zero too, becomes a standard reference. -/
theorem TxFromMsgTx_coinbase_input_witness :
    (∃ tx, fixtureParser.TxFromMsgTx fixtureTxHash fixtureStakeTx false = some tx ∧
      tx.Vin[0]? = some
        { Coinbase := "0312e81e", Txid := "", Vout := 0, ScriptSig := { Hex := "" },
          Sequence := 4294967295, InputType := "", AnonInputs := 0, RingSize := 0 }) ∧
    (∃ tx, fixtureParser.TxFromMsgTx fixtureTxHash fixtureStakeTx false = some tx ∧
      tx.Vin[1]? = some
        { Coinbase := ""
          Txid := "0000000000000000000000000000000000000000000000000000000000000000"
          Vout := 3, ScriptSig := { Hex := "51" }, Sequence := 4294967294, InputType := ""
          AnonInputs := 0, RingSize := 0 }) := by
  obtain ⟨tx, h, h1, _⟩ := TxFromMsgTx_coinbase_input fixtureParser fixtureTxHash
    fixtureStakeTx false 0 _ rfl
  obtain ⟨tx', h', _, h2⟩ := TxFromMsgTx_coinbase_input fixtureParser fixtureTxHash
    fixtureStakeTx false 1 _ rfl
  exact ⟨⟨tx, h, h1.mpr ⟨rfl, rfl⟩⟩, ⟨tx', h', h2.mpr (fun hc => absurd hc.1 (by decide))⟩⟩

/-- C22: for every wire transaction `t`, `TxFromMsgTx(t, false)` gives every output an
empty address list (`[]string{}`), and `TxFromMsgTx(t, true)` gives output `i` exactly the
address list that the script classifier returns for the locking script of output `i`, as
the classifier returns it (a `nil` list stays `nil`); the classifier returns without
error, and for an unclassifiable script (no Particl-specific rule resolves it and the
standard classifier finds no address) the list is that of the standard classifier, of
length 0. -/
theorem TxFromMsgTx_addresses (p : ParticlParser) (TxHash : wire.MsgTx → chainhash.Hash)
    (t : wire.MsgTx) (i : Nat) (out : wire.TxOut) (h : t.TxOut[i]? = some out) :
    (∃ tx v, p.TxFromMsgTx TxHash t false = some tx ∧ tx.Vout[i]? = some v ∧
      v.ScriptPubKey.Addresses = some []) ∧
    (∃ tx v addrs valid, p.TxFromMsgTx TxHash t true = some tx ∧ tx.Vout[i]? = some v ∧
      p.outputScriptToAddresses out.PkScript = some (addrs, valid, none) ∧
      v.ScriptPubKey.Addresses = addrs ∧
      (isParticlScript out.PkScript = false →
        addrs = (p.BitcoinOutputScriptToAddressesFunc out.PkScript).1 ∧
        (Go.len (p.BitcoinOutputScriptToAddressesFunc out.PkScript).1 = 0 →
          Go.len addrs = 0))) := by
  constructor
  · obtain ⟨vin, vout, htx, _, _, _, hvout⟩ := txFromMsgTx_eq p TxHash t false
    have hi := hvout i out h
    rw [vout_eq] at hi
    exact ⟨_, _, htx, hi, rfl⟩
  · obtain ⟨vin, vout, htx, _, _, _, hvout⟩ := txFromMsgTx_eq p TxHash t true
    have hi := hvout i out h
    rw [vout_eq] at hi
    refine ⟨_, _, (classifyResult p out.PkScript).1, (classifyResult p out.PkScript).2.1,
      htx, hi, ?_, rfl, ?_⟩
    · rw [outputScriptToAddresses_eq, ← classifyResult_error p out.PkScript]
    · intro hn
      have h1 := classify_standard p out.PkScript hn
      rw [outputScriptToAddresses_eq] at h1
      have h2 := congrArg Prod.fst (Option.some.inj h1)
      simp only at h2
      exact ⟨h2, fun hs => by rw [h2]; exact hs⟩

/-- Witness for C22: in the example coinstake transaction the P2PKH output has the empty
list with address resolution off and the address of the test fixtures with it on, and the
data carrier output, for which the standard classifier of the examples returns `nil`, has
the `nil` list with it on and the empty list with it off. -/
theorem TxFromMsgTx_addresses_witness :
    (∃ tx v, fixtureParser.TxFromMsgTx fixtureTxHash fixtureStakeTx false = some tx ∧
      tx.Vout[0]? = some v ∧ v.ScriptPubKey.Addresses = some []) ∧
    (∃ tx v, fixtureParser.TxFromMsgTx fixtureTxHash fixtureStakeTx true = some tx ∧
      tx.Vout[0]? = some v ∧
      v.ScriptPubKey.Addresses = some ["Po3VBGWztKbFnU9rFGKNx2Rtg1zWoS4zTR"]) ∧
    (∃ tx v, fixtureParser.TxFromMsgTx fixtureTxHash fixtureStakeTx true = some tx ∧
      tx.Vout[2]? = some v ∧ v.ScriptPubKey.Addresses = none ∧
      Go.len v.ScriptPubKey.Addresses = 0) ∧
    (∃ tx v, fixtureParser.TxFromMsgTx fixtureTxHash fixtureStakeTx false = some tx ∧
      tx.Vout[2]? = some v ∧ v.ScriptPubKey.Addresses = some []) := by
  obtain ⟨⟨tx, v, h1, h2, h3⟩, ⟨tx', v', addrs, valid, h4, h5, h6, h7, _⟩⟩ :=
    TxFromMsgTx_addresses fixtureParser fixtureTxHash fixtureStakeTx 0 _ rfl
  obtain ⟨⟨tx3, v3, k1, k2, k3⟩, ⟨tx2, v2, addrs2, valid2, k4, k5, _, k7, k8⟩⟩ :=
    TxFromMsgTx_addresses fixtureParser fixtureTxHash fixtureStakeTx 2 _ rfl
  refine ⟨⟨tx, v, h1, h2, h3⟩, ⟨tx', v', h4, h5, ?_⟩, ⟨tx2, v2, k4, k5, ?_, ?_⟩,
    ⟨tx3, v3, k1, k2, k3⟩⟩
  · rw [h7]
    have h8 : fixtureParser.outputScriptToAddresses fixtureP2PKH =
        some (some ["Po3VBGWztKbFnU9rFGKNx2Rtg1zWoS4zTR"], true, none) := by decide
    have h9 := h8.symm.trans h6
    rw [← (Prod.mk.inj (Option.some.inj h9)).1]
  · rw [k7, (k8 (by decide)).1]
    rfl
  · rw [k7]
    exact (k8 (by decide)).2 rfl

/-- C30: for every wire transaction `t`, `TxFromMsgTx` returns a transaction with as many
inputs and outputs as `t`, in the same order; output `i` has index `N = i` (`N` is the
conversion `uint32(i)` of line 278, that is `i mod 2^32`, which is `i` in every transaction
of at most 2^32 outputs; a transaction of more outputs is larger than any message the wire
codec decodes), a value equal to the signed 64-bit value of the wire output, and as script
hex the hex encoding of its locking script; version and lock time are copied unchanged. -/
theorem TxFromMsgTx_preserves (p : ParticlParser) (TxHash : wire.MsgTx → chainhash.Hash)
    (t : wire.MsgTx) (parseAddresses : Bool) :
    ∃ tx, p.TxFromMsgTx TxHash t parseAddresses = some tx ∧
      tx.Version = t.Version ∧ tx.LockTime = t.LockTime ∧
      tx.Vin.length = t.TxIn.length ∧ tx.Vout.length = t.TxOut.length ∧
      (∀ (i : Nat) (txin : wire.TxIn), t.TxIn[i]? = some txin →
        ∃ v, tx.Vin[i]? = some v ∧ v.Sequence = txin.Sequence ∧
          (v.Coinbase = hex.EncodeToString txin.SignatureScript ∨
            (v.ScriptSig.Hex = hex.EncodeToString txin.SignatureScript ∧
              v.Txid = txin.PreviousOutPoint.Hash.String ∧
              v.Vout = txin.PreviousOutPoint.Index))) ∧
      (∀ (i : Nat) (out : wire.TxOut), t.TxOut[i]? = some out →
        ∃ v, tx.Vout[i]? = some v ∧ v.N = i % 2 ^ 32 ∧
          (t.TxOut.length ≤ 2 ^ 32 → v.N = i) ∧
          v.ValueSat = out.Value ∧ v.ScriptPubKey.Hex = hex.EncodeToString out.PkScript) := by
  obtain ⟨vin, vout, htx, hlin, hvin, hlout, hvout⟩ := txFromMsgTx_eq p TxHash t parseAddresses
  refine ⟨_, htx, rfl, rfl, hlin, hlout, ?_, ?_⟩
  · intro i txin h
    have hi := hvin i txin h
    rw [vin_eq t i txin h] at hi
    refine ⟨_, hi, ?_⟩
    split_ifs
    · exact ⟨rfl, Or.inl rfl⟩
    · exact ⟨rfl, Or.inr ⟨rfl, rfl, rfl⟩⟩
  · intro i out h
    have hi := hvout i out h
    rw [vout_eq] at hi
    refine ⟨_, hi, rfl, ?_, rfl, rfl⟩
    intro hle
    have := (List.getElem?_eq_some_iff.mp h).1
    exact Nat.mod_eq_of_lt (by omega)

/-- Witness for C30: the example coinstake transaction, of three inputs and three outputs,
keeps its version and lock time, and its second output has index 1, value 50000000 and the
hex of the standalone P2CS script. -/
theorem TxFromMsgTx_preserves_witness :
    ∃ tx, fixtureParser.TxFromMsgTx fixtureTxHash fixtureStakeTx true = some tx ∧
      tx.Version = 160 ∧ tx.LockTime = 2028364 ∧ tx.Vin.length = 3 ∧ tx.Vout.length = 3 ∧
      ∃ v, tx.Vout[1]? = some v ∧ v.N = 1 ∧ v.ValueSat = 50000000 ∧
        v.ScriptPubKey.Hex =
          "76a8200637bcc74ffe834bc66f1e8c5bd6a13bc7a17276338be0016ba8151a2c5473fa88ac" := by
  obtain ⟨tx, h, h1, h2, h3, h4, _, h6⟩ :=
    TxFromMsgTx_preserves fixtureParser fixtureTxHash fixtureStakeTx true
  obtain ⟨v, hv, _, hn, hval, hhex⟩ := h6 1 _ rfl
  exact ⟨tx, h, h1, h2, h3, h4, v, hv, hn (by decide), hval, hhex.trans (by decide)⟩

/-! ## The descriptor of an unknown input -/

theorem getAddrDescForUnknownInput_eq (p : ParticlParser) (tx : bchain.Tx) (n : Nat) :
    p.GetAddrDescForUnknownInput tx n = some
      (match tx.Vin[n]? with
       | some vin =>
         if vin.ScriptSig.Hex = "" then List.replicate 10 0
         else (hex.DecodeString vin.ScriptSig.Hex).1
       | none => List.replicate 10 0) := by
  unfold ParticlParser.GetAddrDescForUnknownInput
  by_cases hn : n < tx.Vin.length
  · have h1 : (tx.Vin.length : Int) > (n : Int) := by exact_mod_cast hn
    have h2 : Go.elem tx.Vin (n : Int) = some tx.Vin[n] := by
      simp [Go.elem, List.getElem?_eq_getElem hn]
    rw [List.getElem?_eq_getElem hn]
    by_cases hs : tx.Vin[n].ScriptSig.Hex = ""
    · simp [h1, h2, hs]
    · simp [h1, h2, hs]
  · have h1 : ¬ (tx.Vin.length : Int) > (n : Int) := by
      intro h; exact hn (by exact_mod_cast h)
    rw [List.getElem?_eq_none (by omega)]
    simp [h1]

theorem getAddrDescForUnknownInput_negative (p : ParticlParser) (tx : bchain.Tx) (input : Int)
    (h : input < 0) : p.GetAddrDescForUnknownInput tx input = none := by
  unfold ParticlParser.GetAddrDescForUnknownInput
  have h1 : (tx.Vin.length : Int) > input := by omega
  simp [h1, Go.elem, h]

theorem getAddrDescForUnknownInput_verbatim (p : ParticlParser) (tx : bchain.Tx) (n : Nat)
    (vin : bchain.Vin) (script : Bytes) (hv : tx.Vin[n]? = some vin) (hs : script ≠ [])
    (hh : vin.ScriptSig.Hex = hex.EncodeToString script) :
    p.GetAddrDescForUnknownInput tx n = some script := by
  rw [getAddrDescForUnknownInput_eq, hv]
  have hne : ¬ hex.EncodeToString script = "" := by
    rw [hex.EncodeToString_eq_empty]; exact hs
  simp only [hh, if_neg hne, hex.DecodeString_EncodeToString]

theorem getAddrDescForUnknownInput_placeholder (p : ParticlParser) (tx : bchain.Tx) (n : Nat)
    (h : tx.Vin.length ≤ n ∨ ∃ vin, tx.Vin[n]? = some vin ∧ vin.ScriptSig.Hex = "") :
    p.GetAddrDescForUnknownInput tx n = some (List.replicate 10 0) := by
  rw [getAddrDescForUnknownInput_eq]
  rcases h with h | ⟨vin, hv, hs⟩
  · rw [List.getElem?_eq_none h]
  · rw [hv]; simp only [if_pos hs]

/-- C25: the call `GetAddrDescForUnknownInput(tx, -1)` on the transaction of
`TestParseTxFromJson` does not return: the guard `len(tx.Vin) > input` holds for the
negative index and `tx.Vin[input]` panics, where the claim promises 10 zero bytes. -/
theorem GetAddrDescForUnknownInput_negative_index :
    fixtureParser.GetAddrDescForUnknownInput fixtureDataResult (-1) = none ∧
    (fixtureDataResult.Vin.length : Int) > -1 ∧
    fixtureParser.GetAddrDescForUnknownInput fixtureDataResult 1 = some (List.replicate 10 0) := by
  decide

/-! ## Network parameters and their registration -/

theorem getChainParams_eq (chain : String) (reg : chaincfg.Registry) :
    GetChainParams chain reg =
      (GetChainParams.register reg).map fun r => (paramsFor chain, r) := by
  unfold GetChainParams paramsFor
  cases GetChainParams.register reg with
  | none => rfl
  | some r =>
    by_cases h1 : chain = "test"
    · subst h1; rfl
    · by_cases h2 : chain = "regtest"
      · subst h2; rfl
      · simp only [Option.bind_eq_bind, Option.some_bind, beq_iff_eq, h1, h2, if_false,
          Option.map_some']
        rfl

theorem register_registered (reg : chaincfg.Registry)
    (h : chaincfg.IsRegistered MainNetParams reg = true) :
    GetChainParams.register reg = some reg := by
  simp [GetChainParams.register, h]

theorem register_fresh (params : chaincfg.Params) (reg : chaincfg.Registry)
    (h : params.Net ∉ reg) :
    chaincfg.Register params reg = (none, reg ++ [params.Net]) := by
  simp [chaincfg.Register, h]

theorem register_unregistered (reg : chaincfg.Registry)
    (hm : MainNetParams.Net ∉ reg) (ht : TestNetParams.Net ∉ reg)
    (hr : RegtestParams.Net ∉ reg) :
    GetChainParams.register reg =
      some (reg ++ [MainNetParams.Net, TestNetParams.Net, RegtestParams.Net]) := by
  have e1 : chaincfg.IsRegistered MainNetParams reg = false := by
    simpa [chaincfg.IsRegistered] using hm
  have r1 := register_fresh MainNetParams reg hm
  have r2 := register_fresh TestNetParams (reg ++ [MainNetParams.Net]) (by
    simp only [List.mem_append, List.mem_singleton, not_or]
    exact ⟨ht, by decide⟩)
  have r3 := register_fresh RegtestParams (reg ++ [MainNetParams.Net] ++ [TestNetParams.Net]) (by
    simp only [List.mem_append, List.mem_singleton, not_or]
    exact ⟨⟨hr, by decide⟩, by decide⟩)
  simp only [List.append_assoc, List.singleton_append] at r2 r3
  unfold GetChainParams.register
  simp only [e1, r1, r2, r3, Bool.not_false, if_true, beq_self_eq_true, bne_self_eq_false,
    Bool.false_eq_true, if_false]
  rfl

theorem getChainParams_registered (chain : String) (reg : chaincfg.Registry)
    (h : chaincfg.IsRegistered MainNetParams reg = true) :
    GetChainParams chain reg = some (paramsFor chain, reg) := by
  rw [getChainParams_eq, register_registered reg h]; rfl

theorem getChainParams_unregistered (chain : String) (reg : chaincfg.Registry)
    (hm : MainNetParams.Net ∉ reg) (ht : TestNetParams.Net ∉ reg)
    (hr : RegtestParams.Net ∉ reg) :
    GetChainParams chain reg =
      some (paramsFor chain,
        reg ++ [MainNetParams.Net, TestNetParams.Net, RegtestParams.Net]) := by
  rw [getChainParams_eq, register_unregistered reg hm ht hr]; rfl

theorem getChainParams_isSome (chain other : String) (reg : chaincfg.Registry) :
    (GetChainParams chain reg).isSome = (GetChainParams other reg).isSome := by
  rw [getChainParams_eq, getChainParams_eq, Option.isSome_map', Option.isSome_map']

theorem calls_registered (chains : List String) (reg : chaincfg.Registry)
    (h : chaincfg.IsRegistered MainNetParams reg = true) :
    GetChainParams.calls chains reg = some (chains.map paramsFor, reg) := by
  induction chains with
  | nil => rfl
  | cons c rest ih => simp [GetChainParams.calls, getChainParams_registered c reg h, ih]

theorem calls_unregistered (c : String) (rest : List String) (reg : chaincfg.Registry)
    (hm : MainNetParams.Net ∉ reg) (ht : TestNetParams.Net ∉ reg)
    (hr : RegtestParams.Net ∉ reg) :
    GetChainParams.calls (c :: rest) reg =
      some ((c :: rest).map paramsFor,
        reg ++ [MainNetParams.Net, TestNetParams.Net, RegtestParams.Net]) := by
  have h : chaincfg.IsRegistered MainNetParams
      (reg ++ [MainNetParams.Net, TestNetParams.Net, RegtestParams.Net]) = true := by
    simp [chaincfg.IsRegistered]
  simp [GetChainParams.calls, getChainParams_unregistered c reg hm ht hr,
    calls_registered rest _ h]

/-- C26: `GetChainParams` never fails because of the identifier: whether a call returns
does not depend on the identifier, and on a registry that holds the main network already,
or none of the three networks yet, the call returns the testnet parameters (name
"Particl Testnet", magic 0x0b110907, version bytes 118 and 122) for "test", the regtest
parameters (name "Particl Regtest", magic 0xfabfb5da) for "regtest", and the mainnet
parameters (name "Particl", magic 0xfbf2efb4, version bytes 56 and 60, bech32 prefix "pw")
for every other string. -/
theorem GetChainParams_default (chain : String) (reg : chaincfg.Registry) :
    (∀ other, (GetChainParams chain reg).isSome = (GetChainParams other reg).isSome) ∧
    ((chaincfg.IsRegistered MainNetParams reg = true ∨
        (0xfbf2efb4 ∉ reg ∧ 0x0b110907 ∉ reg ∧ 0xfabfb5da ∉ reg)) →
      ∃ params reg', GetChainParams chain reg = some (params, reg') ∧
        (chain = "test" → params =
          { Name := "Particl Testnet", Net := 0x0b110907, PubKeyHashAddrID := [118]
            ScriptHashAddrID := [122], PrivateKeyID := [46], Bech32HRPSegwit := "tp" }) ∧
        (chain = "regtest" → params =
          { Name := "Particl Regtest", Net := 0xfabfb5da, PubKeyHashAddrID := [118]
            ScriptHashAddrID := [122], PrivateKeyID := [46], Bech32HRPSegwit := "tpw" }) ∧
        (chain ≠ "test" → chain ≠ "regtest" → params =
          { Name := "Particl", Net := 0xfbf2efb4, PubKeyHashAddrID := [56]
            ScriptHashAddrID := [60], PrivateKeyID := [108], Bech32HRPSegwit := "pw" })) := by
  refine ⟨fun other => getChainParams_isSome chain other reg, fun hreg => ?_⟩
  have hsel : (chain = "test" → paramsFor chain = TestNetParams) ∧
      (chain = "regtest" → paramsFor chain = RegtestParams) ∧
      (chain ≠ "test" → chain ≠ "regtest" → paramsFor chain = MainNetParams) := by
    refine ⟨fun h => by subst h; rfl, fun h => by subst h; rfl, fun h1 h2 => ?_⟩
    simp only [paramsFor, if_neg h1, if_neg h2]
  rcases hreg with h | ⟨hm, ht, hr⟩
  · exact ⟨_, _, getChainParams_registered chain reg h, hsel⟩
  · exact ⟨_, _, getChainParams_unregistered chain reg hm ht hr, hsel⟩

/-- Witness for C26: on the registry that holds the networks of Bitcoin only, the empty
identifier and an unknown one get the mainnet parameters and "test" the testnet ones. -/
theorem GetChainParams_default_witness :
    (∃ reg', GetChainParams "" fixtureRegistry = some (MainNetParams, reg')) ∧
    (∃ reg', GetChainParams "mainnet" fixtureRegistry = some (MainNetParams, reg')) ∧
    (∃ reg', GetChainParams "test" fixtureRegistry = some (TestNetParams, reg')) := by
  obtain ⟨p1, r1, h1, _, _, k1⟩ :=
    (GetChainParams_default "" fixtureRegistry).2 (Or.inr (by decide))
  obtain ⟨p2, r2, h2, _, _, k2⟩ :=
    (GetChainParams_default "mainnet" fixtureRegistry).2 (Or.inr (by decide))
  obtain ⟨p3, r3, h3, k3, _, _⟩ :=
    (GetChainParams_default "test" fixtureRegistry).2 (Or.inr (by decide))
  rw [k1 (by decide) (by decide)] at h1
  rw [k2 (by decide) (by decide)] at h2
  rw [k3 rfl] at h3
  exact ⟨⟨r1, h1⟩, ⟨r2, h2⟩, ⟨r3, h3⟩⟩

/-- C27: registration is idempotent. From a registry that holds none of the three
networks, every sequence of `GetChainParams` calls returns, registers nothing when the
sequence is empty and otherwise leaves the registry extended by each of the three magics
exactly once, and answers every identifier as a first call would. On a registry that holds
the main network, a call returns, leaves the registry unchanged and gives the parameters
of the identifier. -/
theorem GetChainParams_idempotent (reg : chaincfg.Registry) :
    ((0xfbf2efb4 ∉ reg ∧ 0x0b110907 ∉ reg ∧ 0xfabfb5da ∉ reg) →
      ∀ chains : List String, ∃ ps reg',
        GetChainParams.calls chains reg = some (ps, reg') ∧
        (chains = [] → reg' = reg) ∧
        (chains ≠ [] → reg' = reg ++ [0xfbf2efb4, 0x0b110907, 0xfabfb5da]) ∧
        reg'.count 0xfbf2efb4 ≤ 1 ∧ reg'.count 0x0b110907 ≤ 1 ∧ reg'.count 0xfabfb5da ≤ 1 ∧
        ps.length = chains.length ∧
        (∀ (i : Nat) (c : String), chains[i]? = some c →
          ps[i]? = (GetChainParams c reg).map Prod.fst ∧
          GetChainParams c reg' = some (paramsFor c, reg') ∧ ps[i]? = some (paramsFor c))) ∧
    (chaincfg.IsRegistered MainNetParams reg = true →
      ∀ chain, GetChainParams chain reg = some (paramsFor chain, reg) ∧
        ∀ reg₀, 0xfbf2efb4 ∉ reg₀ ∧ 0x0b110907 ∉ reg₀ ∧ 0xfabfb5da ∉ reg₀ →
          (GetChainParams chain reg₀).map Prod.fst = some (paramsFor chain)) := by
  constructor
  · rintro ⟨hm, ht, hr⟩ chains
    have c1 : reg.count 0xfbf2efb4 = 0 := List.count_eq_zero_of_not_mem hm
    have c2 : reg.count 0x0b110907 = 0 := List.count_eq_zero_of_not_mem ht
    have c3 : reg.count 0xfabfb5da = 0 := List.count_eq_zero_of_not_mem hr
    cases chains with
    | nil =>
      refine ⟨[], reg, rfl, fun _ => rfl, fun h => absurd rfl h, ?_, ?_, ?_, rfl, ?_⟩
      · omega
      · omega
      · omega
      · intro i c h; simp at h
    | cons c rest =>
      have hreg : chaincfg.IsRegistered MainNetParams
          (reg ++ [0xfbf2efb4, 0x0b110907, 0xfabfb5da]) = true := by
        simp [chaincfg.IsRegistered, MainNetParams]
      refine ⟨_, _, calls_unregistered c rest reg hm ht hr,
        fun h => by simp at h, fun _ => rfl, ?_, ?_, ?_, by simp, ?_⟩
      · show (reg ++ [0xfbf2efb4, 0x0b110907, 0xfabfb5da]).count 0xfbf2efb4 ≤ 1
        rw [List.count_append, c1]; decide
      · show (reg ++ [0xfbf2efb4, 0x0b110907, 0xfabfb5da]).count 0x0b110907 ≤ 1
        rw [List.count_append, c2]; decide
      · show (reg ++ [0xfbf2efb4, 0x0b110907, 0xfabfb5da]).count 0xfabfb5da ≤ 1
        rw [List.count_append, c3]; decide
      · intro i x hx
        have hp : ((c :: rest).map paramsFor)[i]? = some (paramsFor x) := by
          rw [List.getElem?_map, hx]; rfl
        refine ⟨?_, getChainParams_registered x _ hreg, hp⟩
        rw [hp, getChainParams_unregistered x reg hm ht hr]; rfl
  · intro h chain
    refine ⟨getChainParams_registered chain reg h, ?_⟩
    rintro reg₀ ⟨hm, ht, hr⟩
    rw [getChainParams_unregistered chain reg₀ hm ht hr]; rfl

/-- Witness for C27: five calls from the registry that holds the networks of Bitcoin only
return, and leave the three magics behind the four of Bitcoin, each once; a further call
changes nothing. -/
theorem GetChainParams_idempotent_witness :
    (∃ ps, GetChainParams.calls ["main", "test", "regtest", "test", ""] fixtureRegistry =
      some (ps, fixtureRegistry ++ [0xfbf2efb4, 0x0b110907, 0xfabfb5da]) ∧
      ps[1]? = some TestNetParams ∧ ps[3]? = some TestNetParams) ∧
    GetChainParams "regtest" (fixtureRegistry ++ [0xfbf2efb4, 0x0b110907, 0xfabfb5da]) =
      some (RegtestParams, fixtureRegistry ++ [0xfbf2efb4, 0x0b110907, 0xfabfb5da]) := by
  obtain ⟨ps, reg', h, _, hreg, _, _, _, _, hps⟩ :=
    (GetChainParams_idempotent fixtureRegistry).1 (by decide)
      ["main", "test", "regtest", "test", ""]
  rw [hreg (by decide)] at h
  exact ⟨⟨ps, h, (hps 1 "test" rfl).2.2, (hps 3 "test" rfl).2.2⟩,
    ((GetChainParams_idempotent
      (fixtureRegistry ++ [0xfbf2efb4, 0x0b110907, 0xfabfb5da])).2 (by decide) "regtest").1⟩

end part

/-! ## Facts about readers -/

namespace bytes

theorem unread_length (r : Reader) : r.unread.length = r.s.length - r.i := by
  simp [Reader.unread]

theorem unread_advance (r : Reader) (n : Nat) :
    ({ r with i := r.i + n } : Reader).unread = r.unread.drop n := by
  simp [Reader.unread, List.drop_drop, Nat.add_comm]

theorem readFull_ok (s : Bytes) (i n : Nat) (h : i + n ≤ s.length) :
    Reader.ReadFull { s := s, i := i } n = .ok ((s.drop i).take n, { s := s, i := i + n }) := by
  have : n ≤ (Reader.unread { s := s, i := i }).length := by
    rw [unread_length]; simp only; omega
  unfold Reader.ReadFull
  rw [if_pos this]
  rfl

theorem readFull_inv (r r' : Reader) (n : Nat) (x : Bytes)
    (h : r.ReadFull n = .ok (x, r')) :
    n ≤ r.unread.length ∧ x = r.unread.take n ∧ r' = { r with i := r.i + n } := by
  unfold Reader.ReadFull at h
  split_ifs at h with h1 h2
  · simp only [Except.ok.injEq, Prod.mk.injEq] at h
    exact ⟨h1, h.1.symm, h.2.symm⟩

theorem readFull_error (r : Reader) (n : Nat) (h : r.unread.length < n) :
    ∃ err, r.ReadFull n = .error err := by
  unfold Reader.ReadFull
  rw [if_neg (by omega)]
  split_ifs
  · exact ⟨_, rfl⟩
  · exact ⟨_, rfl⟩

theorem readFull_congr (r₁ r₂ : Reader) (n : Nat) (h : r₁.unread = r₂.unread) :
    (∃ err, r₁.ReadFull n = .error err ∧ r₂.ReadFull n = .error err) ∨
    (∃ x r₁' r₂', r₁.ReadFull n = .ok (x, r₁') ∧ r₂.ReadFull n = .ok (x, r₂') ∧
      r₁'.unread = r₂'.unread) := by
  unfold Reader.ReadFull
  rw [h]
  split_ifs
  · refine Or.inr ⟨_, _, _, rfl, rfl, ?_⟩
    rw [unread_advance, unread_advance, h]
  · exact Or.inl ⟨_, rfl, rfl⟩
  · exact Or.inl ⟨_, rfl, rfl⟩

end bytes

namespace wire

theorem readVarInt_congr (r₁ r₂ : bytes.Reader) (pver : Nat) (h : r₁.unread = r₂.unread) :
    (∃ err, ReadVarInt r₁ pver = .error err ∧ ReadVarInt r₂ pver = .error err) ∨
    (∃ n r₁' r₂', ReadVarInt r₁ pver = .ok (n, r₁') ∧ ReadVarInt r₂ pver = .ok (n, r₂') ∧
      r₁'.unread = r₂'.unread) := by
  unfold ReadVarInt
  rcases bytes.readFull_congr r₁ r₂ 1 h with ⟨e, h1, h2⟩ | ⟨b, r₁', r₂', h1, h2, h'⟩
  · exact Or.inl ⟨e, by simp [h1, bind, Except.bind], by simp [h2, bind, Except.bind]⟩
  · simp only [h1, h2, bind, Except.bind]
    split_ifs with d1 d2 d3
    · rcases bytes.readFull_congr r₁' r₂' 8 h' with ⟨e, k1, k2⟩ | ⟨x, q₁, q₂, k1, k2, k'⟩
      · exact Or.inl ⟨e, by simp [k1], by simp [k2]⟩
      · simp only [k1, k2]
        split_ifs
        · exact Or.inl ⟨_, rfl, rfl⟩
        · exact Or.inr ⟨_, _, _, rfl, rfl, k'⟩
    · rcases bytes.readFull_congr r₁' r₂' 4 h' with ⟨e, k1, k2⟩ | ⟨x, q₁, q₂, k1, k2, k'⟩
      · exact Or.inl ⟨e, by simp [k1], by simp [k2]⟩
      · simp only [k1, k2]
        split_ifs
        · exact Or.inl ⟨_, rfl, rfl⟩
        · exact Or.inr ⟨_, _, _, rfl, rfl, k'⟩
    · rcases bytes.readFull_congr r₁' r₂' 2 h' with ⟨e, k1, k2⟩ | ⟨x, q₁, q₂, k1, k2, k'⟩
      · exact Or.inl ⟨e, by simp [k1], by simp [k2]⟩
      · simp only [k1, k2]
        split_ifs
        · exact Or.inl ⟨_, rfl, rfl⟩
        · exact Or.inr ⟨_, _, _, rfl, rfl, k'⟩
    · exact Or.inr ⟨_, _, _, rfl, rfl, h'⟩

theorem deserialize_ok (b : Bytes) (h : 80 ≤ b.length) :
    BlockHeader.Deserialize (bytes.NewReader b) = .ok
      ({ Version := int32 (littleEndian (b.take 4))
         PrevBlock := chainhash.Hash.ofBytes ((b.drop 4).take 32)
         MerkleRoot := chainhash.Hash.ofBytes ((b.drop 36).take 32)
         Timestamp := littleEndian ((b.drop 68).take 4)
         Bits := littleEndian ((b.drop 72).take 4)
         Nonce := littleEndian ((b.drop 76).take 4) }, { s := b, i := 80 }) := by
  unfold BlockHeader.Deserialize bytes.NewReader
  simp only [bind, Except.bind, bytes.readFull_ok b 0 4 (by omega),
    bytes.readFull_ok b (0 + 4) 32 (by omega), bytes.readFull_ok b (0 + 4 + 32) 32 (by omega),
    bytes.readFull_ok b (0 + 4 + 32 + 32) 4 (by omega),
    bytes.readFull_ok b (0 + 4 + 32 + 32 + 4) 4 (by omega),
    bytes.readFull_ok b (0 + 4 + 32 + 32 + 4 + 4) 4 (by omega)]
  rfl

theorem deserialize_inv (r r' : bytes.Reader) (hd : BlockHeader)
    (h : BlockHeader.Deserialize r = .ok (hd, r')) : r.i + 80 ≤ r.s.length := by
  unfold BlockHeader.Deserialize at h
  simp only [bind, Except.bind] at h
  split at h
  · exact absurd h (by simp)
  · rename_i v1 h1
    obtain ⟨a1, b1, c1⟩ := bytes.readFull_inv _ _ _ _ h1
    split at h
    · exact absurd h (by simp)
    · rename_i v2 h2
      obtain ⟨a2, b2, c2⟩ := bytes.readFull_inv _ _ _ _ h2
      split at h
      · exact absurd h (by simp)
      · rename_i v3 h3
        obtain ⟨a3, b3, c3⟩ := bytes.readFull_inv _ _ _ _ h3
        split at h
        · exact absurd h (by simp)
        · rename_i v4 h4
          obtain ⟨a4, b4, c4⟩ := bytes.readFull_inv _ _ _ _ h4
          split at h
          · exact absurd h (by simp)
          · rename_i v5 h5
            obtain ⟨a5, b5, c5⟩ := bytes.readFull_inv _ _ _ _ h5
            split at h
            · exact absurd h (by simp)
            · rename_i v6 h6
              obtain ⟨a6, b6, c6⟩ := bytes.readFull_inv _ _ _ _ h6
              rw [bytes.unread_length] at a1 a2 a3 a4 a5 a6
              rw [c5] at a6
              rw [c4] at a5 a6
              rw [c3] at a4 a5 a6
              rw [c2] at a3 a4 a5 a6
              rw [c1] at a2 a3 a4 a5 a6
              simp only at a2 a3 a4 a5 a6
              omega

end wire

/-! ## Parsing a block -/

namespace part

theorem transactions_congr (BtcDecode : wire.BtcDecode) (n : Nat) (r₁ r₂ : bytes.Reader)
    (h : r₁.unread = r₂.unread) :
    ParseBlock.transactions BtcDecode n r₁ = ParseBlock.transactions BtcDecode n r₂ := by
  induction n generalizing r₁ r₂ with
  | zero => rfl
  | succ n ih =>
    unfold ParseBlock.transactions
    rw [h]
    cases BtcDecode r₂.unread with
    | error err => rfl
    | ok v =>
      obtain ⟨tx, k⟩ := v
      simp only
      rw [ih { r₁ with i := r₁.i + k } { r₂ with i := r₂.i + k } (by
        rw [bytes.unread_advance, bytes.unread_advance, h])]

theorem transactions_length (BtcDecode : wire.BtcDecode) (n : Nat) (r : bytes.Reader)
    (txs : List wire.MsgTx) (h : ParseBlock.transactions BtcDecode n r = .ok txs) :
    txs.length = n := by
  induction n generalizing r txs with
  | zero =>
    simp only [ParseBlock.transactions, Except.ok.injEq] at h
    rw [← h]; rfl
  | succ n ih =>
    unfold ParseBlock.transactions at h
    split at h
    · exact absurd h (by simp)
    · rename_i tx k _
      split at h
      · exact absurd h (by simp)
      · rename_i rest hrest
        simp only [Except.ok.injEq] at h
        rw [← h, List.length_cons, ih _ _ hrest]

theorem txs_total (p : ParticlParser) (TxHash : wire.MsgTx → chainhash.Hash)
    (ts : List wire.MsgTx) :
    ∃ l, ParseBlock.txs p TxHash ts = some l ∧ l.length = ts.length ∧
      ∀ (k : Nat) (t : wire.MsgTx), ts[k]? = some t → l[k]? = p.TxFromMsgTx TxHash t false := by
  induction ts with
  | nil => exact ⟨[], rfl, rfl, fun k t h => by simp at h⟩
  | cons t rest ih =>
    obtain ⟨l, hl, hlen, hget⟩ := ih
    obtain ⟨tx, htx⟩ : ∃ tx, p.TxFromMsgTx TxHash t false = some tx := by
      obtain ⟨vin, vout, htx, _⟩ := txFromMsgTx_eq p TxHash t false
      exact ⟨_, htx⟩
    refine ⟨tx :: l, by simp [ParseBlock.txs, htx, hl], by simp [hlen], ?_⟩
    intro k x hx
    cases k with
    | zero =>
      simp only [List.getElem?_cons_zero, Option.some.injEq] at hx
      subst hx
      simp [htx]
    | succ k =>
      simp only [List.getElem?_cons_succ] at hx ⊢
      exact hget k x hx

theorem parseBlock_eq (p : ParticlParser) (BtcDecode : wire.BtcDecode)
    (TxHash : wire.MsgTx → chainhash.Hash) (b : Bytes) (h : 80 ≤ b.length) :
    p.ParseBlock BtcDecode TxHash b =
      match wire.ReadVarInt { s := b, i := 112 } 0 with
      | .error err => some (.error err)
      | .ok (txCount, r) =>
        if !Go.makeslice 8 txCount then none
        else
          match ParseBlock.transactions BtcDecode txCount r with
          | .error err => some (.error err)
          | .ok transactions =>
            (ParseBlock.txs p TxHash transactions).map fun txs =>
              .ok { BlockHeader :=
                      { Hash := "", Prev := "", Next := "", Height := 0, Confirmations := 0
                        Size := b.length
                        Time := wire.littleEndian ((b.drop 68).take 4) }
                    Txs := txs } := by
  unfold ParticlParser.ParseBlock
  simp only [wire.deserialize_ok b h]
  rfl

theorem parseBlock_short_header (p : ParticlParser) (BtcDecode : wire.BtcDecode)
    (TxHash : wire.MsgTx → chainhash.Hash) (b : Bytes) (h : b.length < 80) :
    ∃ err, p.ParseBlock BtcDecode TxHash b = some (.error err) := by
  cases hd : wire.BlockHeader.Deserialize (bytes.NewReader b) with
  | error err => exact ⟨err, by simp only [ParticlParser.ParseBlock, hd]⟩
  | ok v =>
    have := wire.deserialize_inv _ _ _ hd
    simp only [bytes.NewReader] at this
    omega

theorem take_window (b : Bytes) (k m : Nat) (h : k + m ≤ 80) :
    (b.drop k).take m = ((b.take 80).drop k).take m := by
  rw [List.drop_take, List.take_take, Nat.min_eq_left (by omega)]

theorem parseBlock_congr (p : ParticlParser) (BtcDecode : wire.BtcDecode)
    (TxHash : wire.MsgTx → chainhash.Hash) (b₁ b₂ : Bytes) (hlen : b₁.length = b₂.length)
    (hhead : b₁.take 80 = b₂.take 80) (htail : b₁.drop 112 = b₂.drop 112) :
    p.ParseBlock BtcDecode TxHash b₁ = p.ParseBlock BtcDecode TxHash b₂ := by
  by_cases h : 80 ≤ b₁.length
  · have ht : wire.littleEndian ((b₁.drop 68).take 4) =
        wire.littleEndian ((b₂.drop 68).take 4) := by
      rw [take_window b₁ 68 4 (by omega), take_window b₂ 68 4 (by omega), hhead]
    have hu : (bytes.Reader.mk b₁ 112).unread = (bytes.Reader.mk b₂ 112).unread := htail
    rw [parseBlock_eq p BtcDecode TxHash b₁ h, parseBlock_eq p BtcDecode TxHash b₂ (hlen ▸ h),
      hlen, ht]
    rcases wire.readVarInt_congr _ _ 0 hu with ⟨e, h1, h2⟩ | ⟨n, r₁, r₂, h1, h2, h'⟩
    · rw [h1, h2]
    · rw [h1, h2]
      simp only
      rw [transactions_congr BtcDecode n r₁ r₂ h']
  · have e1 : b₁.take 80 = b₁ := List.take_of_length_le (by omega)
    have e2 : b₂.take 80 = b₂ := List.take_of_length_le (by omega)
    rw [← e1, hhead, e2]

theorem seek_after_header (b : Bytes) :
    bytes.Reader.Seek { s := b, i := 80 } 32 1 = .ok (112, { s := b, i := 112 }) := rfl

theorem readVarInt_empty (r : bytes.Reader) (pver : Nat) (h : r.unread.length = 0) :
    wire.ReadVarInt r pver = .error io.EOF := by
  unfold wire.ReadVarInt bytes.Reader.ReadFull
  simp [h, bind, Except.bind]

theorem parseBlock_varint_error (p : ParticlParser) (BtcDecode : wire.BtcDecode)
    (TxHash : wire.MsgTx → chainhash.Hash) (b : Bytes) (h : 80 ≤ b.length)
    (err : bchain.Error) (hv : wire.ReadVarInt { s := b, i := 112 } 0 = .error err) :
    p.ParseBlock BtcDecode TxHash b = some (.error err) := by
  rw [parseBlock_eq p BtcDecode TxHash b h, hv]

theorem parseBlock_ok_inv (p : ParticlParser) (BtcDecode : wire.BtcDecode)
    (TxHash : wire.MsgTx → chainhash.Hash) (b : Bytes) (block : bchain.Block)
    (hb : p.ParseBlock BtcDecode TxHash b = some (.ok block)) :
    80 ≤ b.length ∧ ∃ n r transactions,
      wire.ReadVarInt { s := b, i := 112 } 0 = .ok (n, r) ∧ 8 * n ≤ 2 ^ 48 ∧
      ParseBlock.transactions BtcDecode n r = .ok transactions ∧
      ParseBlock.txs p TxHash transactions = some block.Txs ∧ block.Txs.length = n := by
  have h : 80 ≤ b.length := by
    by_contra hc
    obtain ⟨err, he⟩ := parseBlock_short_header p BtcDecode TxHash b (by omega)
    rw [he] at hb
    exact absurd hb (by simp)
  refine ⟨h, ?_⟩
  rw [parseBlock_eq p BtcDecode TxHash b h] at hb
  split at hb
  · exact absurd hb (by simp)
  · rename_i n r hv
    split_ifs at hb with hm
    split at hb
    · exact absurd hb (by simp)
    · rename_i transactions ht
      obtain ⟨l, hl, hlen, _⟩ := txs_total p TxHash transactions
      rw [hl] at hb
      simp only [Option.map_some', Option.some.injEq, Except.ok.injEq] at hb
      refine ⟨n, r, transactions, hv, ?_, ht, ?_, ?_⟩
      · simpa [Go.makeslice, Go.maxAlloc] using hm
      · rw [hl, ← hb]
      · rw [← hb]; simp only; rw [hlen, transactions_length BtcDecode n r transactions ht]

theorem parseBlock_short (p : ParticlParser) (BtcDecode : wire.BtcDecode)
    (TxHash : wire.MsgTx → chainhash.Hash) (b : Bytes) (h : b.length < 113) :
    ∃ err, p.ParseBlock BtcDecode TxHash b = some (.error err) := by
  by_cases h80 : 80 ≤ b.length
  · refine ⟨io.EOF, parseBlock_varint_error p BtcDecode TxHash b h80 _ ?_⟩
    apply readVarInt_empty
    rw [bytes.unread_length]
    simp only
    omega
  · exact parseBlock_short_header p BtcDecode TxHash b (by omega)

theorem readVarInt_truncated (r : bytes.Reader) (pver : Nat) (d : UInt8) (rest : Bytes)
    (hr : r.unread = d :: rest)
    (ht : (d = 0xfd ∧ rest.length < 2) ∨ (d = 0xfe ∧ rest.length < 4) ∨
      (d = 0xff ∧ rest.length < 8)) :
    ∃ err, wire.ReadVarInt r pver = .error err := by
  have h1 : r.ReadFull 1 = .ok ([d], { r with i := r.i + 1 }) := by
    unfold bytes.Reader.ReadFull
    rw [hr]
    simp
  have hu : ({ r with i := r.i + 1 } : bytes.Reader).unread = rest := by
    rw [bytes.unread_advance, hr]; rfl
  unfold wire.ReadVarInt
  simp only [h1, bind, Except.bind]
  rcases ht with ⟨hd, hl⟩ | ⟨hd, hl⟩ | ⟨hd, hl⟩
  · subst hd
    obtain ⟨e, he⟩ := bytes.readFull_error { r with i := r.i + 1 } 2 (by rw [hu]; exact hl)
    rw [if_neg (by decide), if_neg (by decide), if_pos (by decide), he]
    exact ⟨e, rfl⟩
  · subst hd
    obtain ⟨e, he⟩ := bytes.readFull_error { r with i := r.i + 1 } 4 (by rw [hu]; exact hl)
    rw [if_neg (by decide), if_pos (by decide), he]
    exact ⟨e, rfl⟩
  · subst hd
    obtain ⟨e, he⟩ := bytes.readFull_error { r with i := r.i + 1 } 8 (by rw [hu]; exact hl)
    rw [if_pos (by decide), he]
    exact ⟨e, rfl⟩

theorem transactions_error_mono (BtcDecode : wire.BtcDecode) (k n : Nat) (r : bytes.Reader)
    (err : bchain.Error) (hk : k ≤ n)
    (h : ParseBlock.transactions BtcDecode k r = .error err) :
    ParseBlock.transactions BtcDecode n r = .error err := by
  induction k generalizing n r with
  | zero => exact absurd h (by simp [ParseBlock.transactions])
  | succ k ih =>
    obtain ⟨m, rfl⟩ : ∃ m, n = m + 1 := ⟨n - 1, by omega⟩
    unfold ParseBlock.transactions at h ⊢
    cases hc : BtcDecode r.unread with
    | error e =>
      simp only [hc] at h ⊢
      exact h
    | ok v =>
      obtain ⟨tx, c⟩ := v
      simp only [hc] at h ⊢
      cases hr : ParseBlock.transactions BtcDecode k { r with i := r.i + c } with
      | error e =>
        simp only [hr, Except.error.injEq] at h
        subst h
        simp only [ih m _ (by omega) hr]
      | ok txs =>
        simp only [hr] at h
        exact absurd h (by simp)

theorem parseBlock_decode_error (p : ParticlParser) (BtcDecode : wire.BtcDecode)
    (TxHash : wire.MsgTx → chainhash.Hash) (b : Bytes) (h : 80 ≤ b.length)
    (n k : Nat) (r : bytes.Reader) (err : bchain.Error)
    (hv : wire.ReadVarInt { s := b, i := 112 } 0 = .ok (n, r)) (hn : 8 * n ≤ 2 ^ 48)
    (hk : k ≤ n) (hd : ParseBlock.transactions BtcDecode k r = .error err) :
    p.ParseBlock BtcDecode TxHash b = some (.error err) := by
  rw [parseBlock_eq p BtcDecode TxHash b h, hv]
  have hm : Go.makeslice 8 n = true := by simpa [Go.makeslice, Go.maxAlloc] using hn
  simp only [hm, Bool.not_true, Bool.false_eq_true, if_false,
    transactions_error_mono BtcDecode k n r err hk hd]

theorem parseBlock_panics_iff (p : ParticlParser) (BtcDecode : wire.BtcDecode)
    (TxHash : wire.MsgTx → chainhash.Hash) (b : Bytes) :
    p.ParseBlock BtcDecode TxHash b = none ↔
      80 ≤ b.length ∧ ∃ n r, wire.ReadVarInt { s := b, i := 112 } 0 = .ok (n, r) ∧
        2 ^ 48 < 8 * n := by
  by_cases h : 80 ≤ b.length
  · rw [parseBlock_eq p BtcDecode TxHash b h]
    cases hv : wire.ReadVarInt { s := b, i := 112 } 0 with
    | error err => simp [h]
    | ok v =>
      obtain ⟨n, r⟩ := v
      by_cases hm : 8 * n ≤ 2 ^ 48
      · have hm' : Go.makeslice 8 n = true := by simpa [Go.makeslice, Go.maxAlloc] using hm
        simp only [hm', Bool.not_true, Bool.false_eq_true, if_false]
        constructor
        · intro hc
          split at hc
          · exact absurd hc (by simp)
          · rename_i transactions _
            obtain ⟨l, hl, _⟩ := txs_total p TxHash transactions
            rw [hl] at hc
            exact absurd hc (by simp)
        · rintro ⟨_, n', r', hnr, hlt⟩
          simp only [Except.ok.injEq, Prod.mk.injEq] at hnr
          omega
      · have hm' : Go.makeslice 8 n = false := by simpa [Go.makeslice, Go.maxAlloc] using hm
        simp only [hm', Bool.not_false, if_true, true_iff]
        exact ⟨h, n, r, rfl, by omega⟩
  · obtain ⟨err, he⟩ := parseBlock_short_header p BtcDecode TxHash b (by omega)
    rw [he]
    simp [h]

theorem parse_fixtureBlock :
    ∃ block, fixtureParser.ParseBlock fixtureBtcDecode fixtureTxHash (fixtureBlock 7) =
        some (.ok block) ∧
      block.Txs.length = 2 ∧ block.BlockHeader.Size = 445 ∧
      block.BlockHeader.Time = 1761309840 := by
  have hv : wire.ReadVarInt { s := fixtureBlock 7, i := 112 } 0 =
      .ok (2, { s := fixtureBlock 7, i := 113 }) := by decide!
  have ht : ParseBlock.transactions fixtureBtcDecode 2 { s := fixtureBlock 7, i := 113 } =
      .ok [fixtureStakeTx, fixtureSpendTx] := by decide!
  have h80 : 80 ≤ (fixtureBlock 7).length := by decide!
  have hs : ((fixtureBlock 7).length : Int) = 445 := by decide!
  have htime : ((wire.littleEndian (((fixtureBlock 7).drop 68).take 4) : Nat) : Int) =
      1761309840 := by decide!
  have hm : Go.makeslice 8 2 = true := by decide
  obtain ⟨l, hl, hlen, _⟩ := txs_total fixtureParser fixtureTxHash [fixtureStakeTx, fixtureSpendTx]
  refine ⟨{ BlockHeader :=
              { Hash := "", Prev := "", Next := "", Height := 0, Confirmations := 0
                Size := 445, Time := 1761309840 }
            Txs := l }, ?_, hlen, rfl, rfl⟩
  rw [parseBlock_eq _ _ _ _ h80, hv]
  simp only [hm, Bool.not_true, Bool.false_eq_true, if_false, ht, hl, Option.map_some', hs,
    htime]

/-- C23: `ParseBlock` skips exactly the 32 bytes that follow the 80-byte header. Two
inputs of equal length that agree on bytes 0..79 and from byte 112 on give the same result
(the same block, the same error, or a panic in both cases); and for an input of at least 80
bytes the header leaves the reader at offset 80, the seek moves it to offset 112, an error
of the count decoding at offset 112 is the result, and a returned block has as many
transactions as the count decoded at offset 112. -/
theorem ParseBlock_skips_32 (p : ParticlParser) (BtcDecode : wire.BtcDecode)
    (TxHash : wire.MsgTx → chainhash.Hash) (b₁ b₂ : Bytes) (hlen : b₁.length = b₂.length)
    (hhead : b₁.take 80 = b₂.take 80) (htail : b₁.drop 112 = b₂.drop 112) :
    p.ParseBlock BtcDecode TxHash b₁ = p.ParseBlock BtcDecode TxHash b₂ ∧
    (80 ≤ b₁.length →
      (∃ h, wire.BlockHeader.Deserialize (bytes.NewReader b₁) = .ok (h, { s := b₁, i := 80 })) ∧
      bytes.Reader.Seek { s := b₁, i := 80 } 32 1 = .ok (112, { s := b₁, i := 112 }) ∧
      (∀ err, wire.ReadVarInt { s := b₁, i := 112 } 0 = .error err →
        p.ParseBlock BtcDecode TxHash b₁ = some (.error err)) ∧
      (∀ block, p.ParseBlock BtcDecode TxHash b₁ = some (.ok block) →
        ∃ r, wire.ReadVarInt { s := b₁, i := 112 } 0 = .ok (block.Txs.length, r))) := by
  refine ⟨parseBlock_congr p BtcDecode TxHash b₁ b₂ hlen hhead htail, fun h => ?_⟩
  refine ⟨⟨_, wire.deserialize_ok b₁ h⟩, seek_after_header b₁,
    fun err hv => parseBlock_varint_error p BtcDecode TxHash b₁ h err hv, fun block hb => ?_⟩
  obtain ⟨_, n, r, _, hv, _, _, _, hn⟩ := parseBlock_ok_inv p BtcDecode TxHash b₁ block hb
  exact ⟨r, by rw [hn]; exact hv⟩

/-- Witness for C23: the example block parses to the same result whether its 32 bytes
after the header are all 7 or all 9. -/
theorem ParseBlock_skips_32_witness :
    (fixtureBlock 7).length = (fixtureBlock 9).length ∧
    (fixtureBlock 7).take 80 = (fixtureBlock 9).take 80 ∧
    (fixtureBlock 7).drop 112 = (fixtureBlock 9).drop 112 ∧
    fixtureBlock 7 ≠ fixtureBlock 9 ∧
    fixtureParser.ParseBlock fixtureBtcDecode fixtureTxHash (fixtureBlock 7) =
      fixtureParser.ParseBlock fixtureBtcDecode fixtureTxHash (fixtureBlock 9) :=
  ⟨by decide!, by decide!, by decide!, by decide!,
    (ParseBlock_skips_32 fixtureParser fixtureBtcDecode fixtureTxHash (fixtureBlock 7)
      (fixtureBlock 9) (by decide!) (by decide!) (by decide!)).1⟩

/-- C24: on the 121-byte input `fixtureHugeCountBlock` (an 80-byte header, the 32-byte
field and the count 2^64 - 1 in nine bytes) `ParseBlock` returns neither an error nor a
block: the count decodes without error and `make([]*wire.MsgTx, 0, txCount)` panics,
whatever the transaction decoder is. -/
theorem ParseBlock_huge_count_panics (p : ParticlParser) (BtcDecode : wire.BtcDecode)
    (TxHash : wire.MsgTx → chainhash.Hash) :
    fixtureHugeCountBlock.length = 121 ∧
    wire.ReadVarInt { s := fixtureHugeCountBlock, i := 112 } 0 =
      .ok (2 ^ 64 - 1, { s := fixtureHugeCountBlock, i := 121 }) ∧
    p.ParseBlock BtcDecode TxHash fixtureHugeCountBlock = none := by
  have hv : wire.ReadVarInt { s := fixtureHugeCountBlock, i := 112 } 0 =
      .ok (2 ^ 64 - 1, { s := fixtureHugeCountBlock, i := 121 }) := by decide!
  refine ⟨by decide!, hv, ?_⟩
  rw [parseBlock_panics_iff]
  exact ⟨by decide!, _, _, hv, by decide⟩

/-! ## What the normalizer copies -/

theorem forall₂_getElem?_some {α β : Type} {R : α → β → Prop} {l₁ : List α} {l₂ : List β}
    (h : List.Forall₂ R l₁ l₂) (i : Nat) (a : α) (ha : l₁[i]? = some a) :
    ∃ b, l₂[i]? = some b ∧ R a b := by
  have hi : i < l₂.length := by
    rw [← h.length_eq]
    exact (List.getElem?_eq_some_iff.mp ha).1
  exact ⟨l₂[i], List.getElem?_eq_getElem hi,
    forall₂_getElem? h i a l₂[i] ha (List.getElem?_eq_getElem hi)⟩

theorem parse_fixtureAnon :
    ∃ tx, fixtureParser.ParseTxFromJson fixtureAnonUnmarshal "anon" = .ok tx := by
  have h : (fixtureParser.ParseTxFromJson fixtureAnonUnmarshal "anon").isOk = true := by
    decide!
  cases hr : fixtureParser.ParseTxFromJson fixtureAnonUnmarshal "anon" with
  | ok tx => exact ⟨tx, rfl⟩
  | error e => rw [hr] at h; exact Bool.noConfusion h

/-- C28: in every transaction that `ParseTxFromJson` accepts, the inputs are as many as
in the JSON and in the same order, and input `i` carries unchanged the `Coinbase`, `Txid`,
`Vout`, `ScriptSig`, `Sequence`, input type, number of real inputs and ring size of JSON
input `i`; so an `anon` input keeps its type, real-input count and ring size, and its
previous txid is empty when the JSON gives it none. -/
theorem ParseTxFromJson_inputs (p : ParticlParser)
    (Unmarshal : json.RawMessage → Except bchain.Error ParticlTx) (msg : json.RawMessage)
    (ptx : ParticlTx) (tx : bchain.Tx) (hu : Unmarshal msg = .ok ptx)
    (hok : p.ParseTxFromJson Unmarshal msg = .ok tx) :
    tx.Vin.length = ptx.Vin.length ∧
    ∀ (i : Nat) (pvin : ParticlVin), ptx.Vin[i]? = some pvin →
      ∃ vin, tx.Vin[i]? = some vin ∧
        vin.Coinbase = pvin.Coinbase ∧ vin.Txid = pvin.Txid ∧ vin.Vout = pvin.Vout ∧
        vin.ScriptSig = pvin.ScriptSig ∧ vin.Sequence = pvin.Sequence ∧
        vin.InputType = pvin.InputType ∧ vin.AnonInputs = pvin.AnonInputs ∧
        vin.RingSize = pvin.RingSize ∧
        (pvin.InputType = "anon" → pvin.Txid = "" →
          vin.InputType = "anon" ∧ vin.Txid = "") := by
  obtain ⟨vout, _, rfl⟩ := parseTxFromJson_ok p Unmarshal msg ptx tx hu hok
  refine ⟨by simp, fun i pvin h => ?_⟩
  refine ⟨ParseTxFromJson.vin pvin, by simp [h], rfl, rfl, rfl, rfl, rfl, rfl, rfl, rfl, ?_⟩
  intro ht hx
  exact ⟨ht, hx⟩

/-- Witness for C28: the `anon` input of the transaction of `TestParseAnonTransaction`
keeps its type, its one real input and its ring size 5, and has no previous txid. -/
theorem ParseTxFromJson_inputs_witness :
    ∃ tx vin, fixtureParser.ParseTxFromJson fixtureAnonUnmarshal "anon" = .ok tx ∧
      tx.Vin.length = 1 ∧ tx.Vin[0]? = some vin ∧ vin.InputType = "anon" ∧
      vin.AnonInputs = 1 ∧ vin.RingSize = 5 ∧ vin.Txid = "" ∧ vin.Sequence = 4294967295 := by
  obtain ⟨tx, htx⟩ := parse_fixtureAnon
  obtain ⟨hlen, h⟩ := ParseTxFromJson_inputs fixtureParser fixtureAnonUnmarshal "anon"
    fixtureAnonTx tx rfl htx
  obtain ⟨vin, hv, _, _, _, _, hs, _, ha, hr, hanon⟩ := h 0 _ rfl
  exact ⟨tx, vin, htx, hlen, hv, (hanon rfl rfl).1, ha, hr, (hanon rfl rfl).2, hs⟩

/-- C29: in every transaction that `ParseTxFromJson` accepts, the outputs are as many as
in the JSON and in the same order, and output `i` carries unchanged the index `n`, script
hex, output type, value commitment, range proof and carried data of JSON output `i`, as the
strings they are; txid, hex, version, lock time, confirmations, block time and time of the
transaction are copied unchanged. -/
theorem ParseTxFromJson_outputs (p : ParticlParser)
    (Unmarshal : json.RawMessage → Except bchain.Error ParticlTx) (msg : json.RawMessage)
    (ptx : ParticlTx) (tx : bchain.Tx) (hu : Unmarshal msg = .ok ptx)
    (hok : p.ParseTxFromJson Unmarshal msg = .ok tx) :
    tx.Vout.length = ptx.Vout.length ∧
    (∀ (i : Nat) (o : ParticlVout), ptx.Vout[i]? = some o →
      ∃ v, tx.Vout[i]? = some v ∧ v.N = o.N ∧ v.ScriptPubKey.Hex = o.ScriptPubKey.Hex ∧
        v.OutputType = o.OutputType ∧ v.ValueCommitment = o.ValueCommitment ∧
        v.RangeProof = o.RangeProof ∧ v.Data = o.Data) ∧
    tx.Txid = ptx.Txid ∧ tx.Hex = ptx.Hex ∧ tx.Version = ptx.Version ∧
    tx.LockTime = ptx.LockTime ∧ tx.Confirmations = ptx.Confirmations ∧
    tx.Blocktime = ptx.Blocktime ∧ tx.Time = ptx.Time := by
  obtain ⟨vout, hv, rfl⟩ := parseTxFromJson_ok p Unmarshal msg ptx tx hu hok
  have hf := vouts_forall₂ p ptx.Vout vout hv
  refine ⟨hf.length_eq.symm, fun i o ho => ?_, rfl, rfl, rfl, rfl, rfl, rfl, rfl⟩
  obtain ⟨v, hvi, hr⟩ := forall₂_getElem?_some hf i o ho
  obtain ⟨n, _, rfl⟩ := (vout_ok_iff p o v).mp hr
  exact ⟨_, hvi, rfl, rfl, rfl, rfl, rfl, rfl⟩

/-- Witness for C29: the blind output of the transaction of `TestParseBlindTransaction`
keeps its index, script hex, type, value commitment and range proof, and the transaction
its txid, version and lock time. -/
theorem ParseTxFromJson_outputs_witness :
    ∃ v, fixtureBlindResult.Vout[1]? = some v ∧ v.N = 1 ∧
      v.ScriptPubKey.Hex = "76a9149f903c425f944b5a1e44da73246b87bc1e03389a88ac" ∧
      v.OutputType = "blind" ∧
      v.ValueCommitment =
        "08d120c189c1754c03a20816beb3e9764bf1c28814c86e0e0fef5e96edd9429d39" ∧
      v.RangeProof = "7dc3ca80691319d1a0181006058b72cb" ∧
      fixtureBlindResult.Txid =
        "4be9ec51111a27794b5c3ea1fe58a2658f58a354595a73d55cffb8394f07ad48" ∧
      fixtureBlindResult.Version = 160 ∧ fixtureBlindResult.LockTime = 2028364 := by
  obtain ⟨_, h, ht, _, hver, hl, _⟩ := ParseTxFromJson_outputs fixtureParser fixtureUnmarshal
    "blind" fixtureBlindTx fixtureBlindResult rfl parse_fixtures.1
  obtain ⟨v, hv, h1, h2, h3, h4, h5, _⟩ := h 1 _ rfl
  exact ⟨v, hv, h1, h2, h3, h4, h5, ht, hver, hl⟩

end part

/-! ## The reverse round trip and the composite rules -/

namespace part

/-! ## Scripts and their addresses, both ways -/

theorem take_three (s : Bytes) (h : 3 ≤ s.length) :
    s.take 3 = [s.getD 0 0, s.getD 1 0, s.getD 2 0] := by
  match s, h with
  | a :: b :: c :: rest, _ => rfl

theorem take_two (s : Bytes) (h : 2 ≤ s.length) : s.take 2 = [s.getD 0 0, s.getD 1 0] := by
  match s, h with
  | a :: b :: rest, _ => rfl

theorem eq_two (t : Bytes) (h : t.length = 2) : t = [t.getD 0 0, t.getD 1 0] := by
  match t, h with
  | [a, b], _ => rfl

theorem eq_one (t : Bytes) (h : t.length = 1) : t = [t.getD 0 0] := by
  match t, h with
  | [a], _ => rfl

theorem getD_drop (s : Bytes) (n i : Nat) : (s.drop n).getD i 0 = s.getD (n + i) 0 := by
  simp [List.getD_eq_getElem?_getD, List.getElem?_drop]

theorem p2cs_shape (s : Bytes) (h : isP2CS s = true) :
    s = [0x76, 0xa8, 0x20] ++ (s.take 35).drop 3 ++ [0x88, 0xac] ∧
      ((s.take 35).drop 3).length = 32 := by
  unfold isP2CS at h
  simp only [Bool.and_eq_true, beq_iff_eq] at h
  obtain ⟨⟨⟨⟨⟨hl, h0⟩, h1⟩, h2⟩, h35⟩, h36⟩ := h
  have e1 := take_three s (by omega)
  rw [h0, h1, h2] at e1
  have e2 := eq_two (s.drop 35) (by simp [hl])
  rw [getD_drop, getD_drop, h35, h36] at e2
  refine ⟨?_, by simp [hl]⟩
  rw [← e1, ← e2, List.drop_take]
  simp only [List.take_append_drop, Nat.reduceSub]
  rw [show (35 : Nat) = 3 + 32 by rfl, ← List.drop_drop]
  simp only [List.append_assoc, List.take_append_drop]

theorem p2sh256_shape (s : Bytes) (h : isP2SH256 s = true) :
    s = [0xa8, 0x20] ++ (s.take 34).drop 2 ++ [0x87] ∧ ((s.take 34).drop 2).length = 32 := by
  unfold isP2SH256 at h
  simp only [Bool.and_eq_true, beq_iff_eq] at h
  obtain ⟨⟨⟨hl, h0⟩, h1⟩, h34⟩ := h
  have e1 := take_two s (by omega)
  rw [h0, h1] at e1
  have e2 := eq_one (s.drop 34) (by simp [hl])
  rw [getD_drop, h34] at e2
  refine ⟨?_, by simp [hl]⟩
  rw [← e1, ← e2, List.drop_take]
  simp only [Nat.reduceSub]
  rw [show (34 : Nat) = 2 + 32 by rfl, ← List.drop_drop]
  simp only [List.append_assoc, List.take_append_drop]

theorem String_params (h : Bytes) (v : UInt8) (params₁ params₂ : chaincfg.Params) :
    ParticlP2CSAddress.String { pubKeyHash := h, versionByte := v, params := params₁ } =
      ParticlP2CSAddress.String { pubKeyHash := h, versionByte := v, params := params₂ } := rfl

theorem Decode_String (h : Bytes) (v : UInt8) (params : chaincfg.Params) :
    base58.Decode
        (ParticlP2CSAddress.String { pubKeyHash := h, versionByte := v, params := params }) =
      [v] ++ h ++ (sha256.Sum256 (sha256.Sum256 ([v] ++ h))).take 4 :=
  base58.Decode_Encode _

theorem standalone_decodes (p : ParticlParser) (s : Bytes)
    (hs : isP2CS s = true ∨ isP2SH256 s = true) :
    ∃ A, p.outputScriptToAddresses s = some (some [A], true, none) ∧
      ((base58.Decode A).head? = some 0x39 ∨ (base58.Decode A).head? = some 0x3d) ∧
      ∀ q : ParticlParser, (∃ e, q.BitcoinLikeParser.GetAddrDescFromAddress A = .error e) →
        q.GetAddrDescFromAddress A = some (.ok s) := by
  rcases hs with hs | hs
  · obtain ⟨hshape, hl⟩ := p2cs_shape s hs
    generalize (s.take 35).drop 3 = h at hshape hl
    subst hshape
    refine ⟨_, classify_p2cs_script p h hl, Or.inl ?_, ?_⟩
    · rw [Decode_String]; rfl
    · rintro q ⟨e, he⟩
      exact getAddrDesc_p2cs q _ h e he (Decode_String h 0x39 _) hl
  · obtain ⟨hshape, hl⟩ := p2sh256_shape s hs
    generalize (s.take 34).drop 2 = h at hshape hl
    subst hshape
    refine ⟨_, classify_p2sh256_script p h hl, Or.inr ?_, ?_⟩
    · rw [Decode_String]; rfl
    · rintro q ⟨e, he⟩
      exact getAddrDesc_p2sh256 q _ h e he (Decode_String h 0x3d _) hl

theorem envelope_length (s : Bytes) (h : isCoinstakeEnvelope s = true) :
    s.length = 66 ∨ s.length = 64 := by
  unfold isCoinstakeEnvelope at h
  simp only [Bool.and_eq_true, Bool.or_eq_true, beq_iff_eq] at h
  exact h.1.1.1.1.1.1.1

theorem not_envelope_of_short (s : Bytes) (h : s.length < 64) :
    isCoinstakeEnvelope s = false := by
  by_contra hc
  have := envelope_length s (by simpa using hc)
  omega

theorem classify_composite (p : ParticlParser) (s : Bytes)
    (henv : isCoinstakeEnvelope s = true)
    (hst : isP2CS (stakingScript s) = true ∨ isP2SH256 (stakingScript s) = true) :
    classifyResult p s = classifyResult p (stakingScript s) := by
  rcases hst with hst | hst
  · have hl := isP2CS_length _ hst
    have hne := not_envelope_of_short (stakingScript s) (by omega)
    simp only [classifyResult, standaloneResult, henv, hst, hne, Bool.and_self, if_true,
      Bool.false_and, Bool.false_eq_true, if_false]
  · have hl := isP2SH256_length _ hst
    have hne := not_envelope_of_short (stakingScript s) (by omega)
    have hn : isP2CS (stakingScript s) = false := by
      by_contra hc
      have := isP2CS_length _ (by simpa using hc)
      omega
    simp only [classifyResult, standaloneResult, henv, hst, hne, hn, Bool.and_self, if_true,
      Bool.false_and, Bool.and_false, Bool.false_eq_true, if_false]

theorem classify_params (p₁ p₂ : ParticlParser) (s : Bytes) (h : isParticlScript s = true) :
    classifyResult p₁ s = classifyResult p₂ s := by
  unfold isParticlScript at h
  unfold classifyResult standaloneResult
  by_cases h1 : (isCoinstakeEnvelope s && isP2CS (stakingScript s)) = true
  · simp only [h1, if_true]; rfl
  · by_cases h2 : (isCoinstakeEnvelope s && isP2SH256 (stakingScript s)) = true
    · simp only [h1, h2, if_true, if_false]; rfl
    · by_cases h3 : isP2CS s = true
      · simp only [h1, h2, h3, if_true, if_false]; rfl
      · by_cases h4 : isP2SH256 s = true
        · simp only [h1, h2, h3, h4, if_true, if_false]; rfl
        · exfalso
          revert h h1 h2 h3 h4
          cases isCoinstakeEnvelope s <;> cases isP2CS (stakingScript s) <;>
            cases isP2SH256 (stakingScript s) <;> cases isP2CS s <;> cases isP2SH256 s <;>
            decide

/-- C33: reverse round trip. For every standalone 37-byte P2CS script or 35-byte P2SH256
script `s`, `outputScriptToAddresses` produces exactly one address, and if the standard
decoder rejects that address then `GetAddrDescFromAddress` applied to it returns exactly
`s`. -/
theorem outputScriptToAddresses_reverse_round_trip (p : ParticlParser) (s : Bytes)
    (hs : isP2CS s = true ∨ isP2SH256 s = true) :
    ∃ A, p.outputScriptToAddresses s = some (some [A], true, none) ∧
      ((∃ e, p.BitcoinLikeParser.GetAddrDescFromAddress A = .error e) →
        p.GetAddrDescFromAddress A = some (.ok s)) := by
  obtain ⟨A, hA, _, hrt⟩ := standalone_decodes p s hs
  exact ⟨A, hA, hrt p⟩

/-- Witness for C33: the standalone P2CS script of the test fixtures is classified as the
address of the test fixtures, which the standard decoder rejects and which decodes back
to the script. -/
theorem outputScriptToAddresses_reverse_round_trip_witness :
    isP2CS ([0x76, 0xa8, 0x20] ++ fixtureHashP2CS ++ [0x88, 0xac]) = true ∧
    fixtureParser.outputScriptToAddresses ([0x76, 0xa8, 0x20] ++ fixtureHashP2CS ++ [0x88, 0xac]) =
      some (some ["2urAsyaHCnbMEQLNCCv3unbeysaPpjp1TiWLMWcQRMwYs74qGQh"], true, none) ∧
    fixtureParser.GetAddrDescFromAddress "2urAsyaHCnbMEQLNCCv3unbeysaPpjp1TiWLMWcQRMwYs74qGQh" =
      some (.ok ([0x76, 0xa8, 0x20] ++ fixtureHashP2CS ++ [0x88, 0xac])) := by
  have hfix : fixtureParser.outputScriptToAddresses
      ([0x76, 0xa8, 0x20] ++ fixtureHashP2CS ++ [0x88, 0xac]) =
      some (some ["2urAsyaHCnbMEQLNCCv3unbeysaPpjp1TiWLMWcQRMwYs74qGQh"], true, none) := by decide!
  obtain ⟨A, hA, hrt⟩ := outputScriptToAddresses_reverse_round_trip fixtureParser
    ([0x76, 0xa8, 0x20] ++ fixtureHashP2CS ++ [0x88, 0xac]) (Or.inl (by decide))
  have hAeq : A = "2urAsyaHCnbMEQLNCCv3unbeysaPpjp1TiWLMWcQRMwYs74qGQh" := by
    have := hA.symm.trans hfix
    simpa using this
  subst hAeq
  exact ⟨by decide, hfix, hrt ⟨_, rfl⟩⟩

/-- C34: for every script that a composite coinstake rule resolves (the envelope tests
hold and the ELSE branch, bytes 28 up to the last byte, is a 37-byte P2CS or a 35-byte
P2SH256 script), `outputScriptToAddresses` returns what it returns for the ELSE-branch
script alone, a different and shorter script, so classification is not injective; and
when the standard decoder rejects the address, `GetAddrDescFromAddress` decodes it to the
standalone ELSE-branch script, not to the composite script. -/
theorem outputScriptToAddresses_composite (p : ParticlParser) (s : Bytes)
    (henv : isCoinstakeEnvelope s = true)
    (hst : isP2CS (stakingScript s) = true ∨ isP2SH256 (stakingScript s) = true) :
    p.outputScriptToAddresses s = p.outputScriptToAddresses (stakingScript s) ∧
    s ≠ stakingScript s ∧
    ((s.length = 66 ∧ (stakingScript s).length = 37) ∨
      (s.length = 64 ∧ (stakingScript s).length = 35)) ∧
    ∃ A, p.outputScriptToAddresses s = some (some [A], true, none) ∧
      ((∃ e, p.BitcoinLikeParser.GetAddrDescFromAddress A = .error e) →
        p.GetAddrDescFromAddress A = some (.ok (stakingScript s)) ∧
        p.GetAddrDescFromAddress A ≠ some (.ok s)) := by
  have heq : p.outputScriptToAddresses s = p.outputScriptToAddresses (stakingScript s) := by
    rw [outputScriptToAddresses_eq, outputScriptToAddresses_eq, classify_composite p s henv hst]
  have hlen : (s.length = 66 ∧ (stakingScript s).length = 37) ∨
      (s.length = 64 ∧ (stakingScript s).length = 35) := by
    have hsl := stakingScript_length s
    rcases hst with hst | hst
    · have := isP2CS_length _ hst
      exact Or.inl ⟨by omega, this⟩
    · have := isP2SH256_length _ hst
      exact Or.inr ⟨by omega, this⟩
  have hne : s ≠ stakingScript s := by
    intro h
    have := congrArg List.length h
    omega
  obtain ⟨A, hA, _, hrt⟩ := standalone_decodes p (stakingScript s) hst
  refine ⟨heq, hne, hlen, A, heq.trans hA, fun hrej => ?_⟩
  have hd := hrt p hrej
  refine ⟨hd, ?_⟩
  rw [hd]
  intro h
  exact hne (Except.ok.inj (Option.some.inj h)).symm

/-- Witness for C34: the 66-byte coinstake script of the test fixtures and its ELSE branch
get the same address, and that address decodes to the 37-byte ELSE branch. -/
theorem outputScriptToAddresses_composite_witness :
    fixtureParser.outputScriptToAddresses
        ([0xb8, 0x63] ++ ([0x76, 0xa9, 0x14] ++ fixtureKeyHash ++ [0x88, 0xac]) ++ [0x67] ++
          ([0x76, 0xa8, 0x20] ++ fixtureHashCoinstake ++ [0x88, 0xac]) ++ [0x68]) =
      fixtureParser.outputScriptToAddresses
        ([0x76, 0xa8, 0x20] ++ fixtureHashCoinstake ++ [0x88, 0xac]) ∧
    fixtureParser.GetAddrDescFromAddress "2vjzfpCeiohkBtg3gcQJFLFaV6Yjqehw6Q4SwiKqRwKWfut2zPD" =
      some (.ok ([0x76, 0xa8, 0x20] ++ fixtureHashCoinstake ++ [0x88, 0xac])) := by
  have hfix : fixtureParser.outputScriptToAddresses
      ([0xb8, 0x63] ++ ([0x76, 0xa9, 0x14] ++ fixtureKeyHash ++ [0x88, 0xac]) ++ [0x67] ++
        ([0x76, 0xa8, 0x20] ++ fixtureHashCoinstake ++ [0x88, 0xac]) ++ [0x68]) =
      some (some ["2vjzfpCeiohkBtg3gcQJFLFaV6Yjqehw6Q4SwiKqRwKWfut2zPD"], true, none) := by decide!
  obtain ⟨h1, _, _, A, hA, hrt⟩ := outputScriptToAddresses_composite fixtureParser
    ([0xb8, 0x63] ++ ([0x76, 0xa9, 0x14] ++ fixtureKeyHash ++ [0x88, 0xac]) ++ [0x67] ++
      ([0x76, 0xa8, 0x20] ++ fixtureHashCoinstake ++ [0x88, 0xac]) ++ [0x68])
    (by decide) (Or.inl (by decide))
  have hAeq : A = "2vjzfpCeiohkBtg3gcQJFLFaV6Yjqehw6Q4SwiKqRwKWfut2zPD" := by
    have := hA.symm.trans hfix
    simpa using this
  subst hAeq
  exact ⟨h1, (hrt ⟨_, rfl⟩).1⟩

/-- C35: for every byte sequence, of any length, `outputScriptToAddresses` returns: no
index or slice expression that it evaluates is out of range (each would be a panic, and
there is none); the ELSE-branch slice `script[28 : len(script)-1]` of a 66-byte script is
37 bytes long and that of a 64-byte script 35 bytes long. -/
theorem outputScriptToAddresses_in_range (p : ParticlParser) (s : Bytes) :
    (∃ r, p.outputScriptToAddresses s = some r) ∧
    (s.length = 66 → ∃ st, Go.slice s 28 (s.length - 1) = some st ∧ st.length = 37) ∧
    (s.length = 64 → ∃ st, Go.slice s 28 (s.length - 1) = some st ∧ st.length = 35) := by
  refine ⟨⟨_, outputScriptToAddresses_eq p s⟩, fun h => ?_, fun h => ?_⟩
  · exact ⟨_, Go.slice_eq_some s 28 (s.length - 1) (by omega) (by omega), by
      simp only [List.length_drop, List.length_take]; omega⟩
  · exact ⟨_, Go.slice_eq_some s 28 (s.length - 1) (by omega) (by omega), by
      simp only [List.length_drop, List.length_take]; omega⟩

/-- Witness for C35: the empty script, a one-byte script and a 66-byte script of the
bytes `b8 63 …` are classified without panic, and the ELSE-branch slice of the last is 37
bytes long. -/
theorem outputScriptToAddresses_in_range_witness :
    (∃ r, fixtureParser.outputScriptToAddresses [] = some r) ∧
    (∃ r, fixtureParser.outputScriptToAddresses [0xb8] = some r) ∧
    (∃ st, Go.slice brokenCoinstake66 28 (brokenCoinstake66.length - 1) = some st ∧
      st.length = 37) :=
  ⟨(outputScriptToAddresses_in_range fixtureParser []).1,
    (outputScriptToAddresses_in_range fixtureParser [0xb8]).1,
    (outputScriptToAddresses_in_range fixtureParser brokenCoinstake66).2.1 (by decide)⟩

/-- C36: the Particl-specific rules do not depend on the network parameters. Any two
parsers return the same result for a script that a Particl-specific rule resolves (66, 64,
37 or 35 bytes), its one address carrying version byte 0x39 or 0x3d; and they return the
same result for an address string that the standard decoder of both rejects. -/
theorem particl_rules_ignore_params (p₁ p₂ : ParticlParser) :
    (∀ s, isParticlScript s = true →
      p₁.outputScriptToAddresses s = p₂.outputScriptToAddresses s ∧
      ∃ A, p₁.outputScriptToAddresses s = some (some [A], true, none) ∧
        ((base58.Decode A).head? = some 0x39 ∨ (base58.Decode A).head? = some 0x3d)) ∧
    (∀ A, (∃ e, p₁.BitcoinLikeParser.GetAddrDescFromAddress A = .error e) →
      (∃ e, p₂.BitcoinLikeParser.GetAddrDescFromAddress A = .error e) →
      p₁.GetAddrDescFromAddress A = p₂.GetAddrDescFromAddress A) := by
  constructor
  · intro s hs
    refine ⟨by rw [outputScriptToAddresses_eq, outputScriptToAddresses_eq,
      classify_params p₁ p₂ s hs], ?_⟩
    unfold isParticlScript at hs
    by_cases henv : (isCoinstakeEnvelope s &&
        (isP2CS (stakingScript s) || isP2SH256 (stakingScript s))) = true
    · simp only [Bool.and_eq_true, Bool.or_eq_true] at henv
      obtain ⟨A, hA, hv, _⟩ := standalone_decodes p₁ (stakingScript s) henv.2
      refine ⟨A, ?_, hv⟩
      rw [outputScriptToAddresses_eq, classify_composite p₁ s henv.1 henv.2,
        ← outputScriptToAddresses_eq]
      exact hA
    · have hst : isP2CS s = true ∨ isP2SH256 s = true := by
        revert hs henv
        cases isCoinstakeEnvelope s <;> cases isP2CS (stakingScript s) <;>
          cases isP2SH256 (stakingScript s) <;> cases isP2CS s <;> cases isP2SH256 s <;>
          decide
      obtain ⟨A, hA, hv, _⟩ := standalone_decodes p₁ s hst
      exact ⟨A, hA, hv⟩
  · rintro A ⟨e₁, h₁⟩ ⟨e₂, h₂⟩
    by_cases hlen : (base58.Decode A).length < 5
    · rw [getAddrDesc_short p₁ A e₁ h₁ hlen, getAddrDesc_short p₂ A e₂ h₂ hlen]
    · rw [getAddrDesc_rejected p₁ A e₁ _ h₁ rfl (by omega),
        getAddrDesc_rejected p₂ A e₂ _ h₂ rfl (by omega)]

/-- Witness for C36: parsers built with the main, test and regtest parameters return the
same address for the standalone P2SH256 script of the test fixtures, and the same
descriptor for that address. -/
theorem particl_rules_ignore_params_witness :
    (NewParticlParser { fixtureBase with Params := TestNetParams }).outputScriptToAddresses
        ([0xa8, 0x20] ++ fixtureHashP2SH256 ++ [0x87]) =
      fixtureParser.outputScriptToAddresses ([0xa8, 0x20] ++ fixtureHashP2SH256 ++ [0x87]) ∧
    (NewParticlParser { fixtureBase with Params := RegtestParams }).outputScriptToAddresses
        ([0xa8, 0x20] ++ fixtureHashP2SH256 ++ [0x87]) =
      fixtureParser.outputScriptToAddresses ([0xa8, 0x20] ++ fixtureHashP2SH256 ++ [0x87]) ∧
    (NewParticlParser { fixtureBase with Params := TestNetParams }).GetAddrDescFromAddress
        "33kQnRT9ecMedncHvns3eHbbNzgKPqXMcTCFuWV697J8PiX6myG" =
      fixtureParser.GetAddrDescFromAddress
        "33kQnRT9ecMedncHvns3eHbbNzgKPqXMcTCFuWV697J8PiX6myG" :=
  ⟨((particl_rules_ignore_params (NewParticlParser { fixtureBase with Params := TestNetParams })
      fixtureParser).1 _ (by decide)).1,
    ((particl_rules_ignore_params (NewParticlParser { fixtureBase with Params := RegtestParams })
      fixtureParser).1 _ (by decide)).1,
    (particl_rules_ignore_params (NewParticlParser { fixtureBase with Params := TestNetParams })
      fixtureParser).2 _ ⟨_, rfl⟩ ⟨_, rfl⟩⟩

end part

/-! ## `ParseBlock`: the block returned -/

namespace bytes

theorem take_of_take {α : Type} (s s' : List α) (j e : Nat) (hje : j ≤ e)
    (h : s'.take e = s.take e) : s'.take j = s.take j := by
  have := congrArg (List.take j) h
  rwa [List.take_take, List.take_take, Nat.min_eq_left hje] at this

theorem length_of_take {α : Type} (s s' : List α) (e : Nat) (he : e ≤ s.length)
    (h : s'.take e = s.take e) : e ≤ s'.length := by
  have := congrArg List.length h
  rw [List.length_take, List.length_take] at this
  omega

theorem window_of_take {α : Type} (s s' : List α) (i n : Nat)
    (h : s'.take (i + n) = s.take (i + n)) : (s'.drop i).take n = (s.drop i).take n := by
  rw [List.take_drop, List.take_drop, h]

theorem streams_pure {α : Type} (x : α) : Reader.Streams (fun r => .ok (x, r)) := by
  intro r r' y hr h
  simp only [Except.ok.injEq, Prod.mk.injEq] at h
  obtain ⟨rfl, rfl⟩ := h
  exact ⟨rfl, Nat.le_refl _, hr, fun s' _ => rfl⟩

theorem streams_error {α : Type} (e : bchain.Error) :
    Reader.Streams (fun _ => (.error e : Except bchain.Error (α × Reader))) := by
  intro r r' y _ h
  cases h

theorem streams_readFull (n : Nat) : Reader.Streams (fun r => r.ReadFull n) := by
  intro r r' x hr h
  obtain ⟨hn, hx, hr'⟩ := readFull_inv r r' n x h
  rw [unread_length] at hn
  subst hr'
  refine ⟨rfl, Nat.le_add_right _ _, by simp only; omega, fun s' hs' => ?_⟩
  simp only at hs'
  have hl := length_of_take r.s s' (r.i + n) (by omega) hs'
  show Reader.ReadFull { s := s', i := r.i } n = _
  rw [readFull_ok s' r.i n hl, hx, Reader.unread, window_of_take r.s s' r.i n hs']

theorem streams_bind {α β : Type} {f : Reader → Except bchain.Error (α × Reader)}
    {g : α → Reader → Except bchain.Error (β × Reader)}
    (hf : Reader.Streams f) (hg : ∀ a, Reader.Streams (g a)) :
    Reader.Streams (fun r => f r >>= fun p => g p.1 p.2) := by
  intro r r' y hr h
  simp only [bind, Except.bind] at h
  split at h
  · cases h
  · rename_i v hv
    obtain ⟨a, r₁⟩ := v
    obtain ⟨f1, f2, f3, f4⟩ := hf r r₁ a hr hv
    simp only at h
    obtain ⟨g1, g2, g3, g4⟩ := hg a r₁ r' y (by rw [f1]; exact f3) h
    rw [f1] at g1 g3 g4
    refine ⟨g1, Nat.le_trans f2 g2, g3, fun s' hs' => ?_⟩
    have h1 := f4 s' (take_of_take r.s s' r₁.i r'.i g2 hs')
    have h2 := g4 s' hs'
    simp only [bind, Except.bind, h1]
    have e : ({ s := r.s, i := r₁.i } : Reader) = r₁ := by
      cases r₁; simp only at f1; subst f1; rfl
    simpa using h2

theorem streams_seq {α β : Type} {f : Reader → Except bchain.Error (α × Reader)}
    {g : α × Reader → Except bchain.Error (β × Reader)}
    (hf : Reader.Streams f) (hg : ∀ a, Reader.Streams (fun r => g (a, r))) :
    Reader.Streams (fun r => f r >>= g) :=
  streams_bind (g := fun a r => g (a, r)) hf hg

end bytes

namespace wire

theorem streams_readVarInt (pver : Nat) : bytes.Reader.Streams (fun r => ReadVarInt r pver) := by
  refine bytes.streams_bind (g := fun b r =>
    if littleEndian b == 0xff then
      r.ReadFull 8 >>= fun p =>
        (fun sv r => if littleEndian sv < 0x100000000 then .error errNonCanonicalVarInt
          else .ok (littleEndian sv, r)) p.1 p.2
    else if littleEndian b == 0xfe then
      r.ReadFull 4 >>= fun p =>
        (fun sv r => if littleEndian sv < 0x10000 then .error errNonCanonicalVarInt
          else .ok (littleEndian sv, r)) p.1 p.2
    else if littleEndian b == 0xfd then
      r.ReadFull 2 >>= fun p =>
        (fun sv r => if littleEndian sv < 0xfd then .error errNonCanonicalVarInt
          else .ok (littleEndian sv, r)) p.1 p.2
    else .ok (littleEndian b, r)) (bytes.streams_readFull 1) ?_
  intro b
  have hk : ∀ (k m : Nat), bytes.Reader.Streams (fun r => r.ReadFull k >>= fun p =>
      (fun sv r => if littleEndian sv < m then .error errNonCanonicalVarInt
        else .ok (littleEndian sv, r)) p.1 p.2) := by
    intro k m
    refine bytes.streams_bind (g := fun sv r =>
      if littleEndian sv < m then .error errNonCanonicalVarInt else .ok (littleEndian sv, r))
      (bytes.streams_readFull k) (fun sv => ?_)
    by_cases hc : littleEndian sv < m
    · simp only [hc, if_true]; exact bytes.streams_error _
    · simp only [hc, if_false]; exact bytes.streams_pure _
  by_cases h1 : (littleEndian b == 0xff) = true
  · simp only [h1, if_true]; exact hk 8 _
  · by_cases h2 : (littleEndian b == 0xfe) = true
    · simp only [h1, h2, if_true, if_false]; exact hk 4 _
    · by_cases h3 : (littleEndian b == 0xfd) = true
      · simp only [h1, h2, h3, if_true, if_false]; exact hk 2 _
      · simp only [h1, h2, h3, if_false]; exact bytes.streams_pure _

end wire

namespace part

theorem streams_readMany {α : Type}
    (read : bytes.Reader → Except bchain.Error (α × bytes.Reader))
    (h : bytes.Reader.Streams read) (n : Nat) :
    bytes.Reader.Streams (fixtureReadMany read n) := by
  induction n with
  | zero => exact bytes.streams_pure _
  | succ n ih =>
    have e : fixtureReadMany read (n + 1) = fun r =>
        read r >>= fun (p : α × bytes.Reader) =>
          fixtureReadMany read n p.2 >>= fun (q : List α × bytes.Reader) =>
            Except.ok (p.1 :: q.1, q.2) := by
      funext r; rfl
    rw [e]
    refine bytes.streams_seq h (fun x => ?_)
    dsimp only
    refine bytes.streams_seq ih (fun xs => ?_)
    dsimp only
    exact bytes.streams_pure _

theorem streams_readTxIn : bytes.Reader.Streams fixtureReadTxIn := by
  unfold fixtureReadTxIn
  refine bytes.streams_seq (bytes.streams_readFull 32) (fun hash => ?_)
  refine bytes.streams_seq (bytes.streams_readFull 4) (fun index => ?_)
  refine bytes.streams_seq (wire.streams_readVarInt 0) (fun n => ?_)
  refine bytes.streams_seq (bytes.streams_readFull n) (fun script => ?_)
  refine bytes.streams_seq (bytes.streams_readFull 4) (fun sequence => ?_)
  exact bytes.streams_pure _

theorem streams_readTxOut : bytes.Reader.Streams fixtureReadTxOut := by
  unfold fixtureReadTxOut
  refine bytes.streams_seq (bytes.streams_readFull 8) (fun value => ?_)
  refine bytes.streams_seq (wire.streams_readVarInt 0) (fun n => ?_)
  refine bytes.streams_seq (bytes.streams_readFull n) (fun script => ?_)
  exact bytes.streams_pure _

theorem streams_txBody : bytes.Reader.Streams (fun r => do
    let (version, r) ← r.ReadFull 4
    let (count, r) ← wire.ReadVarInt r 0
    let (txin, r) ← fixtureReadMany fixtureReadTxIn count r
    let (count, r) ← wire.ReadVarInt r 0
    let (txout, r) ← fixtureReadMany fixtureReadTxOut count r
    let (lockTime, r) ← r.ReadFull 4
    return (({ Version := wire.int32 (wire.littleEndian version)
               TxIn := txin
               TxOut := txout
               LockTime := wire.littleEndian lockTime } : wire.MsgTx), r)) := by
  refine bytes.streams_seq (bytes.streams_readFull 4) (fun version => ?_)
  refine bytes.streams_seq (wire.streams_readVarInt 0) (fun n => ?_)
  refine bytes.streams_seq (streams_readMany _ streams_readTxIn n) (fun txin => ?_)
  refine bytes.streams_seq (wire.streams_readVarInt 0) (fun m => ?_)
  refine bytes.streams_seq (streams_readMany _ streams_readTxOut m) (fun txout => ?_)
  refine bytes.streams_seq (bytes.streams_readFull 4) (fun lockTime => ?_)
  exact bytes.streams_pure _

theorem fixtureBtcDecode_eq (u : Bytes) :
    fixtureBtcDecode u = (do
      let (version, r) ← (bytes.NewReader u).ReadFull 4
      let (count, r) ← wire.ReadVarInt r 0
      let (txin, r) ← fixtureReadMany fixtureReadTxIn count r
      let (count, r) ← wire.ReadVarInt r 0
      let (txout, r) ← fixtureReadMany fixtureReadTxOut count r
      let (lockTime, r) ← r.ReadFull 4
      return (({ Version := wire.int32 (wire.littleEndian version)
                 TxIn := txin
                 TxOut := txout
                 LockTime := wire.littleEndian lockTime } : wire.MsgTx), r)) >>=
      fun q => pure (q.1, q.2.i) := by
  unfold fixtureBtcDecode
  simp only [bind_assoc, pure_bind]

theorem streaming_of_streams
    {f : bytes.Reader → Except bchain.Error (wire.MsgTx × bytes.Reader)}
    (hf : bytes.Reader.Streams f) (BtcDecode : wire.BtcDecode)
    (hD : ∀ u, BtcDecode u = f (bytes.NewReader u) >>= fun q => pure (q.1, q.2.i)) :
    wire.BtcDecode.Streaming BtcDecode := by
  intro u tx k h
  rw [hD] at h
  simp only [bind, Except.bind] at h
  split at h
  · cases h
  · rename_i v hv
    obtain ⟨a, r'⟩ := v
    simp only [pure, Except.pure, Except.ok.injEq, Prod.mk.injEq] at h
    obtain ⟨rfl, rfl⟩ := h
    obtain ⟨_, _, h3, h4⟩ := hf (bytes.NewReader u) r' a (Nat.zero_le _) hv
    refine ⟨h3, fun u' hu' => ?_⟩
    rw [hD]
    have := h4 u' hu'
    simp only [bytes.NewReader] at this ⊢
    rw [this]
    rfl

theorem fixtureBtcDecode_streaming : wire.BtcDecode.Streaming fixtureBtcDecode :=
  streaming_of_streams streams_txBody fixtureBtcDecode fixtureBtcDecode_eq

theorem transactions_prefix (BtcDecode : wire.BtcDecode)
    (hD : wire.BtcDecode.Streaming BtcDecode) (n : Nat) (r : bytes.Reader)
    (ts : List wire.MsgTx) (hr : r.i ≤ r.s.length)
    (h : ParseBlock.transactions BtcDecode n r = .ok ts) :
    r.i ≤ ParseBlock.offset BtcDecode n r ∧ ParseBlock.offset BtcDecode n r ≤ r.s.length ∧
    ∀ s' : Bytes,
      s'.take (ParseBlock.offset BtcDecode n r) = r.s.take (ParseBlock.offset BtcDecode n r) →
      ParseBlock.transactions BtcDecode n { s := s', i := r.i } = .ok ts := by
  induction n generalizing r ts with
  | zero =>
    simp only [ParseBlock.transactions, Except.ok.injEq] at h
    subst h
    exact ⟨Nat.le_refl _, hr, fun s' _ => rfl⟩
  | succ n ih =>
    unfold ParseBlock.transactions at h
    unfold ParseBlock.offset
    cases hd : BtcDecode r.unread with
    | error e => simp only [hd] at h; cases h
    | ok v =>
      obtain ⟨tx, k⟩ := v
      simp only [hd] at h ⊢
      cases hrest : ParseBlock.transactions BtcDecode n { r with i := r.i + k } with
      | error e => simp only [hrest] at h; cases h
      | ok rest =>
        simp only [hrest, Except.ok.injEq] at h
        subst h
        obtain ⟨hk, hsame⟩ := hD r.unread tx k hd
        rw [bytes.unread_length] at hk
        obtain ⟨i1, i2, i3⟩ := ih { r with i := r.i + k } rest (by simp only; omega) hrest
        simp only at i1 i2 i3
        refine ⟨by omega, i2, fun s' hs' => ?_⟩
        have hwin : (s'.drop r.i).take k = (r.s.drop r.i).take k :=
          bytes.window_of_take r.s s' r.i k (bytes.take_of_take r.s s' _ _ i1 hs')
        have hd' : BtcDecode (bytes.Reader.unread { s := s', i := r.i }) = .ok (tx, k) :=
          hsame _ hwin
        unfold ParseBlock.transactions
        simp only [hd', i3 s' hs']

theorem readVarInt_inv (r r' : bytes.Reader) (pver n : Nat)
    (h : wire.ReadVarInt r pver = .ok (n, r')) : r.i + 1 ≤ r.s.length := by
  unfold wire.ReadVarInt at h
  simp only [bind, Except.bind] at h
  split at h
  · cases h
  · rename_i v hv
    have := (bytes.readFull_inv _ _ _ _ hv).1
    rw [bytes.unread_length] at this
    omega

theorem txFromMsgTx_no_addresses (p : ParticlParser) (TxHash : wire.MsgTx → chainhash.Hash)
    (t : wire.MsgTx) (tx : bchain.Tx) (h : p.TxFromMsgTx TxHash t false = some tx) :
    ∀ v ∈ tx.Vout, v.ScriptPubKey.Addresses = some [] := by
  obtain ⟨vin, vout, htx, _, _, hlen, hvout⟩ := txFromMsgTx_eq p TxHash t false
  rw [htx] at h
  have := Option.some.inj h
  subst this
  intro v hv
  simp only at hv
  obtain ⟨k, hk⟩ := List.mem_iff_getElem?.mp hv
  have hlt : k < t.TxOut.length := by
    rw [← hlen]
    exact (List.getElem?_eq_some_iff.mp hk).1
  have := hvout k t.TxOut[k] (List.getElem?_eq_getElem hlt)
  rw [hk, vout_eq] at this
  rw [Option.some.inj this]
  rfl

theorem parseBlock_ok_block (p : ParticlParser) (BtcDecode : wire.BtcDecode)
    (TxHash : wire.MsgTx → chainhash.Hash) (b : Bytes) (block : bchain.Block)
    (hb : p.ParseBlock BtcDecode TxHash b = some (.ok block)) :
    80 ≤ b.length ∧ ∃ n r ts txs,
      wire.ReadVarInt { s := b, i := 112 } 0 = .ok (n, r) ∧ Go.makeslice 8 n = true ∧
      ParseBlock.transactions BtcDecode n r = .ok ts ∧
      ParseBlock.txs p TxHash ts = some txs ∧
      block = { BlockHeader :=
                  { Hash := "", Prev := "", Next := "", Height := 0, Confirmations := 0
                    Size := b.length
                    Time := wire.littleEndian ((b.drop 68).take 4) }
                Txs := txs } := by
  have h : 80 ≤ b.length := by
    by_contra hc
    obtain ⟨err, he⟩ := parseBlock_short_header p BtcDecode TxHash b (by omega)
    rw [he] at hb
    exact absurd hb (by simp)
  refine ⟨h, ?_⟩
  rw [parseBlock_eq p BtcDecode TxHash b h] at hb
  split at hb
  · exact absurd hb (by simp)
  · rename_i n r hv
    split_ifs at hb with hm
    split at hb
    · exact absurd hb (by simp)
    · rename_i ts ht
      cases hl : ParseBlock.txs p TxHash ts with
      | none => rw [hl] at hb; exact absurd hb (by simp)
      | some l =>
        rw [hl] at hb
        simp only [Option.map_some', Option.some.injEq, Except.ok.injEq] at hb
        exact ⟨n, r, ts, l, hv, by simpa using hm, ht, hl, hb.symm⟩

theorem parseBlock_prefix (p : ParticlParser) (BtcDecode : wire.BtcDecode)
    (TxHash : wire.MsgTx → chainhash.Hash) (b : Bytes) (n : Nat) (r : bytes.Reader)
    (ts : List wire.MsgTx) (txs : List bchain.Tx)
    (hD : wire.BtcDecode.Streaming BtcDecode)
    (hv : wire.ReadVarInt { s := b, i := 112 } 0 = .ok (n, r))
    (hm : Go.makeslice 8 n = true)
    (ht : ParseBlock.transactions BtcDecode n r = .ok ts)
    (hl : ParseBlock.txs p TxHash ts = some txs) :
    112 ≤ ParseBlock.offset BtcDecode n r ∧ ParseBlock.offset BtcDecode n r ≤ b.length ∧
    ∀ b' : Bytes,
      b'.take (ParseBlock.offset BtcDecode n r) = b.take (ParseBlock.offset BtcDecode n r) →
      p.ParseBlock BtcDecode TxHash b' = some (.ok
        { BlockHeader :=
            { Hash := "", Prev := "", Next := "", Height := 0, Confirmations := 0
              Size := b'.length
              Time := wire.littleEndian ((b.drop 68).take 4) }
          Txs := txs }) := by
  have h113 := readVarInt_inv _ _ _ _ hv
  simp only at h113
  obtain ⟨v1, v2, v3, v4⟩ := wire.streams_readVarInt 0 { s := b, i := 112 } r n
    (by simp only; omega) hv
  simp only at v1 v2 v3 v4
  obtain ⟨t1, t2, t3⟩ := transactions_prefix BtcDecode hD n r ts (by rw [v1]; exact v3) ht
  rw [v1] at t2 t3
  refine ⟨by omega, t2, fun b' hb' => ?_⟩
  have hlen' : ParseBlock.offset BtcDecode n r ≤ b'.length :=
    bytes.length_of_take b b' _ t2 hb'
  have h80 : b'.take 80 = b.take 80 := bytes.take_of_take b b' 80 _ (by omega) hb'
  have htime : wire.littleEndian ((b'.drop 68).take 4) =
      wire.littleEndian ((b.drop 68).take 4) := by
    rw [take_window b' 68 4 (by omega), take_window b 68 4 (by omega), h80]
  rw [parseBlock_eq p BtcDecode TxHash b' (by omega),
    v4 b' (bytes.take_of_take b b' r.i _ t1 hb')]
  simp only [hm, Bool.not_true, Bool.false_eq_true, if_false, t3 b' hb', hl, Option.map_some',
    htime]

/-- C31: whenever `ParseBlock` succeeds on input `b`, the returned block has
`Size = len(b)` and `Time` = the timestamp of the header, and exactly as many transactions
as the count decoded at offset 112; transaction `k` is `TxFromMsgTx` of the `k`-th decoded
wire transaction with address resolution off, so every output in the block has an empty
address list; and the bytes after the last declared transaction are ignored: for a decoder
that takes its input as a stream, every input with the same bytes up to the end of the
last declared transaction gives the same block, up to `Size`. -/
theorem ParseBlock_block (p : ParticlParser) (BtcDecode : wire.BtcDecode)
    (TxHash : wire.MsgTx → chainhash.Hash) (b : Bytes) (block : bchain.Block)
    (hb : p.ParseBlock BtcDecode TxHash b = some (.ok block)) :
    block.BlockHeader.Size = b.length ∧
    (∃ h, wire.BlockHeader.Deserialize (bytes.NewReader b) = .ok (h, { s := b, i := 80 }) ∧
      block.BlockHeader.Time = h.Timestamp) ∧
    ∃ n r ts, wire.ReadVarInt { s := b, i := 112 } 0 = .ok (n, r) ∧
      ParseBlock.transactions BtcDecode n r = .ok ts ∧ ts.length = n ∧
      block.Txs.length = n ∧
      (∀ (k : Nat) (t : wire.MsgTx), ts[k]? = some t →
        block.Txs[k]? = p.TxFromMsgTx TxHash t false) ∧
      (∀ tx ∈ block.Txs, ∀ v ∈ tx.Vout, v.ScriptPubKey.Addresses = some []) ∧
      (wire.BtcDecode.Streaming BtcDecode →
        ParseBlock.offset BtcDecode n r ≤ b.length ∧
        ∀ b' : Bytes,
          b'.take (ParseBlock.offset BtcDecode n r) =
            b.take (ParseBlock.offset BtcDecode n r) →
          p.ParseBlock BtcDecode TxHash b' = some (.ok
            { block with BlockHeader := { block.BlockHeader with Size := b'.length } })) := by
  obtain ⟨h80, n, r, ts, txs, hv, hm, ht, hl, rfl⟩ :=
    parseBlock_ok_block p BtcDecode TxHash b block hb
  obtain ⟨l, hl', hlen, hget⟩ := txs_total p TxHash ts
  have hlt : l = txs := Option.some.inj (hl'.symm.trans hl)
  subst hlt
  have htl := transactions_length BtcDecode n r ts ht
  refine ⟨rfl, ⟨_, wire.deserialize_ok b h80, rfl⟩, n, r, ts, hv, ht, htl, by
    simp only; rw [hlen, htl], hget, ?_, fun hD => ?_⟩
  · intro tx htx
    simp only at htx
    obtain ⟨k, hk⟩ := List.mem_iff_getElem?.mp htx
    have hlt : k < ts.length := by
      rw [← hlen]
      exact (List.getElem?_eq_some_iff.mp hk).1
    have := hget k ts[k] (List.getElem?_eq_getElem hlt)
    rw [hk] at this
    exact txFromMsgTx_no_addresses p TxHash ts[k] tx this.symm
  · obtain ⟨_, h2, h3⟩ := parseBlock_prefix p BtcDecode TxHash b n r ts l hD hv hm ht hl
    exact ⟨h2, h3⟩

/-- Witness for C31: the example block of 445 bytes parses to a block of size 445 with
the timestamp of its header and two transactions whose outputs have no addresses; its
last transaction ends at offset 442, and the input with other bytes from there on parses
to the same block, up to its size. -/
theorem ParseBlock_block_witness :
    ∃ block, fixtureParser.ParseBlock fixtureBtcDecode fixtureTxHash (fixtureBlock 7) =
        some (.ok block) ∧
      block.BlockHeader.Size = 445 ∧ block.BlockHeader.Time = 1761309840 ∧
      block.Txs.length = 2 ∧
      (∀ tx ∈ block.Txs, ∀ v ∈ tx.Vout, v.ScriptPubKey.Addresses = some []) ∧
      fixtureParser.ParseBlock fixtureBtcDecode fixtureTxHash
          ((fixtureBlock 7).take 442 ++ [1, 2, 3, 4]) =
        some (.ok { block with BlockHeader := { block.BlockHeader with Size := 446 } }) := by
  obtain ⟨block, hb, hlen, hsize, htime⟩ := parse_fixtureBlock
  obtain ⟨_, _, n, r, ts, hv, _, _, _, _, haddr, hignore⟩ :=
    ParseBlock_block fixtureParser fixtureBtcDecode fixtureTxHash (fixtureBlock 7) block hb
  have hv' : wire.ReadVarInt { s := fixtureBlock 7, i := 112 } 0 =
      .ok (2, { s := fixtureBlock 7, i := 113 }) := by decide!
  rw [hv'] at hv
  simp only [Except.ok.injEq, Prod.mk.injEq] at hv
  obtain ⟨rfl, rfl⟩ := hv
  have hoff : ParseBlock.offset fixtureBtcDecode 2 { s := fixtureBlock 7, i := 113 } = 442 := by
    decide!
  rw [hoff] at hignore
  have := (hignore fixtureBtcDecode_streaming).2 ((fixtureBlock 7).take 442 ++ [1, 2, 3, 4])
    (by decide!)
  have hl : (((fixtureBlock 7).take 442 ++ [1, 2, 3, 4]).length : Int) = 446 := by decide!
  rw [hl] at this
  exact ⟨block, hb, hsize, htime, hlen, haddr, this⟩

end part

/-! ## The configuration file: the two formats -/

namespace common

/-- The flat branch of `UnmarshalJSON`: a flat parse without error and with a coin name
is the result, whatever the decoder of the nested format is. -/
theorem unmarshalJSON_flat
    (Unmarshal : json.RawMessage → Config → Option bchain.Error × Config)
    (UnmarshalFile : json.RawMessage → Except bchain.Error configFile)
    (c : Config) (data : json.RawMessage)
    (herr : (Unmarshal data c).1 = none) (hname : (Unmarshal data c).2.CoinName ≠ "") :
    Config.UnmarshalJSON Unmarshal UnmarshalFile c data = (none, (Unmarshal data c).2) := by
  unfold Config.UnmarshalJSON
  cases hu : Unmarshal data c with
  | mk err c1 =>
    rw [hu] at herr hname
    simp only at herr hname
    simp [herr, hname]

/-- The nested branch of `UnmarshalJSON`: after a flat parse with an error or without a
coin name the result is decided by the decoder of the nested format. -/
theorem unmarshalJSON_nested
    (Unmarshal : json.RawMessage → Config → Option bchain.Error × Config)
    (UnmarshalFile : json.RawMessage → Except bchain.Error configFile)
    (c : Config) (data : json.RawMessage)
    (h : ¬ ((Unmarshal data c).1 = none ∧ (Unmarshal data c).2.CoinName ≠ "")) :
    Config.UnmarshalJSON Unmarshal UnmarshalFile c data =
      match UnmarshalFile data with
      | .error err => (some err, (Unmarshal data c).2)
      | .ok cf =>
        (none,
          { (Unmarshal data c).2 with
            CoinName := cf.Coin.Name
            CoinShortcut := cf.Coin.Shortcut
            CoinLabel := cf.Coin.Label
            FourByteSignatures := cf.Blockbook.BlockChain.AdditionalParams.FourByteSignatures
            FiatRates := cf.Blockbook.BlockChain.AdditionalParams.FiatRates
            FiatRatesParams := cf.Blockbook.BlockChain.AdditionalParams.FiatRatesParams
            FiatRatesVsCurrencies :=
              cf.Blockbook.BlockChain.AdditionalParams.FiatRatesVsCurrencies
            BlockGolombFilterP := cf.Blockbook.BlockChain.AdditionalParams.BlockGolombFilterP
            BlockFilterScripts := cf.Blockbook.BlockChain.AdditionalParams.BlockFilterScripts
            BlockFilterUseZeroedKey :=
              cf.Blockbook.BlockChain.AdditionalParams.BlockFilterUseZeroedKey }) := by
  unfold Config.UnmarshalJSON
  cases hu : Unmarshal data c with
  | mk err c1 =>
    rw [hu] at h
    simp only at h
    have hc : (err == none && c1.CoinName != "") = false := by
      cases err with
      | some e => rfl
      | none =>
        have hn : c1.CoinName = "" := by
          by_contra hne
          exact h ⟨rfl, hne⟩
        simp [hn]
    simp only [hc]
    cases UnmarshalFile data <;> rfl

/-- C32: `Config.UnmarshalJSON` on a receiver `c` and a message `data`, with both JSON
decoders as parameters. When the message parses in the flat format and the coin name it
leaves is not empty, the call returns no error and the receiver holds the flat fields as
parsed, whatever the decoder of the nested format is: it is not consulted. Otherwise the
result is decided by the parse in the nested format: when it succeeds the call returns no
error, `CoinName`, `CoinShortcut` and `CoinLabel` are those of the section `coin`, the
seven additional-parameter fields are those of `blockbook.block_chain.additional_params`,
and `Network` is as the flat parse left it; when it fails the call returns its error. So
the call fails only when the parse in the nested format fails. -/
theorem Config_UnmarshalJSON_formats
    (Unmarshal : json.RawMessage → Config → Option bchain.Error × Config)
    (UnmarshalFile : json.RawMessage → Except bchain.Error configFile)
    (c : Config) (data : json.RawMessage) :
    (((Unmarshal data c).1 = none ∧ (Unmarshal data c).2.CoinName ≠ "") →
      ∀ UnmarshalFile2 : json.RawMessage → Except bchain.Error configFile,
        Config.UnmarshalJSON Unmarshal UnmarshalFile2 c data = (none, (Unmarshal data c).2)) ∧
    (¬ ((Unmarshal data c).1 = none ∧ (Unmarshal data c).2.CoinName ≠ "") →
      (∀ cf : configFile, UnmarshalFile data = .ok cf →
        ∃ c2 : Config, Config.UnmarshalJSON Unmarshal UnmarshalFile c data = (none, c2) ∧
          c2.CoinName = cf.Coin.Name ∧
          c2.CoinShortcut = cf.Coin.Shortcut ∧
          c2.CoinLabel = cf.Coin.Label ∧
          c2.FourByteSignatures = cf.Blockbook.BlockChain.AdditionalParams.FourByteSignatures ∧
          c2.FiatRates = cf.Blockbook.BlockChain.AdditionalParams.FiatRates ∧
          c2.FiatRatesParams = cf.Blockbook.BlockChain.AdditionalParams.FiatRatesParams ∧
          c2.FiatRatesVsCurrencies =
            cf.Blockbook.BlockChain.AdditionalParams.FiatRatesVsCurrencies ∧
          c2.BlockGolombFilterP = cf.Blockbook.BlockChain.AdditionalParams.BlockGolombFilterP ∧
          c2.BlockFilterScripts = cf.Blockbook.BlockChain.AdditionalParams.BlockFilterScripts ∧
          c2.BlockFilterUseZeroedKey =
            cf.Blockbook.BlockChain.AdditionalParams.BlockFilterUseZeroedKey ∧
          c2.Network = (Unmarshal data c).2.Network) ∧
      (∀ err : bchain.Error, UnmarshalFile data = .error err →
        Config.UnmarshalJSON Unmarshal UnmarshalFile c data =
          (some err, (Unmarshal data c).2))) ∧
    (∀ err : bchain.Error,
      (Config.UnmarshalJSON Unmarshal UnmarshalFile c data).1 = some err →
        UnmarshalFile data = .error err ∧
        ¬ ((Unmarshal data c).1 = none ∧ (Unmarshal data c).2.CoinName ≠ "")) := by
  refine ⟨fun h U2 => unmarshalJSON_flat Unmarshal U2 c data h.1 h.2, fun h => ⟨?_, ?_⟩, ?_⟩
  · intro cf hcf
    have e := unmarshalJSON_nested Unmarshal UnmarshalFile c data h
    rw [hcf] at e
    exact ⟨_, e, rfl, rfl, rfl, rfl, rfl, rfl, rfl, rfl, rfl, rfl, rfl⟩
  · intro err herr
    have e := unmarshalJSON_nested Unmarshal UnmarshalFile c data h
    rw [herr] at e
    exact e
  · intro err herr
    by_cases h : (Unmarshal data c).1 = none ∧ (Unmarshal data c).2.CoinName ≠ ""
    · rw [unmarshalJSON_flat Unmarshal UnmarshalFile c data h.1 h.2] at herr
      exact Option.noConfusion herr
    · refine ⟨?_, h⟩
      have e := unmarshalJSON_nested Unmarshal UnmarshalFile c data h
      rw [e] at herr
      cases hf : UnmarshalFile data with
      | error e2 =>
        rw [hf] at herr
        simp only [Option.some.injEq] at herr
        rw [herr]
      | ok cf =>
        rw [hf] at herr
        exact Option.noConfusion herr

/-- The three cases at the decoders of the examples, from the zero configuration: the
message in the flat format gives its four fields, with any decoder of the nested format;
the message in the nested format gives the names of its section `coin` and its additional
parameters; a message that is not JSON gives the error of the nested parse. -/
theorem Config_UnmarshalJSON_formats_witness :
    (∀ UnmarshalFile2 : json.RawMessage → Except bchain.Error configFile,
      Config.UnmarshalJSON fixtureUnmarshalConfig UnmarshalFile2 fixtureZeroConfig "flat" =
        (none,
          { fixtureZeroConfig with
            CoinName := "Particl", CoinShortcut := "PART", CoinLabel := "Particl"
            Network := "PART" })) ∧
    (∃ c2 : Config,
      Config.UnmarshalJSON fixtureUnmarshalConfig fixtureUnmarshalFile fixtureZeroConfig
          "nested" = (none, c2) ∧
        c2.CoinName = "Particl" ∧ c2.CoinShortcut = "PART" ∧ c2.CoinLabel = "Particl" ∧
        c2.FourByteSignatures = "" ∧ c2.FiatRates = "coingecko" ∧ c2.FiatRatesParams = "" ∧
        c2.FiatRatesVsCurrencies = "" ∧ c2.BlockGolombFilterP = 20 ∧
        c2.BlockFilterScripts = "" ∧ c2.BlockFilterUseZeroedKey = false ∧ c2.Network = "") ∧
    Config.UnmarshalJSON fixtureUnmarshalConfig fixtureUnmarshalFile fixtureZeroConfig
        "not json" = (some (bchain.Error.other "invalid character"), fixtureZeroConfig) :=
  ⟨(Config_UnmarshalJSON_formats fixtureUnmarshalConfig fixtureUnmarshalFile
      fixtureZeroConfig "flat").1 ⟨by decide, by decide⟩,
   ((Config_UnmarshalJSON_formats fixtureUnmarshalConfig fixtureUnmarshalFile
      fixtureZeroConfig "nested").2.1 (by decide)).1 fixtureNestedFile rfl,
   ((Config_UnmarshalJSON_formats fixtureUnmarshalConfig fixtureUnmarshalFile
      fixtureZeroConfig "not json").2.1 (by decide)).2 _ (by decide)⟩

end common

/-! ## `GetBlockFull`: one slot for each raw transaction -/

namespace part

/-- The loop of `GetBlockFull` fills as many slots as there are raw transactions. -/
theorem getBlockFull_txs_length (b : ParticlRPC) (raw : List json.RawMessage) :
    (GetBlockFull.slots b raw).length = raw.length := by
  simp [GetBlockFull.slots]

/-- Slot `i` of the loop of `GetBlockFull` is decided by raw transaction `i` alone. -/
theorem getBlockFull_txs_slot (b : ParticlRPC) (raw : List json.RawMessage) (i : Nat)
    (msg : json.RawMessage) (h : raw[i]? = some msg) :
    (GetBlockFull.slots b raw)[i]? =
      some (match b.Parser.ParseTxFromJson b.Unmarshal msg with
        | .error _ => bchain.zeroTx
        | .ok tx => tx) := by
  simp only [GetBlockFull.slots, List.getElem?_map, h]
  rfl

/-- After a call without error and a response without error member and with a result,
`GetBlockFull` returns the block of the header of the result and of the slots of the
loop. -/
theorem getBlockFull_ok (b : ParticlRPC) (hash : String) (res : ResGetBlockFullParticl)
    (result : ParticlBlockResult) (hcall : b.Call hash = (none, res))
    (herr : res.Error = none) (hres : res.Result = some result) :
    b.GetBlockFull hash =
      some (.ok { BlockHeader := result.BlockHeader
                  Txs := GetBlockFull.slots b result.Txs }) := by
  unfold ParticlRPC.GetBlockFull
  rw [hcall]
  simp only [herr, hres]
  rfl

/-- A response with neither an error member nor a result makes `GetBlockFull` panic, at
the read of `res.Result.Txs`. -/
theorem getBlockFull_nil_result (b : ParticlRPC) (hash : String)
    (res : ResGetBlockFullParticl) (hcall : b.Call hash = (none, res))
    (herr : res.Error = none) (hres : res.Result = none) :
    b.GetBlockFull hash = none := by
  unfold ParticlRPC.GetBlockFull
  rw [hcall]
  simp only [herr, hres]
  rfl

/-- An error of the call, or an error member of the response, is what `GetBlockFull`
returns. -/
theorem getBlockFull_error (b : ParticlRPC) (hash : String) (res : ResGetBlockFullParticl)
    (err : bchain.Error)
    (h : b.Call hash = (some err, res) ∨ (b.Call hash = (none, res) ∧ res.Error = some err)) :
    b.GetBlockFull hash = some (.error err) := by
  unfold ParticlRPC.GetBlockFull
  rcases h with h | ⟨h, he⟩
  · rw [h]
  · rw [h]
    simp only [he]

/-- C37: when the backend call of `GetBlockFull` succeeds (`Call` returns no error, and the
response has no error member and has a result), `GetBlockFull` returns a block, with the
header of the result and with exactly one transaction slot for each raw transaction of the
response, in the same order: slot `i` is decided by raw transaction `i`. When
`ParseTxFromJson` rejects that JSON the slot holds the zero-valued transaction, which has
an empty txid, no inputs and no outputs, and the call still returns the block; otherwise
the slot holds the transaction that `ParseTxFromJson` returns for that JSON. -/
theorem GetBlockFull_slots (b : ParticlRPC) (hash : String) (res : ResGetBlockFullParticl)
    (result : ParticlBlockResult) (hcall : b.Call hash = (none, res))
    (herr : res.Error = none) (hres : res.Result = some result) :
    ∃ block : bchain.Block,
      b.GetBlockFull hash = some (.ok block) ∧
      block.BlockHeader = result.BlockHeader ∧
      block.Txs.length = result.Txs.length ∧
      (∀ (i : Nat) (msg : json.RawMessage), result.Txs[i]? = some msg →
        (∀ err : bchain.Error, b.Parser.ParseTxFromJson b.Unmarshal msg = .error err →
          block.Txs[i]? = some bchain.zeroTx) ∧
        (∀ tx : bchain.Tx, b.Parser.ParseTxFromJson b.Unmarshal msg = .ok tx →
          block.Txs[i]? = some tx)) ∧
      bchain.zeroTx.Txid = "" ∧ bchain.zeroTx.Vin = [] ∧ bchain.zeroTx.Vout = [] := by
  refine ⟨_, getBlockFull_ok b hash res result hcall herr hres, rfl,
    getBlockFull_txs_length b result.Txs, ?_, rfl, rfl, rfl⟩
  intro i msg hi
  have e := getBlockFull_txs_slot b result.Txs i msg hi
  refine ⟨fun err he => ?_, fun tx he => ?_⟩
  · rw [he] at e
    exact e
  · rw [he] at e
    exact e

/-- The block of the examples has three raw transactions; the parser rejects the second
one, so the block that `GetBlockFull` returns has three slots, the first and the third
with the parsed transactions and the second with the zero-valued transaction. -/
theorem GetBlockFull_slots_witness :
    ∃ block : bchain.Block,
      fixtureRPC.GetBlockFull
          "4ba8b2b5a28b1d4b5a1a3a4e46a8a64c88d1aa0f5d5a9d7ead8a3e1a8d9b3d61" =
        some (.ok block) ∧
      block.BlockHeader.Height = 2025554 ∧
      block.Txs.length = 3 ∧
      block.Txs[0]? = some fixtureBlindResult ∧
      block.Txs[1]? = some bchain.zeroTx ∧
      block.Txs[2]? = some fixtureDataResult :=
  match GetBlockFull_slots fixtureRPC
      "4ba8b2b5a28b1d4b5a1a3a4e46a8a64c88d1aa0f5d5a9d7ead8a3e1a8d9b3d61"
      { Error := none
        Result := some
          { BlockHeader :=
              { Hash := "4ba8b2b5a28b1d4b5a1a3a4e46a8a64c88d1aa0f5d5a9d7ead8a3e1a8d9b3d61"
                Prev := "", Next := "", Height := 2025554, Confirmations := 1
                Size := 1024, Time := 1761309840 }
            Txs := ["blind", "bad amount", "data"] } }
      { BlockHeader :=
          { Hash := "4ba8b2b5a28b1d4b5a1a3a4e46a8a64c88d1aa0f5d5a9d7ead8a3e1a8d9b3d61"
            Prev := "", Next := "", Height := 2025554, Confirmations := 1
            Size := 1024, Time := 1761309840 }
        Txs := ["blind", "bad amount", "data"] }
      (by decide) rfl rfl with
  | ⟨block, hb, hh, hl, hs, _⟩ =>
    ⟨block, hb, by rw [hh], hl,
      (hs 0 "blind" rfl).2 _ parse_fixtures.1,
      (hs 1 "bad amount" rfl).1 _ parse_fixtures.2.2,
      (hs 2 "data" rfl).2 _ parse_fixtures.2.1⟩

end part
